import Mathlib

/-!
# Dot: scene graph, scene manager and coroutine scheduler

A shallow embedding of `src/Dot/dot.h` and `src/Dot/dot.cpp`.

Conventions of the embedding.

* `float` seconds: `WaitForSeconds` takes them as exact rationals (`ℚ`), the reading of
  the properties that stipulate exact arithmetic; `WaitForSecondsFloat` is the same class
  with `timeRemaining` a binary32 float and the subtraction rounded.  A frame time `dt` is
  given by its value, a rational.
* A heap object is named by its address, a natural number; a fresh address is
  drawn from an allocation counter, so an address is never reused.
* Mutating member functions return the new state; hook invocations that the
  source makes (`Start`, `OnDestroy`, `ProcessInput`, step functions, ...) are
  recorded in an event trace so that "invoked exactly once" can be stated.
* An operation whose C++ behaviour is undefined (dereferencing a null pointer,
  using or deleting a destroyed object) returns `Except.error` with the fault.
-/

namespace Dot

/-! ## Coroutines (`dot.h` 63-108, `dot.cpp` 173-231) -/

/-- The abstract class `CoroutineYield`: one virtual method `IsComplete(dt)`, which may
mutate the predicate, so it returns the answer together with the predicate afterwards. -/
class CoroutineYield (Y : Type) where
  IsComplete : Y → ℚ → Bool × Y

/-- The class `WaitForSeconds` in exact arithmetic; `WaitForSeconds.mk s` is the constructor
`WaitForSeconds(seconds)`, which stores `seconds` in `timeRemaining`. -/
structure WaitForSeconds where
  timeRemaining : ℚ
deriving DecidableEq, Repr

/-- The method `WaitForSeconds::IsComplete` in exact arithmetic:
`timeRemaining -= dt; return timeRemaining <= 0;`. -/
def WaitForSeconds.IsComplete (w : WaitForSeconds) (dt : ℚ) : Bool × WaitForSeconds :=
  let timeRemaining := w.timeRemaining - dt
  (decide (timeRemaining ≤ 0), { timeRemaining := timeRemaining })

instance : CoroutineYield WaitForSeconds := ⟨WaitForSeconds.IsComplete⟩

/-- A step function object `std::function<CoroutineYield* ()>`.  `tag` names the function
object in traces, `results n` is what its `n`-th invocation (from 0) returns (`none` is the
null pointer), and `calls` counts the invocations made so far.  A step function is taken not
to call back into the `CoroutineManager` while it runs. -/
structure StepFn (Y : Type) where
  tag : Nat
  results : Nat → Option Y
  calls : Nat

/-- One invocation `func()`: the returned predicate and the function object afterwards. -/
def StepFn.call {Y : Type} (f : StepFn Y) : Option Y × StepFn Y :=
  (f.results f.calls, { f with calls := f.calls + 1 })

/-- The struct `Coroutine`: the step function and the pending predicate. -/
structure Coroutine (Y : Type) where
  func : StepFn Y
  currentYield : Option Y

/-- The constructor `Coroutine(f)`: `func(f), currentYield(nullptr)`. -/
def Coroutine.new {Y : Type} (f : StepFn Y) : Coroutine Y :=
  { func := f, currentYield := none }

/-- Lines 209-219 of `CoroutineManager::Update`: with a pending predicate that is not
complete after `IsComplete(dt)` the result is `some c`, the coroutine to leave in place
(`++i; continue`); otherwise `none`: the predicate, if any, is deleted and control falls
through to the invocation of `func`. -/
def Coroutine.stillWaiting {Y : Type} [CoroutineYield Y] (dt : ℚ) (coroutine : Coroutine Y) :
    Option (Coroutine Y) :=
  match coroutine.currentYield with
  | some y =>
    if !(CoroutineYield.IsComplete y dt).1 then
      some { coroutine with currentYield := some (CoroutineYield.IsComplete y dt).2 }
    else none
  | none => none

/-- The loop of `CoroutineManager::Update` from index `i` on, over the vector `coroutines`;
`log` collects the tags of the step functions invoked, in order of invocation. -/
def CoroutineManager.updateFrom {Y : Type} [CoroutineYield Y] (dt : ℚ)
    (coroutines : List (Coroutine Y)) (i : Nat) (log : List Nat) :
    List (Coroutine Y) × List Nat :=
  if h : i < coroutines.length then
    let coroutine := coroutines[i]
    match coroutine.stillWaiting dt with
    | some waiting =>
      CoroutineManager.updateFrom dt (coroutines.set i waiting) (i + 1) log
    | none =>
      match coroutine.func.call with
      | (none, _) =>
        CoroutineManager.updateFrom dt (coroutines.eraseIdx i) i (log ++ [coroutine.func.tag])
      | (some y, func) =>
        CoroutineManager.updateFrom dt
          (coroutines.set i { func := func, currentYield := some y }) (i + 1)
          (log ++ [coroutine.func.tag])
  else (coroutines, log)
termination_by coroutines.length - i
decreasing_by
  · simp only [List.length_set]; omega
  · simp only [List.length_eraseIdx, h, if_true]; omega
  · simp only [List.length_set]; omega

/-- The class `CoroutineManager`: the vector of live coroutines. -/
structure CoroutineManager (Y : Type) where
  coroutines : List (Coroutine Y)

/-- The method `CoroutineManager::StartCoroutine`: `coroutines.emplace_back(coroutine)`. -/
def CoroutineManager.StartCoroutine {Y : Type} (m : CoroutineManager Y) (coroutine : StepFn Y) :
    CoroutineManager Y :=
  { coroutines := m.coroutines ++ [Coroutine.new coroutine] }

/-- The method `CoroutineManager::Update`: the manager afterwards and the tags of the step
functions invoked during the call, in order. -/
def CoroutineManager.Update {Y : Type} [CoroutineYield Y] (m : CoroutineManager Y) (dt : ℚ) :
    CoroutineManager Y × List Nat :=
  let r := CoroutineManager.updateFrom dt m.coroutines 0 []
  ({ coroutines := r.1 }, r.2)

/-- What the specification says happens to one live coroutine in a tick: with a pending
predicate that is not complete after being advanced by `dt` it is kept and its step function
is not invoked; otherwise the step function is invoked once and the coroutine is kept with
the returned predicate, or removed when none is returned.  The result is the coroutine
afterwards (`none`: removed) and the tags of the step functions invoked. -/
def Coroutine.tickSpec {Y : Type} [CoroutineYield Y] (dt : ℚ) (c : Coroutine Y) :
    Option (Coroutine Y) × List Nat :=
  match c.currentYield with
  | some y =>
    if (CoroutineYield.IsComplete y dt).1 then
      ((c.func.call.1).map (fun p => { func := c.func.call.2, currentYield := some p }),
        [c.func.tag])
    else (some { func := c.func, currentYield := some (CoroutineYield.IsComplete y dt).2 }, [])
  | none =>
    ((c.func.call.1).map (fun p => { func := c.func.call.2, currentYield := some p }),
      [c.func.tag])

/-- Successive calls `Update(dt)`, one for each `dt` of the list in order: the manager after
the last call and, for every call, the tags of the step functions it invoked. -/
def CoroutineManager.UpdateAll {Y : Type} [CoroutineYield Y] (m : CoroutineManager Y) :
    List ℚ → CoroutineManager Y × List (List Nat)
  | [] => (m, [])
  | dt :: dts =>
    ((CoroutineManager.UpdateAll (m.Update dt).1 dts).1,
      (m.Update dt).2 :: (CoroutineManager.UpdateAll (m.Update dt).1 dts).2)

/-- The step function of the worked example: its invocations return `WaitForSeconds(2)`,
then `WaitForSeconds(1)`, then no predicate. -/
def exampleSteps : StepFn WaitForSeconds :=
  { tag := 7
    results := fun n => if n = 0 then some ⟨2⟩ else if n = 1 then some ⟨1⟩ else none
    calls := 0 }

/-! ## 32-bit floats (`float` in `dot.h` 74 and `dot.cpp` 174-182) -/

/-- A value of the C++ type `float`, taken as IEEE 754 binary32.  A finite value is a whole
number of units of `2 ^ (-149)` (the smallest positive float) whose magnitude has at most 24
significant bits and lies below `2 ^ 277` units (that is `2 ^ 128`); the sign of a zero is
not kept, since subtraction and comparison with zero do not depend on it. -/
inductive Float32
  | finite (units : Int)
  | infinity (negative : Bool)
  | nan
deriving DecidableEq, Repr

/-- The number of low bits that a magnitude of `a` units has beyond a 24-bit significand:
the least `s` with `a < 2 ^ (24 + s)`, and 254 for a magnitude beyond all finite floats. -/
def Float32.shift (a : Nat) : Nat :=
  ((List.range 254).find? (fun s => decide (a < 2 ^ (24 + s)))).getD 254

/-- Rounding to the nearest float, ties to the even significand, of the exact magnitude
`n / d` units with the given sign: the magnitude is cut to the multiples of `2 ^ s` units,
`s` the shift of its integer part; a result of `2 ^ 277` units or more is an infinity. -/
def Float32.round (negative : Bool) (n d : Nat) : Float32 :=
  let s := Float32.shift (n / d)
  let g := 2 ^ s * d
  let k := n / g
  let r := n % g
  let m := (if g < 2 * r ∨ (2 * r = g ∧ k % 2 = 1) then k + 1 else k) * 2 ^ s
  if 2 ^ 277 ≤ m then .infinity negative
  else .finite (if negative then -(m : Int) else (m : Int))

/-- The float nearest to a rational number: the conversion of a real value to `float`. -/
def Float32.ofRat (q : ℚ) : Float32 :=
  Float32.round (decide (q.num < 0)) (q.num.natAbs * 2 ^ 149) q.den

/-- The operator `-` on `float`: the exact difference rounded to the nearest float. -/
def Float32.sub : Float32 → Float32 → Float32
  | .finite a, .finite b => Float32.round (decide (a - b < 0)) (a - b).natAbs 1
  | .finite _, .infinity negative => .infinity (!negative)
  | .infinity negative, .finite _ => .infinity negative
  | .infinity negative, .infinity other => if negative = other then .nan else .infinity negative
  | .nan, _ => .nan
  | _, .nan => .nan

/-- The value of a finite float as a rational number. -/
def Float32.toRat : Float32 → Option ℚ
  | .finite units => some ((units : ℚ) / 2 ^ 149)
  | _ => none

/-- The value of a `float` variable `x` after the statements `x -= dt` for the `dt` of the
list in order. -/
def Float32.subAll (x : Float32) (dts : List ℚ) : Float32 :=
  dts.foldl (fun t dt => t.sub (Float32.ofRat dt)) x

/-- The comparison `x <= 0` on `float`; it is false of a NaN. -/
def Float32.leZero : Float32 → Bool
  | .finite a => decide (a ≤ 0)
  | .infinity negative => negative
  | .nan => false

/-- The class `WaitForSeconds` with `timeRemaining` the `float` that it is in `dot.h` 74. -/
structure WaitForSecondsFloat where
  timeRemaining : Float32
deriving DecidableEq, Repr

/-- The constructor `WaitForSeconds(float seconds)`: `timeRemaining(seconds)`. -/
def WaitForSecondsFloat.new (seconds : ℚ) : WaitForSecondsFloat :=
  { timeRemaining := Float32.ofRat seconds }

/-- The method `WaitForSeconds::IsComplete(float dt)` in `float` arithmetic:
`timeRemaining -= dt; return timeRemaining <= 0;`, with `dt` the value of the argument. -/
def WaitForSecondsFloat.IsComplete (w : WaitForSecondsFloat) (dt : ℚ) :
    Bool × WaitForSecondsFloat :=
  let timeRemaining := w.timeRemaining.sub (Float32.ofRat dt)
  (timeRemaining.leZero, { timeRemaining := timeRemaining })

instance : CoroutineYield WaitForSecondsFloat := ⟨WaitForSecondsFloat.IsComplete⟩

/-- A step function whose invocations return `WaitForSeconds(s)` for the values `s` of
`waits` in turn and then no predicate; with `[2, 1]` these are the steps of the worked
example. -/
def floatSteps (waits : List ℚ) : StepFn WaitForSecondsFloat :=
  { tag := 7
    results := fun n => (waits.get? n).map WaitForSecondsFloat.new
    calls := 0 }

/-! ## Scene graph nodes (`dot.h` 13-61, `dot.cpp` 4-62) -/

/-- The dynamic type of a node: `Node` and its subclasses in `dot.h` and
`scenes/default_scene.h`. -/
inductive NodeKind
  | node | spatialNode | cameraNode | blueCube | redCube
deriving DecidableEq, Repr

/-- Whether the dynamic type is `CameraNode` (`dynamic_cast<CameraNode*>` succeeds). -/
def NodeKind.isCamera : NodeKind → Bool
  | .cameraNode => true
  | _ => false

/-- What the program does that can be observed from outside an object: hook invocations,
destructions and console output, in the order in which they happen. -/
inductive Event
  | nodeStart (node : Nat)
  | onDestroy (node : Nat)
  | nodeDestroyed (node : Nat)
  | nodeUpdate (node : Nat)
  | processInput (node : Nat)
  | nodeDraw (node : Nat)
  | print (text : String)
  | bindAction (action : String)
  | sceneStart (scene : Nat)
  | sceneUnload (scene : Nat)
  | sceneReload (scene : Nat)
  | sceneDestroyed (scene : Nat)
  | beginMode3D (camera : Nat)
  | endMode3D
  | initWindow
  | closeWindow
  | debugOverlay (sceneName : String)
  | inputUpdate
  | beginDrawing
  | clearBackground
  | endDrawing
deriving DecidableEq, Repr

/-- A `Node` object together with the nodes it owns: its address `id`, its dynamic type, the
`parent` pointer (`none` is `nullptr`) and the vector `children`, each child standing for the
owned object the pointer refers to.  The transform and camera fields of the subclasses are
floating-point data and are left out. -/
inductive Node where
  | mk (id : Nat) (kind : NodeKind) (parent : Option Nat) (children : List Node)
deriving Repr

/-- The address of the node. -/
def Node.id : Node → Nat
  | .mk id _ _ _ => id

/-- The dynamic type of the node. -/
def Node.kind : Node → NodeKind
  | .mk _ kind _ _ => kind

/-- The field `parent`. -/
def Node.parent : Node → Option Nat
  | .mk _ _ parent _ => parent

/-- The field `children` (`GetChildren`). -/
def Node.children : Node → List Node
  | .mk _ _ _ children => children

/-- The constructor `Node::Node()` at address `id` for an object of dynamic type `kind`:
`parent = nullptr`, no children. -/
def Node.new (id : Nat) (kind : NodeKind) : Node :=
  .mk id kind none []

mutual
/-- The addresses of the node and of all nodes below it, depth first, parents before
children, children in vector order. -/
def Node.ids : Node → List Nat
  | .mk id _ _ children => id :: Node.idsOfList children
/-- The addresses of the nodes of a sequence of trees. -/
def Node.idsOfList : List Node → List Nat
  | [] => []
  | c :: cs => c.ids ++ Node.idsOfList cs
end

mutual
/-- The expression `delete node`: the destructor `Node::~Node` deletes every child in vector
order, then the object itself is gone. -/
def Node.delete : Node → List Event
  | .mk id _ _ children => Node.deleteAll children ++ [Event.nodeDestroyed id]
/-- The loop `for (Node* child : children) delete child;`. -/
def Node.deleteAll : List Node → List Event
  | [] => []
  | c :: cs => c.delete ++ Node.deleteAll cs
end

/-- The method `Node::AddChild`: `child->parent = this; children.push_back(child);
child->Start();`. -/
def Node.AddChild (self : Node) (child : Node) : Node × List Event :=
  (.mk self.id self.kind self.parent
      (self.children ++ [.mk child.id child.kind (some self.id) child.children]),
    [Event.nodeStart child.id])

/-- The method `Node::RemoveChild`, called with the address `child`: `std::find` locates the
first entry equal to `child`; when there is one, `OnDestroy` is invoked on it, it is deleted
and the entry is erased. -/
def Node.RemoveChild (self : Node) (child : Nat) : Node × List Event :=
  match self.children.find? (fun c => c.id == child) with
  | some it =>
    (.mk self.id self.kind self.parent (self.children.eraseP (fun c => c.id == child)),
      Event.onDestroy it.id :: it.delete)
  | none => (self, [])

mutual
/-- The virtual method `Update(dt)`.  `Node::Update` runs `ProcessInput()` and then updates
every child in vector order; the overrides in `CameraNode`, `BlueCube` and `RedCube` change
floating-point fields only and then call `Node::Update`. -/
def Node.Update (dt : ℚ) : Node → List Event
  | .mk id _ _ children =>
    Event.nodeUpdate id :: Event.processInput id :: Node.updateAll dt children
/-- The loop `for (Node* child : children) child->Update(dt);`. -/
def Node.updateAll (dt : ℚ) : List Node → List Event
  | [] => []
  | c :: cs => c.Update dt ++ Node.updateAll dt cs
end

mutual
/-- The virtual method `Draw()`.  `Node::Draw` draws every child in vector order; the
overrides in `BlueCube` and `RedCube` submit their own primitives and then call
`Node::Draw`. -/
def Node.Draw : Node → List Event
  | .mk id _ _ children => Event.nodeDraw id :: Node.drawAll children
/-- The loop `for (Node* child : children) child->Draw();`. -/
def Node.drawAll : List Node → List Event
  | [] => []
  | c :: cs => c.Draw ++ Node.drawAll cs
end

mutual
/-- The node object at address `a` in the tree, if there is one. -/
def Node.find? : Node → Nat → Option Node
  | .mk id kind parent children, a =>
    if id = a then some (.mk id kind parent children) else Node.findInList? children a
/-- The node object at address `a` in a sequence of trees. -/
def Node.findInList? : List Node → Nat → Option Node
  | [], _ => none
  | c :: cs, a =>
    match c.find? a with
    | some n => some n
    | none => Node.findInList? cs a
end

mutual
/-- A call of the mutating method `f` on the node object at address `a` of the tree: the
tree afterwards and the events of the call.  Without such a node nothing happens. -/
def Node.callAt (f : Node → Node × List Event) : Node → Nat → Node × List Event
  | .mk id kind parent children, a =>
    if id = a then f (.mk id kind parent children)
    else (.mk id kind parent (Node.callInList f children a).1, (Node.callInList f children a).2)
/-- A call of `f` on the node object at address `a` of a sequence of trees. -/
def Node.callInList (f : Node → Node × List Event) : List Node → Nat → List Node × List Event
  | [], _ => ([], [])
  | c :: cs, a =>
    match c.find? a with
    | some _ => ((c.callAt f a).1 :: cs, (c.callAt f a).2)
    | none => (c :: (Node.callInList f cs a).1, (Node.callInList f cs a).2)
end

/-- A construction of a tree by `AddChild` calls only: create the node `id` of dynamic type
`kind`, then attach the trees built by `attach` to it, one `AddChild` call each, in list
order. -/
inductive Build where
  | mk (id : Nat) (kind : NodeKind) (attach : List Build)

mutual
/-- The tree that the construction yields. -/
def Build.run : Build → Node
  | .mk id kind attach => Build.attachAll attach (Node.new id kind)
/-- The calls `p.AddChild(c)` for the trees built by the list, in list order. -/
def Build.attachAll : List Build → Node → Node
  | [], p => p
  | c :: cs, p => Build.attachAll cs (p.AddChild c.run).1
end

mutual
/-- The node addresses of a construction, every node followed by the nodes of the trees
attached to it, in the order of the `AddChild` calls. -/
def Build.order : Build → List Nat
  | .mk id _ attach => id :: Build.orderAll attach
/-- The node addresses of a list of constructions. -/
def Build.orderAll : List Build → List Nat
  | [] => []
  | c :: cs => c.order ++ Build.orderAll cs
end

/-- The addresses of the nodes that a trace reports as destroyed, in order. -/
def destroyedNodes : List Event → List Nat
  | [] => []
  | Event.nodeDestroyed n :: es => n :: destroyedNodes es
  | _ :: es => destroyedNodes es

/-- The example tree of `DefaultScene`: root 1 with the camera 2 and the blue cube 3, which
owns the red cube 4. -/
def exampleTree : Node :=
  .mk 1 .node none
    [.mk 2 .cameraNode (some 1) [], .mk 3 .blueCube (some 1) [.mk 4 .redCube (some 3) []]]

/-! ## Scenes and the scene manager (`dot.h` 110-164, `dot.cpp` 233-436) -/

/-- The dynamic type of a scene: `Scene` and its subclasses in `scenes/default_scene.h`. -/
inductive SceneKind
  | scene | defaultScene | nextScene
deriving DecidableEq, Repr

/-- Undefined behaviour that an operation can run into. -/
inductive Fault
  | nullDereference
  | useAfterFree
  | doubleDelete
deriving DecidableEq, Repr

/-- A `Scene` object: its dynamic type and the fields `name`, `root` (with the tree it owns;
`none` is `nullptr`) and `cameraNode` (the address of a camera node, not owned). -/
structure Scene where
  kind : SceneKind
  name : String
  root : Option Node
  cameraNode : Option Nat
deriving Repr

/-- The fields of the singleton `SceneManager`; `sceneMap` lists the entries of the
`unordered_map` and a key is looked up with `List.lookup`. -/
structure SceneManager where
  currentScene : Option Nat
  currentSceneName : String
  sceneMap : List (String × Nat)
deriving DecidableEq, Repr

/-- The state of the program: the live `Scene` objects by address (a destroyed or never
constructed scene is `none`), the scene manager, the next address that `new` hands out and
the trace of events so far. -/
structure World where
  scenes : Nat → Option Scene
  manager : SceneManager
  nextAddr : Nat
  trace : List Event

/-- The method `Scene::Unload` on the scene object at address `self`: `delete root;
root = nullptr; cameraNode = nullptr;` (deleting a null `root` does nothing). -/
def Scene.Unload (scene : Scene) (self : Nat) : Scene × List Event :=
  ({ scene with root := none, cameraNode := none },
    Event.sceneUnload self ::
      (match scene.root with
       | some root => root.delete
       | none => []))

/-- The virtual method `Start` of the scene at address `self`; `nextAddr` is the next address
that `new` hands out.  `Scene::Start` is empty.  `DefaultScene::Start` binds the input action,
attaches a new camera to the root and makes it the scene camera, creates a blue cube, attaches
a new red cube to it and attaches the blue cube to the root; `NextScene::Start` does the same
without the red cube.  `GetRoot()->AddChild` dereferences `root`. -/
def Scene.Start (scene : Scene) (self : Nat) (nextAddr : Nat) :
    Except Fault (Scene × Nat × List Event) :=
  match scene.kind with
  | .scene => .ok (scene, nextAddr, [Event.sceneStart self])
  | .defaultScene =>
    match scene.root with
    | none => .error Fault.nullDereference
    | some root =>
      let camera := Node.new nextAddr .cameraNode
      let root1 := root.AddChild camera
      let cube := Node.new (nextAddr + 1) .blueCube
      let redCube := Node.new (nextAddr + 2) .redCube
      let cube1 := cube.AddChild redCube
      let root2 := root1.1.AddChild cube1.1
      .ok ({ scene with root := some root2.1, cameraNode := some camera.id }, nextAddr + 3,
        Event.sceneStart self :: Event.bindAction "Change Scene" ::
          (root1.2 ++ cube1.2 ++ root2.2))
  | .nextScene =>
    match scene.root with
    | none => .error Fault.nullDereference
    | some root =>
      let camera := Node.new nextAddr .cameraNode
      let root1 := root.AddChild camera
      let cube := Node.new (nextAddr + 1) .blueCube
      let root2 := root1.1.AddChild cube
      .ok ({ scene with root := some root2.1, cameraNode := some camera.id }, nextAddr + 2,
        Event.sceneStart self :: Event.bindAction "Change Scene" :: (root1.2 ++ root2.2))

/-- The method `Scene::Reload` on the scene at address `self`: print, `Unload()`,
`root = new Node()`, `cameraNode = nullptr`, `Start()`. -/
def Scene.Reload (scene : Scene) (self : Nat) (nextAddr : Nat) :
    Except Fault (Scene × Nat × List Event) :=
  let unloaded := scene.Unload self
  let fresh : Scene :=
    { unloaded.1 with root := some (Node.new nextAddr .node), cameraNode := none }
  match fresh.Start self (nextAddr + 1) with
  | .error e => .error e
  | .ok (started, next, events) =>
    .ok (started, next,
      Event.sceneReload self :: Event.print ("[Scene] Resetting scene: " ++ scene.name ++ "\n") ::
        (unloaded.2 ++ events))

/-- The method `Scene::Update`: `if (root) root->Update(dt);`. -/
def Scene.Update (scene : Scene) (dt : ℚ) : List Event :=
  match scene.root with
  | some root => root.Update dt
  | none => []

mutual
/-- The method `Scene::FindFirstCameraNode` on a node that exists: the node itself when it is
a `CameraNode`, otherwise the first hit among the children in vector order. -/
def Node.findFirstCameraNode : Node → Option Nat
  | .mk id kind _ children =>
    if kind.isCamera then some id else Node.findFirstCameraNodeIn children
/-- The loop over `node->GetChildren()` in `Scene::FindFirstCameraNode`. -/
def Node.findFirstCameraNodeIn : List Node → Option Nat
  | [] => none
  | c :: cs =>
    match c.findFirstCameraNode with
    | some found => some found
    | none => Node.findFirstCameraNodeIn cs
end

/-- The method `Scene::FindFirstCameraNode(node)` for a pointer that may be null: the
`dynamic_cast` of a null pointer is null, and then `node->GetChildren()` dereferences it. -/
def Scene.FindFirstCameraNode : Option Node → Except Fault (Option Nat)
  | none => .error Fault.nullDereference
  | some node => .ok node.findFirstCameraNode

/-- The events of the two branches of `Scene::Draw` once `cameraNode` is settled. -/
def Scene.drawWith (scene : Scene) : List Event :=
  let tree := match scene.root with
    | some root => root.Draw
    | none => []
  match scene.cameraNode with
  | some camera => Event.beginMode3D camera :: (tree ++ [Event.endMode3D])
  | none => tree

/-- Whether the pointer `camera` that a scene holds in `cameraNode` refers to a live
`CameraNode` object.  The node objects of a scene are those of its tree (`RemoveChild` and
`Unload` destroy what they take out, and no code of the repository gives a scene the camera
of another tree), so the pointer is live when the tree has a camera node at that address. -/
def Scene.cameraIsLive (scene : Scene) (camera : Nat) : Bool :=
  match scene.root with
  | some root =>
    match root.find? camera with
    | some node => node.kind.isCamera
    | none => false
  | none => false

/-- The method `Scene::Draw`: without a camera, `cameraNode = FindFirstCameraNode(root)`;
then the tree is drawn, between `BeginMode3D` and `EndMode3D` when there is a camera.  A
camera that was set before the call is dereferenced by `cameraNode->GetCamera()`, which is
undefined when the node has been destroyed; a camera that the search has just returned is a
node of the tree. -/
def Scene.Draw (scene : Scene) : Except Fault (Scene × List Event) :=
  match scene.cameraNode with
  | none =>
    match Scene.FindFirstCameraNode scene.root with
    | .error e => .error e
    | .ok found =>
      .ok ({ scene with cameraNode := found }, Scene.drawWith { scene with cameraNode := found })
  | some camera =>
    if scene.cameraIsLive camera then .ok (scene, Scene.drawWith scene)
    else .error Fault.useAfterFree

/-- The method `SceneManager::RegisterScene`: `sceneMap[name] = scene`, which overwrites the
entry of a key that is present and adds an entry otherwise. -/
def SceneManager.RegisterScene (m : SceneManager) (name : String) (scene : Nat) :
    SceneManager :=
  { m with
    sceneMap :=
      if (m.sceneMap.lookup name).isSome then
        m.sceneMap.map (fun e => if e.1 = name then (name, scene) else e)
      else m.sceneMap ++ [(name, scene)] }

/-- The expression `new K(name)` for a scene class `K`: the object gets the next address, the
constructor `Scene::Scene` makes the root with `new Node()` and registers the scene under its
name.  The result is the state afterwards and the address of the scene. -/
def Scene.new (w : World) (kind : SceneKind) (name : String) : World × Nat :=
  ({ scenes := Function.update w.scenes w.nextAddr
        (some { kind := kind, name := name, root := some (Node.new (w.nextAddr + 1) .node),
                cameraNode := none })
     manager := w.manager.RegisterScene name w.nextAddr
     nextAddr := w.nextAddr + 2
     trace := w.trace }, w.nextAddr)

/-- A call `scene->Unload()` through the pointer `scene`. -/
def World.unloadScene (w : World) (scene : Nat) : Except Fault World :=
  match w.scenes scene with
  | none => .error Fault.useAfterFree
  | some s =>
    .ok { w with
      scenes := Function.update w.scenes scene (some (s.Unload scene).1)
      trace := w.trace ++ (s.Unload scene).2 }

/-- A call `scene->Reload()` through the pointer `scene`. -/
def World.reloadScene (w : World) (scene : Nat) : Except Fault World :=
  match w.scenes scene with
  | none => .error Fault.useAfterFree
  | some s =>
    match s.Reload scene w.nextAddr with
    | .error e => .error e
    | .ok (s', next, events) =>
      .ok { w with
        scenes := Function.update w.scenes scene (some s')
        nextAddr := next
        trace := w.trace ++ events }

/-- A call `scene->Start()` through the pointer `scene`. -/
def World.startScene (w : World) (scene : Nat) : Except Fault World :=
  match w.scenes scene with
  | none => .error Fault.useAfterFree
  | some s =>
    match s.Start scene w.nextAddr with
    | .error e => .error e
    | .ok (s', next, events) =>
      .ok { w with
        scenes := Function.update w.scenes scene (some s')
        nextAddr := next
        trace := w.trace ++ events }

/-- The expression `delete scene`: the destructor `Scene::~Scene` calls `Unload()`, then the
object is gone.  Deleting an object that is already destroyed is undefined. -/
def World.deleteScene (w : World) (scene : Nat) : Except Fault World :=
  match w.scenes scene with
  | none => .error Fault.doubleDelete
  | some s =>
    .ok { w with
      scenes := Function.update w.scenes scene none
      trace := w.trace ++ (s.Unload scene).2 ++ [Event.sceneDestroyed scene] }

/-- The method `SceneManager::ChangeSceneByName`. -/
def SceneManager.ChangeSceneByName (w : World) (name : String) : Except Fault World :=
  match w.manager.sceneMap.lookup name with
  | none =>
    .ok { w with
      trace := w.trace ++ [Event.print ("[SceneManager] Scene not found: " ++ name ++ "\n")] }
  | some newScene =>
    let reloaded : Except Fault World :=
      if w.manager.currentScene = some newScene then
        w.reloadScene newScene
      else
        World.reloadScene { w with manager := { w.manager with currentScene := some newScene } }
          newScene
    match reloaded with
    | .error e => .error e
    | .ok w' => .ok { w' with manager := { w'.manager with currentSceneName := name } }

/-- The first statement of `SceneManager::ChangeScene` and of `SceneManager::UnloadScene`:
`if (currentScene) { currentScene->Unload(); delete currentScene; }`. -/
def SceneManager.destroyCurrent (w : World) : Except Fault World :=
  match w.manager.currentScene with
  | none => .ok w
  | some current =>
    match w.unloadScene current with
    | .error e => .error e
    | .ok w' => w'.deleteScene current

/-- The method `SceneManager::ChangeScene`, called with the address of a scene. -/
def SceneManager.ChangeScene (w : World) (newScene : Nat) : Except Fault World :=
  match SceneManager.destroyCurrent w with
  | .error e => .error e
  | .ok w' =>
    World.startScene { w' with manager := { w'.manager with currentScene := some newScene } }
      newScene

/-- The method `SceneManager::UnloadScene`. -/
def SceneManager.UnloadScene (w : World) : Except Fault World :=
  match w.manager.currentScene with
  | none => .ok w
  | some _ =>
    match SceneManager.destroyCurrent w with
    | .error e => .error e
    | .ok w' => .ok { w' with manager := { w'.manager with currentScene := none } }

/-- The loop `for (auto& pair : sceneMap) if (pair.second) delete pair.second;` over the
entries of the map. -/
def World.deleteAll (w : World) : List (String × Nat) → Except Fault World
  | [] => .ok w
  | pair :: rest =>
    match w.deleteScene pair.2 with
    | .error e => .error e
    | .ok w' => World.deleteAll w' rest

/-- The method `SceneManager::UnloadAllScenes`. -/
def SceneManager.UnloadAllScenes (w : World) : Except Fault World :=
  let unloaded : Except Fault World :=
    match w.manager.currentScene with
    | none => .ok w
    | some current =>
      match w.unloadScene current with
      | .error e => .error e
      | .ok w' =>
        .ok { w' with manager := { w'.manager with currentScene := none, currentSceneName := "" } }
  match unloaded with
  | .error e => .error e
  | .ok w' =>
    match World.deleteAll w' w'.manager.sceneMap with
    | .error e => .error e
    | .ok w'' => .ok { w'' with manager := { w''.manager with sceneMap := [] } }

/-- The state at program start: no scene object, the manager as initialised in `dot.h`. -/
def World.initial : World :=
  { scenes := fun _ => none
    manager := { currentScene := none, currentSceneName := "None", sceneMap := [] }
    nextAddr := 1
    trace := [] }

/-- The fault an operation ran into, if any. -/
def faultOf {α : Type} : Except Fault α → Option Fault
  | .error e => some e
  | .ok _ => none

/-- The state after `new DefaultScene(); new NextScene();` as in `main.cpp`: the scenes are at
addresses 1 and 3, their roots at 2 and 4, and the registry maps "Default" to 1 and "Next"
to 3. -/
def World.twoScenes : World :=
  (Scene.new (Scene.new World.initial .defaultScene "Default").1 .nextScene "Next").1

/-- The run `ChangeScene(defaultScene); ChangeScene(nextScene);` from `World.twoScenes`. -/
def World.afterDirectChanges : Except Fault World :=
  match SceneManager.ChangeScene World.twoScenes 1 with
  | .error e => .error e
  | .ok w => SceneManager.ChangeScene w 3

/-- The state after `Scene* a = new Scene("A"); RegisterScene("B", a);`: the scene at address
1 is registered under two names. -/
def World.registeredTwice : World :=
  let w := (Scene.new World.initial .scene "A").1
  { w with manager := w.manager.RegisterScene "B" 1 }

/-- The state after the first three statements of `main`: `new DefaultScene();
new NextScene(); ChangeSceneByName("Default");`. -/
def World.mainStart : World :=
  match SceneManager.ChangeSceneByName World.twoScenes "Default" with
  | .ok w => w
  | .error _ => World.twoScenes

/-- The state after `UnloadScene()` in `World.mainStart`: the default scene at address 1 is
destroyed and no scene is current; the registry is as before. -/
def World.afterUnloadScene : World :=
  match SceneManager.UnloadScene World.mainStart with
  | .ok w => w
  | .error _ => World.mainStart

/-- The default scene in `World.mainStart`: root 5 with the camera 6 and the blue cube 7,
which owns the red cube 8. -/
def exampleDefaultScene : Scene :=
  { kind := .defaultScene
    name := "Default"
    root := some (.mk 5 .node none
      [.mk 6 .cameraNode (some 5) [], .mk 7 .blueCube (some 5) [.mk 8 .redCube (some 7) []]])
    cameraNode := some 6 }

/-- The next scene in `World.mainStart`: constructed, not started. -/
def exampleNextScene : Scene :=
  { kind := .nextScene, name := "Next", root := some (Node.new 4 .node), cameraNode := none }

/-- The blue cube of `exampleTree` with its red cube. -/
def exampleCube : Node :=
  .mk 3 .blueCube (some 1) [.mk 4 .redCube (some 3) []]

/-! ## Definitions for the later properties -/

/-- Successive calls `IsComplete(dt)` on one `WaitForSeconds` object, one for each `dt` of the
list in order: the answers of the calls and the object after the last call. -/
def WaitForSeconds.IsCompleteAll (w : WaitForSeconds) : List ℚ → List Bool × WaitForSeconds
  | [] => ([], w)
  | dt :: dts =>
    ((w.IsComplete dt).1 :: (WaitForSeconds.IsCompleteAll (w.IsComplete dt).2 dts).1,
      (WaitForSeconds.IsCompleteAll (w.IsComplete dt).2 dts).2)

mutual
/-- The nodes of the tree with their dynamic types, depth first, parents before children,
children in vector order. -/
def Node.kinds : Node → List (Nat × NodeKind)
  | .mk id kind _ children => (id, kind) :: Node.kindsOfList children
/-- The nodes of a sequence of trees with their dynamic types. -/
def Node.kindsOfList : List Node → List (Nat × NodeKind)
  | [] => []
  | c :: cs => c.kinds ++ Node.kindsOfList cs
end

mutual
/-- The fields of every node object of the tree: its address, its `parent` pointer and the
addresses in its `children` vector; depth first, parents before children. -/
def Node.table : Node → List (Nat × Option Nat × List Nat)
  | .mk id _ parent children => (id, parent, children.map Node.id) :: Node.tableOfList children
/-- The fields of the node objects of a sequence of trees. -/
def Node.tableOfList : List Node → List (Nat × Option Nat × List Nat)
  | [] => []
  | c :: cs => c.table ++ Node.tableOfList cs
end

/-- The statements of `Node::AddChild` one at a time: after `child->parent = this;`, after
`children.push_back(child);` and after `child->Start();` the receiver, the child and the hook
that the statement invoked, if any. -/
def Node.AddChildSteps (self child : Node) : List (Node × Node × Option Event) :=
  [(self, .mk child.id child.kind (some self.id) child.children, none),
   (.mk self.id self.kind self.parent
      (self.children ++ [.mk child.id child.kind (some self.id) child.children]),
    .mk child.id child.kind (some self.id) child.children, none),
   (.mk self.id self.kind self.parent
      (self.children ++ [.mk child.id child.kind (some self.id) child.children]),
    .mk child.id child.kind (some self.id) child.children, some (Event.nodeStart child.id))]

mutual
/-- Whether below this node every node object has as `parent` the address of the node whose
`children` vector holds it. -/
def Node.parentsOk : Node → Bool
  | .mk id _ _ children => Node.parentsOkIn id children
/-- Whether the trees of the sequence all have `parent` equal to `p` and are consistent
below. -/
def Node.parentsOkIn (p : Nat) : List Node → Bool
  | [] => true
  | c :: cs => (c.parent == some p) && c.parentsOk && Node.parentsOkIn p cs
end

/-- The address reached from the node at address `a` of the tree by following `parent`
pointers (`GetParent`) `n` times; `none` when a pointer on the way is null or leads out of
the tree. -/
def Node.ancestorAt (T : Node) (a : Nat) : Nat → Option Nat
  | 0 => some a
  | n + 1 => (Node.ancestorAt T a n).bind (fun b => (T.find? b).bind Node.parent)

/-- The trees that a program can build: a freshly constructed node; a tree after
`P.AddChild(C)` on one of its nodes, for a tree `C` built in the same way whose node objects
are not objects of the tree; a tree after `P.RemoveChild(c)` on one of its nodes. -/
inductive Node.Reachable : Node → Prop
  | fresh (id : Nat) (kind : NodeKind) : Node.Reachable (Node.new id kind)
  | addChild (T C : Node) (a : Nat) :
      Node.Reachable T → Node.Reachable C → (∀ x ∈ C.ids, x ∉ T.ids) →
      Node.Reachable (T.callAt (fun p => p.AddChild C) a).1
  | removeChild (T : Node) (a c : Nat) :
      Node.Reachable T → Node.Reachable (T.callAt (fun p => p.RemoveChild c) a).1

/-! ## Spatial nodes and the camera (`dot.h` 38-61, `dot.cpp` 83-142) -/

/-- The raylib struct `Vector3`, with exact components. -/
structure Vector3 where
  x : ℚ
  y : ℚ
  z : ℚ
deriving DecidableEq, Repr

/-- The raymath functions that `dot.cpp` calls.  `raymath.h` is not under `src/`, so the
functions are parameters of what follows; `Matrix` is the type of raylib's matrices. -/
structure Raymath (Matrix : Type) where
  MatrixTranslate : ℚ → ℚ → ℚ → Matrix
  MatrixRotateXYZ : Vector3 → Matrix
  MatrixScale : ℚ → ℚ → ℚ → Matrix
  MatrixMultiply : Matrix → Matrix → Matrix
  Vector3Transform : Vector3 → Matrix → Vector3
  Vector3Add : Vector3 → Vector3 → Vector3

/-- The fields that `SpatialNode` adds to `Node`, with their initial values in
`SpatialNode.new`. -/
structure SpatialNode where
  position : Vector3
  scale : Vector3
  rotation : Vector3
deriving DecidableEq, Repr

/-- The member initialisers of `SpatialNode`: position 0, scale 1, rotation 0. -/
def SpatialNode.new : SpatialNode :=
  { position := ⟨0, 0, 0⟩, scale := ⟨1, 1, 1⟩, rotation := ⟨0, 0, 0⟩ }

/-- The method `SpatialNode::GetTransformMatrix`: `MatrixMultiply(MatrixMultiply(s, r), t)`
for the translation `t`, rotation `r` and scale `s` of the node. -/
def SpatialNode.GetTransformMatrix {Matrix : Type} (R : Raymath Matrix) (self : SpatialNode) :
    Matrix :=
  let t := R.MatrixTranslate self.position.x self.position.y self.position.z
  let r := R.MatrixRotateXYZ self.rotation
  let s := R.MatrixScale self.scale.x self.scale.y self.scale.z
  R.MatrixMultiply (R.MatrixMultiply s r) t

/-- An object on the chain of `parent` pointers above a node: by dynamic type either not a
`SpatialNode` (the `dynamic_cast` fails) or a `SpatialNode` with its fields. -/
inductive Ancestor
  | node
  | spatial (fields : SpatialNode)
deriving DecidableEq, Repr

/-- The method `SpatialNode::GetWorldTransform` of a node whose `parent` pointers lead through
`ancestors`, the parent first and the root last (the empty list is `parent == nullptr`):
with a parent that is a `SpatialNode` the result is the parent's world transform multiplied
with the own transform, otherwise it is the own transform. -/
def SpatialNode.GetWorldTransform {Matrix : Type} (R : Raymath Matrix) :
    SpatialNode → List Ancestor → Matrix
  | self, [] => self.GetTransformMatrix R
  | self, .node :: _ => self.GetTransformMatrix R
  | self, .spatial p :: rest =>
    R.MatrixMultiply (SpatialNode.GetWorldTransform R p rest) (self.GetTransformMatrix R)

/-- The world transform as the specification words it: the world transform of the nearest
ancestor that is spatial, whatever lies between, multiplied with the own transform, and the
own transform when no ancestor is spatial. -/
def SpatialNode.worldTransformSpec {Matrix : Type} (R : Raymath Matrix) :
    SpatialNode → List Ancestor → Matrix
  | self, [] => self.GetTransformMatrix R
  | self, .node :: rest => SpatialNode.worldTransformSpec R self rest
  | self, .spatial p :: rest =>
    R.MatrixMultiply (SpatialNode.worldTransformSpec R p rest) (self.GetTransformMatrix R)

/-- Whether no object of the chain is a `SpatialNode`. -/
def Ancestor.noneSpatial : List Ancestor → Bool
  | [] => true
  | .node :: rest => Ancestor.noneSpatial rest
  | .spatial _ :: _ => false

/-- Whether in the chain every object that is not a `SpatialNode` has no `SpatialNode`
above it. -/
def Ancestor.noGap : List Ancestor → Bool
  | [] => true
  | .node :: rest => Ancestor.noneSpatial rest
  | .spatial _ :: rest => Ancestor.noGap rest

/-- The raylib struct `Matrix`, fields in declaration order, with exact components. -/
@[ext]
structure Matrix where
  m0 : ℚ
  m4 : ℚ
  m8 : ℚ
  m12 : ℚ
  m1 : ℚ
  m5 : ℚ
  m9 : ℚ
  m13 : ℚ
  m2 : ℚ
  m6 : ℚ
  m10 : ℚ
  m14 : ℚ
  m3 : ℚ
  m7 : ℚ
  m11 : ℚ
  m15 : ℚ
deriving DecidableEq, Repr

/-- The translation part of a matrix: the components `m12`, `m13`, `m14`. -/
def Matrix.translation (m : Matrix) : Vector3 :=
  ⟨m.m12, m.m13, m.m14⟩

/-- Modelled from the spec: the raymath functions `MatrixTranslate`, `MatrixRotateXYZ`,
`MatrixScale`, `MatrixMultiply`, `Vector3Transform` and `Vector3Add`, which are not under
`src/`, written out on exact components the way `raymath.h` computes them; `cos` and `sin`
stand for `cosf` and `sinf`.  The specification (4.2) has the local transform as a pure
function of position, rotation about X, Y and Z, and scale, the ancestor's transform being
applied first. -/
def Raymath.exact (cos sin : ℚ → ℚ) : Raymath Matrix where
  MatrixTranslate x y z :=
    { m0 := 1, m4 := 0, m8 := 0, m12 := x
      m1 := 0, m5 := 1, m9 := 0, m13 := y
      m2 := 0, m6 := 0, m10 := 1, m14 := z
      m3 := 0, m7 := 0, m11 := 0, m15 := 1 }
  MatrixRotateXYZ angle :=
    { m0 := cos (-angle.z) * cos (-angle.y)
      m1 := cos (-angle.z) * sin (-angle.y) * sin (-angle.x) - sin (-angle.z) * cos (-angle.x)
      m2 := cos (-angle.z) * sin (-angle.y) * cos (-angle.x) + sin (-angle.z) * sin (-angle.x)
      m3 := 0
      m4 := sin (-angle.z) * cos (-angle.y)
      m5 := sin (-angle.z) * sin (-angle.y) * sin (-angle.x) + cos (-angle.z) * cos (-angle.x)
      m6 := sin (-angle.z) * sin (-angle.y) * cos (-angle.x) - cos (-angle.z) * sin (-angle.x)
      m7 := 0
      m8 := -sin (-angle.y)
      m9 := cos (-angle.y) * sin (-angle.x)
      m10 := cos (-angle.y) * cos (-angle.x)
      m11 := 0
      m12 := 0, m13 := 0, m14 := 0, m15 := 1 }
  MatrixScale x y z :=
    { m0 := x, m4 := 0, m8 := 0, m12 := 0
      m1 := 0, m5 := y, m9 := 0, m13 := 0
      m2 := 0, m6 := 0, m10 := z, m14 := 0
      m3 := 0, m7 := 0, m11 := 0, m15 := 1 }
  MatrixMultiply left right :=
    { m0 := left.m0 * right.m0 + left.m1 * right.m4 + left.m2 * right.m8 + left.m3 * right.m12
      m1 := left.m0 * right.m1 + left.m1 * right.m5 + left.m2 * right.m9 + left.m3 * right.m13
      m2 := left.m0 * right.m2 + left.m1 * right.m6 + left.m2 * right.m10 + left.m3 * right.m14
      m3 := left.m0 * right.m3 + left.m1 * right.m7 + left.m2 * right.m11 + left.m3 * right.m15
      m4 := left.m4 * right.m0 + left.m5 * right.m4 + left.m6 * right.m8 + left.m7 * right.m12
      m5 := left.m4 * right.m1 + left.m5 * right.m5 + left.m6 * right.m9 + left.m7 * right.m13
      m6 := left.m4 * right.m2 + left.m5 * right.m6 + left.m6 * right.m10 + left.m7 * right.m14
      m7 := left.m4 * right.m3 + left.m5 * right.m7 + left.m6 * right.m11 + left.m7 * right.m15
      m8 := left.m8 * right.m0 + left.m9 * right.m4 + left.m10 * right.m8 + left.m11 * right.m12
      m9 := left.m8 * right.m1 + left.m9 * right.m5 + left.m10 * right.m9 + left.m11 * right.m13
      m10 :=
        left.m8 * right.m2 + left.m9 * right.m6 + left.m10 * right.m10 + left.m11 * right.m14
      m11 :=
        left.m8 * right.m3 + left.m9 * right.m7 + left.m10 * right.m11 + left.m11 * right.m15
      m12 :=
        left.m12 * right.m0 + left.m13 * right.m4 + left.m14 * right.m8 + left.m15 * right.m12
      m13 :=
        left.m12 * right.m1 + left.m13 * right.m5 + left.m14 * right.m9 + left.m15 * right.m13
      m14 :=
        left.m12 * right.m2 + left.m13 * right.m6 + left.m14 * right.m10 + left.m15 * right.m14
      m15 :=
        left.m12 * right.m3 + left.m13 * right.m7 + left.m14 * right.m11 + left.m15 * right.m15 }
  Vector3Transform v mat :=
    { x := mat.m0 * v.x + mat.m4 * v.y + mat.m8 * v.z + mat.m12
      y := mat.m1 * v.x + mat.m5 * v.y + mat.m9 * v.z + mat.m13
      z := mat.m2 * v.x + mat.m6 * v.y + mat.m10 * v.z + mat.m14 }
  Vector3Add v1 v2 := { x := v1.x + v2.x, y := v1.y + v2.y, z := v1.z + v2.z }

/-- A rational stand-in for `cosf` in examples, exact at 0. -/
def cosNear0 (a : ℚ) : ℚ := 1 - a * a / 2

/-- A rational stand-in for `sinf` in examples, exact at 0. -/
def sinNear0 (a : ℚ) : ℚ := a - a * a * a / 6

/-- A `SpatialNode` at position `v` with zero rotation and unit scale. -/
def SpatialNode.placedAt (v : Vector3) : SpatialNode :=
  { position := v, scale := ⟨1, 1, 1⟩, rotation := ⟨0, 0, 0⟩ }

/-- The raylib struct `Camera3D`, with exact components; `projection` 0 is
`CAMERA_PERSPECTIVE`. -/
structure Camera3D where
  position : Vector3
  target : Vector3
  up : Vector3
  fovy : ℚ
  projection : Nat
deriving DecidableEq, Repr

/-- A `CameraNode` object: its `Node` part with the subtree it owns, its `SpatialNode` fields,
the pointer `targetNode` (`none` is `nullptr`) and the field `camera`. -/
structure CameraNode where
  node : Node
  spatial : SpatialNode
  targetNode : Option Nat
  camera : Camera3D

/-- What a `Node*` refers to: an object that has been destroyed, a live object that is not a
`SpatialNode`, or a live `SpatialNode` with its fields. -/
inductive Pointee
  | destroyed
  | node
  | spatial (fields : SpatialNode)
deriving DecidableEq, Repr

/-- The method `CameraNode::Start`: field of view 45, perspective projection, up (0,1,0). -/
def CameraNode.Start (self : CameraNode) : CameraNode :=
  { self with camera := { self.camera with fovy := 45, projection := 0, up := ⟨0, 1, 0⟩ } }

/-- The method `CameraNode::Update`, with `heap` telling what a node pointer refers to.
`camera.position = position`; with a target pointer, `dynamic_cast<SpatialNode*>` inspects
the object it points to and, when that is a `SpatialNode`, its position becomes
`camera.target`; without a target pointer `camera.target` is the position plus the forward
vector (0,0,1) transformed by `MatrixRotateXYZ(rotation)`; then `SpatialNode::Update(dt)`,
which is `Node::Update`. -/
def CameraNode.Update {Matrix : Type} (R : Raymath Matrix) (heap : Nat → Pointee)
    (self : CameraNode) (dt : ℚ) : Except Fault (CameraNode × List Event) :=
  let positioned : Camera3D := { self.camera with position := self.spatial.position }
  let aimed : Except Fault Camera3D :=
    match self.targetNode with
    | some target =>
      match heap target with
      | .destroyed => .error Fault.useAfterFree
      | .node => .ok positioned
      | .spatial targetSpatial => .ok { positioned with target := targetSpatial.position }
    | none =>
      .ok { positioned with
        target := R.Vector3Add self.spatial.position
          (R.Vector3Transform ⟨0, 0, 1⟩ (R.MatrixRotateXYZ self.spatial.rotation)) }
  match aimed with
  | .error e => .error e
  | .ok camera => .ok ({ self with camera := camera }, self.node.Update dt)

/-- The camera of `DefaultScene` after `Start`, at (0,4,-10) with zero rotation, its camera
struct still aimed at (0,0,0), with a target pointer to the object at address 9. -/
def exampleCamera : CameraNode :=
  { node := .mk 6 .cameraNode (some 5) []
    spatial := SpatialNode.placedAt ⟨0, 4, -10⟩
    targetNode := some 9
    camera :=
      { position := ⟨0, 0, 0⟩, target := ⟨0, 0, 0⟩, up := ⟨0, 1, 0⟩, fovy := 45,
        projection := 0 } }

/-! ## The frame loop (`dot.cpp` 386-400, 466-513, `scenes/default_scene.h` 82-127) -/

/-- The process-wide state that `DotApp::Run` works on: the scenes and their manager, the
singleton `CoroutineManager`, and the static `lastPrintedSceneName` of `DebugOverlay::Draw`. -/
structure App where
  world : World
  coroutines : CoroutineManager WaitForSeconds
  lastPrintedSceneName : String

/-- The method `Scene::Update` called on the scene object at address `self`. -/
def World.baseUpdateScene (w : World) (self : Nat) (dt : ℚ) : Except Fault World :=
  match w.scenes self with
  | none => .error Fault.useAfterFree
  | some scene => .ok { w with trace := w.trace ++ scene.Update dt }

/-- The override `Update(dt)` of `DefaultScene` and `NextScene`, with `other` the name of
the scene to change to and `pressed` the answer of `IsActionPressed("Change Scene")`: when
pressed, print and `ChangeSceneByName(other)`; then `Scene::Update(dt)`. -/
def World.switchingUpdateScene (w : World) (self : Nat) (other : String) (dt : ℚ)
    (pressed : Bool) : Except Fault World :=
  if pressed then
    match SceneManager.ChangeSceneByName
        { w with trace := w.trace ++ [Event.print "Space pressed\n"] } other with
    | .error e => .error e
    | .ok w' => w'.baseUpdateScene self dt
  else w.baseUpdateScene self dt

/-- A call `scene->Update(dt)` through the pointer `scene`, dispatched on the dynamic type. -/
def World.updateScene (w : World) (scene : Nat) (dt : ℚ) (pressed : Bool) :
    Except Fault World :=
  match w.scenes scene with
  | none => .error Fault.useAfterFree
  | some s =>
    match s.kind with
    | .scene => w.baseUpdateScene scene dt
    | .defaultScene => w.switchingUpdateScene scene "Next" dt pressed
    | .nextScene => w.switchingUpdateScene scene "Default" dt pressed

/-- A call `scene->Draw()` through the pointer `scene`. -/
def World.drawScene (w : World) (scene : Nat) : Except Fault World :=
  match w.scenes scene with
  | none => .error Fault.useAfterFree
  | some s =>
    match s.Draw with
    | .error e => .error e
    | .ok (s', events) =>
      .ok { w with
        scenes := Function.update w.scenes scene (some s')
        trace := w.trace ++ events }

/-- The method `SceneManager::Update`: `InputManager::Get().Update(dt)`, then
`if (currentScene) currentScene->Update(dt)`. -/
def SceneManager.Update (w : World) (dt : ℚ) (pressed : Bool) : Except Fault World :=
  match w.manager.currentScene with
  | none => .ok { w with trace := w.trace ++ [Event.inputUpdate] }
  | some current =>
    World.updateScene { w with trace := w.trace ++ [Event.inputUpdate] } current dt pressed

/-- The method `SceneManager::Draw`: `if (currentScene) currentScene->Draw()`. -/
def SceneManager.Draw (w : World) : Except Fault World :=
  match w.manager.currentScene with
  | none => .ok w
  | some current => w.drawScene current

/-- The function `DebugOverlay::Draw`: `scene->GetName()` on the current scene, which is
dereferenced without a check; when the name differs from the one printed last, the header,
the scene hierarchy and the scene list are printed (one event here) and the name is
remembered. -/
def DebugOverlay.Draw (app : App) : Except Fault App :=
  match app.world.manager.currentScene with
  | none => .error Fault.nullDereference
  | some scene =>
    match app.world.scenes scene with
    | none => .error Fault.useAfterFree
    | some s =>
      if s.name ≠ app.lastPrintedSceneName then
        .ok { app with
          world := { app.world with trace := app.world.trace ++ [Event.debugOverlay s.name] }
          lastPrintedSceneName := s.name }
      else .ok app

/-- The body of the loop of `DotApp::Run` for one frame, with `dt` the answer of
`GetFrameTime()` and `pressed` the answer of `IsActionPressed` in that frame:
`DebugOverlay::Draw()`, `SceneManager::Update(dt)`, `BeginDrawing()`, `ClearBackground`,
`SceneManager::Draw()`, `EndDrawing()`. -/
def DotApp.frame (app : App) (dt : ℚ) (pressed : Bool) : Except Fault App :=
  match DebugOverlay.Draw app with
  | .error e => .error e
  | .ok app1 =>
    match SceneManager.Update app1.world dt pressed with
    | .error e => .error e
    | .ok w2 =>
      match SceneManager.Draw
          { w2 with trace := w2.trace ++ [Event.beginDrawing, Event.clearBackground] } with
      | .error e => .error e
      | .ok w3 =>
        .ok { app1 with world := { w3 with trace := w3.trace ++ [Event.endDrawing] } }

/-- The loop of `DotApp::Run` over the frames until `WindowShouldClose()`. -/
def DotApp.frames (app : App) : List (ℚ × Bool) → Except Fault App
  | [] => .ok app
  | f :: rest =>
    match DotApp.frame app f.1 f.2 with
    | .error e => .error e
    | .ok app' => DotApp.frames app' rest

/-- The method `DotApp::Run`, with one entry of `input` for every frame before the window
is closed: `InitWindow`, the loop, `UnloadAllScenes()`, `CloseWindow()`. -/
def DotApp.Run (app : App) (input : List (ℚ × Bool)) : Except Fault App :=
  match DotApp.frames
      { app with world := { app.world with trace := app.world.trace ++ [Event.initWindow] } }
      input with
  | .error e => .error e
  | .ok app' =>
    match SceneManager.UnloadAllScenes app'.world with
    | .error e => .error e
    | .ok w => .ok { app' with world := { w with trace := w.trace ++ [Event.closeWindow] } }

/-- The program state when `main` calls `Run`, after a coroutine with the steps of
`exampleSteps` has been registered with `StartCoroutine`. -/
def App.mainWithCoroutine : App :=
  { world := World.mainStart
    coroutines := (CoroutineManager.mk []).StartCoroutine exampleSteps
    lastPrintedSceneName := "" }

/-! ### Proofs: the scheduler loop -/

theorem List.take_succ_set_self {α : Type} (l : List α) (i : Nat) (x : α) (h : i < l.length) :
    (l.set i x).take (i + 1) = l.take i ++ [x] := by
  induction l generalizing i with
  | nil => simp at h
  | cons a t ih =>
    cases i with
    | zero => simp
    | succ j =>
      have hj : j < t.length := by simpa using h
      simp [ih j hj]

theorem List.drop_succ_set_self {α : Type} (l : List α) (i : Nat) (x : α) :
    (l.set i x).drop (i + 1) = l.drop (i + 1) := by
  induction l generalizing i with
  | nil => simp
  | cons a t ih =>
    cases i with
    | zero => simp
    | succ j => simpa using ih j

theorem List.take_eraseIdx_self {α : Type} (l : List α) (i : Nat) :
    (l.eraseIdx i).take i = l.take i := by
  induction l generalizing i with
  | nil => simp
  | cons a t ih =>
    cases i with
    | zero => simp
    | succ j => simpa using ih j

theorem List.drop_eraseIdx_self {α : Type} (l : List α) (i : Nat) :
    (l.eraseIdx i).drop i = l.drop (i + 1) := by
  induction l generalizing i with
  | nil => simp
  | cons a t ih =>
    cases i with
    | zero => simp
    | succ j => simpa using ih j

theorem CoroutineManager.updateFrom_eq {Y : Type} [CoroutineYield Y] (dt : ℚ) :
    ∀ (n : Nat) (cs : List (Coroutine Y)) (i : Nat) (log : List Nat), cs.length - i = n →
      CoroutineManager.updateFrom dt cs i log =
        (cs.take i ++ (cs.drop i).filterMap (fun c => (c.tickSpec dt).1),
          log ++ (cs.drop i).flatMap (fun c => (c.tickSpec dt).2)) := by
  intro n
  induction n using Nat.strong_induction_on with
  | _ n ih =>
    intro cs i log hn
    unfold CoroutineManager.updateFrom
    by_cases h : i < cs.length
    · have hdrop : cs.drop i = cs[i] :: cs.drop (i + 1) := List.drop_eq_getElem_cons h
      have herase := ih (cs.length - 1 - i) (by omega) (cs.eraseIdx i) i
      have hset := fun (x : Coroutine Y) =>
        ih (cs.length - (i + 1)) (by omega) (cs.set i x) (i + 1)
      simp only [h, dite_true]
      rw [hdrop, List.filterMap_cons, List.flatMap_cons]
      cases hy : cs[i].currentYield with
      | none =>
        have hw : cs[i].stillWaiting dt = none := by simp [Coroutine.stillWaiting, hy]
        simp only [hw]
        cases hr : cs[i].func.results cs[i].func.calls with
        | none =>
          have hc : cs[i].func.call =
              (none, { cs[i].func with calls := cs[i].func.calls + 1 }) := by
            simp [StepFn.call, hr]
          have ht : cs[i].tickSpec dt = (none, [cs[i].func.tag]) := by
            simp [Coroutine.tickSpec, hy, StepFn.call, hr]
          simp only [hc, ht]
          rw [herase _ (by simp [List.length_eraseIdx, h])]
          simp [List.take_eraseIdx_self, List.drop_eraseIdx_self]
        | some p =>
          have hc : cs[i].func.call =
              (some p, { cs[i].func with calls := cs[i].func.calls + 1 }) := by
            simp [StepFn.call, hr]
          have ht : cs[i].tickSpec dt =
              (some { func := { cs[i].func with calls := cs[i].func.calls + 1 },
                      currentYield := some p }, [cs[i].func.tag]) := by
            simp [Coroutine.tickSpec, hy, StepFn.call, hr]
          simp only [hc, ht]
          rw [hset _ _ (by simp)]
          simp [List.take_succ_set_self _ _ _ h, List.drop_succ_set_self]
      | some y =>
        by_cases hd : (CoroutineYield.IsComplete y dt).1 = true
        · have hw : cs[i].stillWaiting dt = none := by simp [Coroutine.stillWaiting, hy, hd]
          simp only [hw]
          cases hr : cs[i].func.results cs[i].func.calls with
          | none =>
            have hc : cs[i].func.call =
                (none, { cs[i].func with calls := cs[i].func.calls + 1 }) := by
              simp [StepFn.call, hr]
            have ht : cs[i].tickSpec dt = (none, [cs[i].func.tag]) := by
              simp [Coroutine.tickSpec, hy, hd, StepFn.call, hr]
            simp only [hc, ht]
            rw [herase _ (by simp [List.length_eraseIdx, h])]
            simp [List.take_eraseIdx_self, List.drop_eraseIdx_self]
          | some p =>
            have hc : cs[i].func.call =
                (some p, { cs[i].func with calls := cs[i].func.calls + 1 }) := by
              simp [StepFn.call, hr]
            have ht : cs[i].tickSpec dt =
                (some { func := { cs[i].func with calls := cs[i].func.calls + 1 },
                        currentYield := some p }, [cs[i].func.tag]) := by
              simp [Coroutine.tickSpec, hy, hd, StepFn.call, hr]
            simp only [hc, ht]
            rw [hset _ _ (by simp)]
            simp [List.take_succ_set_self _ _ _ h, List.drop_succ_set_self]
        · have hw : cs[i].stillWaiting dt =
              some { cs[i] with currentYield := some (CoroutineYield.IsComplete y dt).2 } := by
            simp [Coroutine.stillWaiting, hy, hd]
          have ht : cs[i].tickSpec dt =
              (some { func := cs[i].func,
                      currentYield := some (CoroutineYield.IsComplete y dt).2 }, []) := by
            simp [Coroutine.tickSpec, hy, hd]
          simp only [hw, ht]
          rw [hset _ _ (by simp)]
          simp [List.take_succ_set_self _ _ _ h, List.drop_succ_set_self]
    · have hle : cs.length ≤ i := by omega
      simp [h, List.take_of_length_le hle, List.drop_eq_nil_of_le hle]

theorem Coroutine.tickSpec_tag {Y : Type} [CoroutineYield Y] (dt : ℚ) (c c' : Coroutine Y)
    (h : (c.tickSpec dt).1 = some c') : c'.func.tag = c.func.tag := by
  unfold Coroutine.tickSpec at h
  cases hy : c.currentYield with
  | none =>
    simp only [hy, StepFn.call, Option.map_eq_some'] at h
    obtain ⟨p, _, hp⟩ := h
    rw [← hp]
  | some y =>
    simp only [hy] at h
    split at h
    · simp only [StepFn.call, Option.map_eq_some'] at h
      obtain ⟨p, _, hp⟩ := h
      rw [← hp]
    · simp only [Option.some.injEq] at h
      rw [← h]

theorem Coroutine.tickSpec_log {Y : Type} [CoroutineYield Y] (dt : ℚ) (c : Coroutine Y) :
    (c.tickSpec dt).2 = [] ∨ (c.tickSpec dt).2 = [c.func.tag] := by
  unfold Coroutine.tickSpec
  cases c.currentYield with
  | none => simp
  | some y => dsimp only; split <;> simp

theorem Coroutine.tags_filterMap_sublist {Y : Type} [CoroutineYield Y] (dt : ℚ)
    (cs : List (Coroutine Y)) :
    ((cs.filterMap (fun c => (c.tickSpec dt).1)).map (fun c => c.func.tag)).Sublist
      (cs.map (fun c => c.func.tag)) := by
  induction cs with
  | nil => simp
  | cons c t ih =>
    rw [List.filterMap_cons]
    cases h : (c.tickSpec dt).1 with
    | none => simpa using ih.cons _
    | some c' =>
      simp only [List.map_cons, Coroutine.tickSpec_tag dt c c' h]
      exact ih.cons₂ _

theorem CoroutineManager.Update_eq {Y : Type} [CoroutineYield Y] (m : CoroutineManager Y)
    (dt : ℚ) :
    m.Update dt = ({ coroutines := m.coroutines.filterMap (fun c => (c.tickSpec dt).1) },
      m.coroutines.flatMap (fun c => (c.tickSpec dt).2)) := by
  simp [CoroutineManager.Update, CoroutineManager.updateFrom_eq dt _ m.coroutines 0 [] rfl]

/-- C1: one call of `CoroutineManager::Update(dt)` processes every coroutine that was live at
the start of the call exactly once and in registration order, as `Coroutine.tickSpec` says
for one coroutine: a coroutine whose pending predicate is not complete after being advanced
by `dt` stays in place without an invocation, every other one has its step function invoked
once and stays with the returned predicate or is removed when none is returned.  Erasing
during the scan neither skips nor revisits a neighbour, and the survivors keep their
relative registration order. -/
theorem CoroutineManager.Update_processes_each_once {Y : Type} [CoroutineYield Y]
    (m : CoroutineManager Y) (dt : ℚ) :
    (m.Update dt).1.coroutines = m.coroutines.filterMap (fun c => (c.tickSpec dt).1) ∧
    (m.Update dt).2 = m.coroutines.flatMap (fun c => (c.tickSpec dt).2) ∧
    (((m.Update dt).1.coroutines.map (fun c => c.func.tag)).Sublist
      (m.coroutines.map (fun c => c.func.tag))) := by
  rw [CoroutineManager.Update_eq]
  exact ⟨rfl, rfl, Coroutine.tags_filterMap_sublist dt m.coroutines⟩

/-! ### Proofs: a timed wait in the scheduler -/

theorem Coroutine.tickSpec_new {Y : Type} [CoroutineYield Y] (dt : ℚ) (f : StepFn Y) :
    (Coroutine.new f).tickSpec dt =
      ((f.results f.calls).map
        (fun p => { func := { f with calls := f.calls + 1 }, currentYield := some p }),
        [f.tag]) := by
  simp [Coroutine.tickSpec, Coroutine.new, StepFn.call]

theorem Coroutine.tickSpec_waiting (dt d : ℚ) (f : StepFn WaitForSeconds) (h : dt < d) :
    ({ func := f, currentYield := some ⟨d⟩ } : Coroutine WaitForSeconds).tickSpec dt =
      (some { func := f, currentYield := some ⟨d - dt⟩ }, []) := by
  have h' : ¬ d - dt ≤ 0 := by linarith
  simp [Coroutine.tickSpec, CoroutineYield.IsComplete, WaitForSeconds.IsComplete, h']

theorem Coroutine.tickSpec_elapsed (dt d : ℚ) (f : StepFn WaitForSeconds) (h : d ≤ dt) :
    ({ func := f, currentYield := some ⟨d⟩ } : Coroutine WaitForSeconds).tickSpec dt =
      ((f.results f.calls).map
        (fun p => { func := { f with calls := f.calls + 1 }, currentYield := some p }),
        [f.tag]) := by
  have h' : d - dt ≤ 0 := by linarith
  simp [Coroutine.tickSpec, CoroutineYield.IsComplete, WaitForSeconds.IsComplete, h',
    StepFn.call]

theorem Coroutine.count_tag_log {Y : Type} [CoroutineYield Y] (dt : ℚ)
    (cs : List (Coroutine Y)) (c : Coroutine Y) (hc : c ∈ cs)
    (hnd : (cs.map (fun c => c.func.tag)).Nodup) :
    (cs.flatMap (fun c => (c.tickSpec dt).2)).count c.func.tag =
      ((c.tickSpec dt).2).count c.func.tag := by
  induction cs with
  | nil => simp at hc
  | cons a t ih =>
    rw [List.map_cons, List.nodup_cons] at hnd
    have hzero : ∀ (l : List (Coroutine Y)) (x : Nat), x ∉ l.map (fun c => c.func.tag) →
        (l.flatMap (fun c => (c.tickSpec dt).2)).count x = 0 := by
      intro l x hx
      rw [List.count_eq_zero]
      intro hmem
      rw [List.mem_flatMap] at hmem
      obtain ⟨b, hb, hxb⟩ := hmem
      apply hx
      rw [List.mem_map]
      refine ⟨b, hb, ?_⟩
      rcases Coroutine.tickSpec_log dt b with h0 | h1
      · rw [h0] at hxb; simp at hxb
      · rw [h1, List.mem_singleton] at hxb; exact hxb.symm
    rw [List.flatMap_cons, List.count_append]
    rcases List.mem_cons.mp hc with rfl | hmem
    · rw [hzero t _ hnd.1]; simp
    · have hne : a.func.tag ≠ c.func.tag := by
        intro heq
        apply hnd.1
        rw [heq]
        exact List.mem_map.mpr ⟨c, hmem, rfl⟩
      rw [ih hmem hnd.2]
      have : ((a.tickSpec dt).2).count c.func.tag = 0 := by
        rw [List.count_eq_zero]
        rcases Coroutine.tickSpec_log dt a with h0 | h1
        · rw [h0]; simp
        · rw [h1]; simpa using hne.symm
      omega

theorem CoroutineManager.waiting_not_invoked (dts : List ℚ) :
    ∀ (m : CoroutineManager WaitForSeconds) (f : StepFn WaitForSeconds) (d : ℚ),
      ({ func := f, currentYield := some ⟨d⟩ } : Coroutine WaitForSeconds) ∈ m.coroutines →
      (m.coroutines.map (fun c => c.func.tag)).Nodup →
      (∀ k, 1 ≤ k → k ≤ dts.length → (dts.take k).sum < d) →
      (∀ log ∈ (m.UpdateAll dts).2, f.tag ∉ log) ∧
      ({ func := f, currentYield := some ⟨d - dts.sum⟩ } : Coroutine WaitForSeconds) ∈
        (m.UpdateAll dts).1.coroutines ∧
      ((m.UpdateAll dts).1.coroutines.map (fun c => c.func.tag)).Nodup := by
  induction dts with
  | nil =>
    intro m f d hmem hnd _
    simpa [CoroutineManager.UpdateAll] using ⟨hmem, hnd⟩
  | cons a rest ih =>
    intro m f d hmem hnd hlt
    have ha : a < d := by simpa using hlt 1 (le_refl 1) (by simp)
    have htick := Coroutine.tickSpec_waiting a d f ha
    have hcount := Coroutine.count_tag_log a m.coroutines _ hmem hnd
    rw [htick] at hcount
    have hmem1 : ({ func := f, currentYield := some ⟨d - a⟩ } : Coroutine WaitForSeconds) ∈
        (m.Update a).1.coroutines := by
      rw [CoroutineManager.Update_eq]
      exact List.mem_filterMap.mpr ⟨_, hmem, htick ▸ rfl⟩
    have hnd1 : ((m.Update a).1.coroutines.map (fun c => c.func.tag)).Nodup := by
      rw [CoroutineManager.Update_eq]
      exact (Coroutine.tags_filterMap_sublist a m.coroutines).nodup hnd
    have hlt1 : ∀ k, 1 ≤ k → k ≤ rest.length → (rest.take k).sum < d - a := by
      intro k hk1 hk2
      have := hlt (k + 1) (by omega) (by simpa using hk2)
      simp only [List.take_succ_cons, List.sum_cons] at this
      linarith
    obtain ⟨h1, h2, h3⟩ := ih (m.Update a).1 f (d - a) hmem1 hnd1 hlt1
    refine ⟨?_, ?_, h3⟩
    · intro log hlog
      simp only [CoroutineManager.UpdateAll, List.mem_cons] at hlog
      rcases hlog with rfl | hlog
      · rw [CoroutineManager.Update_eq]
        simpa [List.count_eq_zero] using hcount
      · exact h1 log hlog
    · have : d - (a :: rest).sum = d - a - rest.sum := by simp; ring
      rw [this]
      exact h2


theorem CoroutineManager.Update_single {Y : Type} [CoroutineYield Y] (c : Coroutine Y) (dt : ℚ) :
    (CoroutineManager.mk [c]).Update dt =
      ({ coroutines := ((c.tickSpec dt).1).toList }, (c.tickSpec dt).2) := by
  rw [CoroutineManager.Update_eq]
  cases h : (c.tickSpec dt).1 <;> simp [h]

theorem CoroutineManager.example_run :
    (((CoroutineManager.mk []).StartCoroutine exampleSteps).UpdateAll
        [1/2, 1/2, 1/2, 1/2, 1/2, 1/2]).2 = [[7], [], [], [], [7], []] ∧
    ((((CoroutineManager.mk []).StartCoroutine exampleSteps).UpdateAll
        [1/2, 1/2, 1/2, 1/2, 1/2, 1/2]).1.coroutines.length = 1) ∧
    (((CoroutineManager.mk []).StartCoroutine exampleSteps).UpdateAll
        [1/2, 1/2, 1/2, 1/2, 1/2, 1/2, 1/2]).2 = [[7], [], [], [], [7], [], [7]] ∧
    ((((CoroutineManager.mk []).StartCoroutine exampleSteps).UpdateAll
        [1/2, 1/2, 1/2, 1/2, 1/2, 1/2, 1/2]).1.coroutines.length = 0) := by
  have e0 : (CoroutineManager.mk []).StartCoroutine exampleSteps =
      CoroutineManager.mk [Coroutine.new exampleSteps] := rfl
  have t1 : (Coroutine.new exampleSteps).tickSpec (1/2) =
      (some { func := { exampleSteps with calls := 1 }, currentYield := some ⟨2⟩ }, [7]) := by
    rw [Coroutine.tickSpec_new]; simp [exampleSteps]
  have t2 := Coroutine.tickSpec_waiting (1/2) 2 { exampleSteps with calls := 1 } (by norm_num)
  have t3 := Coroutine.tickSpec_waiting (1/2) (2 - 1/2) { exampleSteps with calls := 1 }
    (by norm_num)
  have t4 := Coroutine.tickSpec_waiting (1/2) (2 - 1/2 - 1/2) { exampleSteps with calls := 1 }
    (by norm_num)
  have t5 : ({ func := { exampleSteps with calls := 1 },
               currentYield := some ⟨2 - 1/2 - 1/2 - 1/2⟩ } :
        Coroutine WaitForSeconds).tickSpec (1/2) =
      (some { func := { exampleSteps with calls := 2 }, currentYield := some ⟨1⟩ }, [7]) := by
    rw [Coroutine.tickSpec_elapsed _ _ _ (by norm_num)]; simp [exampleSteps]
  have t6 := Coroutine.tickSpec_waiting (1/2) 1 { exampleSteps with calls := 2 } (by norm_num)
  have t7 : ({ func := { exampleSteps with calls := 2 }, currentYield := some ⟨1 - 1/2⟩ } :
        Coroutine WaitForSeconds).tickSpec (1/2) = (none, [7]) := by
    rw [Coroutine.tickSpec_elapsed _ _ _ (by norm_num)]; simp [exampleSteps]
  simp only [e0, CoroutineManager.UpdateAll, CoroutineManager.Update_single, t1, t2, t3, t4, t5,
    t6, t7, Option.toList]
  simp

theorem Coroutine.tickSpec_of_not_waiting {Y : Type} [CoroutineYield Y] (dt : ℚ)
    (c : Coroutine Y) (h : c.stillWaiting dt = none) :
    c.tickSpec dt =
      ((c.func.call.1).map (fun p => { func := c.func.call.2, currentYield := some p }),
        [c.func.tag]) := by
  unfold Coroutine.stillWaiting at h
  unfold Coroutine.tickSpec
  cases hy : c.currentYield with
  | none => rfl
  | some y =>
    simp only [hy] at h ⊢
    by_cases hd : (CoroutineYield.IsComplete y dt).1 = true
    · simp [hd]
    · simp [hd] at h

theorem Coroutine.length_filterMap_of_kept {Y : Type} [CoroutineYield Y] (dt : ℚ)
    (cs : List (Coroutine Y)) (h : ∀ x ∈ cs, ((x.tickSpec dt).1).isSome = true) :
    (cs.filterMap (fun c => (c.tickSpec dt).1)).length = cs.length := by
  induction cs with
  | nil => rfl
  | cons a t ih =>
    rw [List.filterMap_cons]
    have ha := h a (List.mem_cons_self a t)
    cases hx : (a.tickSpec dt).1 with
    | none => rw [hx] at ha; simp at ha
    | some a' =>
      simp only [List.length_cons]
      rw [ih (fun x hx => h x (List.mem_cons_of_mem a hx))]

theorem Coroutine.tickSpec_float_waiting (dt : ℚ) (d : Float32)
    (f : StepFn WaitForSecondsFloat) (h : (d.sub (Float32.ofRat dt)).leZero = false) :
    ({ func := f, currentYield := some ⟨d⟩ } : Coroutine WaitForSecondsFloat).tickSpec dt =
      (some { func := f, currentYield := some ⟨d.sub (Float32.ofRat dt)⟩ }, []) := by
  simp [Coroutine.tickSpec, CoroutineYield.IsComplete, WaitForSecondsFloat.IsComplete, h]

theorem Coroutine.tickSpec_float_elapsed (dt : ℚ) (d : Float32)
    (f : StepFn WaitForSecondsFloat) (h : (d.sub (Float32.ofRat dt)).leZero = true) :
    ({ func := f, currentYield := some ⟨d⟩ } : Coroutine WaitForSecondsFloat).tickSpec dt =
      ((f.results f.calls).map
        (fun p => { func := { f with calls := f.calls + 1 }, currentYield := some p }),
        [f.tag]) := by
  simp [Coroutine.tickSpec, CoroutineYield.IsComplete, WaitForSecondsFloat.IsComplete, h,
    StepFn.call]

theorem CoroutineManager.float_waiting_not_invoked (dts : List ℚ) :
    ∀ (m : CoroutineManager WaitForSecondsFloat) (f : StepFn WaitForSecondsFloat)
      (d : Float32),
      ({ func := f, currentYield := some ⟨d⟩ } : Coroutine WaitForSecondsFloat) ∈
        m.coroutines →
      (m.coroutines.map (fun c => c.func.tag)).Nodup →
      (∀ k, 1 ≤ k → k ≤ dts.length → (d.subAll (dts.take k)).leZero = false) →
      (∀ log ∈ (m.UpdateAll dts).2, f.tag ∉ log) ∧
      ({ func := f, currentYield := some ⟨d.subAll dts⟩ } : Coroutine WaitForSecondsFloat) ∈
        (m.UpdateAll dts).1.coroutines ∧
      ((m.UpdateAll dts).1.coroutines.map (fun c => c.func.tag)).Nodup := by
  induction dts with
  | nil =>
    intro m f d hmem hnd _
    simpa [CoroutineManager.UpdateAll, Float32.subAll] using ⟨hmem, hnd⟩
  | cons a rest ih =>
    intro m f d hmem hnd hlt
    have ha : (d.sub (Float32.ofRat a)).leZero = false := by
      simpa [Float32.subAll] using hlt 1 (le_refl 1) (by simp)
    have htick := Coroutine.tickSpec_float_waiting a d f ha
    have hcount := Coroutine.count_tag_log a m.coroutines _ hmem hnd
    rw [htick] at hcount
    have hmem1 : ({ func := f, currentYield := some ⟨d.sub (Float32.ofRat a)⟩ } :
        Coroutine WaitForSecondsFloat) ∈ (m.Update a).1.coroutines := by
      rw [CoroutineManager.Update_eq]
      exact List.mem_filterMap.mpr ⟨_, hmem, htick ▸ rfl⟩
    have hnd1 : ((m.Update a).1.coroutines.map (fun c => c.func.tag)).Nodup := by
      rw [CoroutineManager.Update_eq]
      exact (Coroutine.tags_filterMap_sublist a m.coroutines).nodup hnd
    have hlt1 : ∀ k, 1 ≤ k → k ≤ rest.length →
        ((d.sub (Float32.ofRat a)).subAll (rest.take k)).leZero = false := by
      intro k hk1 hk2
      have := hlt (k + 1) (by omega) (by simpa using hk2)
      simpa [Float32.subAll] using this
    obtain ⟨h1, h2, h3⟩ := ih (m.Update a).1 f (d.sub (Float32.ofRat a)) hmem1 hnd1 hlt1
    refine ⟨?_, ?_, h3⟩
    · intro log hlog
      simp only [CoroutineManager.UpdateAll, List.mem_cons] at hlog
      rcases hlog with rfl | hlog
      · rw [CoroutineManager.Update_eq]
        simpa [List.count_eq_zero] using hcount
      · exact h1 log hlog
    · simpa [Float32.subAll] using h2

/-- C6, amended: (a) a coroutine registered with `StartCoroutine` has its step function
invoked by the very next `Update`, whatever `dt` is and whatever the predicates are, after
the older coroutines were processed; (b) in exact arithmetic, a coroutine whose last
invocation returned `WaitForSeconds(d)` is not invoked by any of the following `Update`s as
long as the sum of their `dt`s stays below `d`, and is invoked exactly once by the first
`Update` at which that sum reaches or exceeds `d`; (c) a coroutine whose invocation returns
no predicate is gone after that `Update`, which leaves what the other coroutines alone would
leave, one coroutine fewer when all the others stay; (d) the steps wait 2 s, wait 1 s, done
with `Update(1/2)` every tick are invoked on ticks 1, 5 and 7 only and the coroutine is
removed by tick 7, in exact arithmetic and in `float` arithmetic alike; (e) in the `float`
arithmetic of the program, a coroutine whose pending `WaitForSeconds` has `timeRemaining`
equal to `d` is not invoked by any of the following `Update`s as long as `timeRemaining`,
lowered by the rounded subtraction of each `dt` in turn, stays above zero, and is invoked
exactly once by the first `Update` at which it is zero or negative. -/
theorem CoroutineManager.timed_wait_schedule :
    (∀ (Y : Type) [CoroutineYield Y] (m : CoroutineManager Y) (f : StepFn Y) (dt : ℚ),
      ((m.StartCoroutine f).Update dt).2 = (m.Update dt).2 ++ [f.tag]) ∧
    (∀ (m : CoroutineManager WaitForSeconds) (f : StepFn WaitForSeconds) (d : ℚ)
        (dts : List ℚ) (dt : ℚ),
      ({ func := f, currentYield := some ⟨d⟩ } : Coroutine WaitForSeconds) ∈ m.coroutines →
      (m.coroutines.map (fun c => c.func.tag)).Nodup →
      (∀ k, 1 ≤ k → k ≤ dts.length → (dts.take k).sum < d) →
      d ≤ dts.sum + dt →
      (∀ log ∈ (m.UpdateAll dts).2, f.tag ∉ log) ∧
        (((m.UpdateAll dts).1.Update dt).2).count f.tag = 1) ∧
    (∀ (Y : Type) [CoroutineYield Y] (pre post : List (Coroutine Y)) (c : Coroutine Y)
        (dt : ℚ),
      c.stillWaiting dt = none → c.func.call.1 = none →
      ((CoroutineManager.mk (pre ++ c :: post)).Update dt).1.coroutines =
          ((CoroutineManager.mk pre).Update dt).1.coroutines ++
            ((CoroutineManager.mk post).Update dt).1.coroutines ∧
        ((∀ x ∈ pre ++ post, ((x.tickSpec dt).1).isSome = true) →
          ((CoroutineManager.mk (pre ++ c :: post)).Update dt).1.coroutines.length + 1 =
            (pre ++ c :: post).length)) ∧
    ((((CoroutineManager.mk []).StartCoroutine exampleSteps).UpdateAll
        [1/2, 1/2, 1/2, 1/2, 1/2, 1/2]).2 = [[7], [], [], [], [7], []] ∧
      ((((CoroutineManager.mk []).StartCoroutine exampleSteps).UpdateAll
        [1/2, 1/2, 1/2, 1/2, 1/2, 1/2]).1.coroutines.length = 1) ∧
      (((CoroutineManager.mk []).StartCoroutine exampleSteps).UpdateAll
        [1/2, 1/2, 1/2, 1/2, 1/2, 1/2, 1/2]).2 = [[7], [], [], [], [7], [], [7]] ∧
      ((((CoroutineManager.mk []).StartCoroutine exampleSteps).UpdateAll
        [1/2, 1/2, 1/2, 1/2, 1/2, 1/2, 1/2]).1.coroutines.length = 0)) ∧
    ((((CoroutineManager.mk []).StartCoroutine (floatSteps [2, 1])).UpdateAll
        [1/2, 1/2, 1/2, 1/2, 1/2, 1/2]).2 = [[7], [], [], [], [7], []] ∧
      ((((CoroutineManager.mk []).StartCoroutine (floatSteps [2, 1])).UpdateAll
        [1/2, 1/2, 1/2, 1/2, 1/2, 1/2]).1.coroutines.length = 1) ∧
      (((CoroutineManager.mk []).StartCoroutine (floatSteps [2, 1])).UpdateAll
        [1/2, 1/2, 1/2, 1/2, 1/2, 1/2, 1/2]).2 = [[7], [], [], [], [7], [], [7]] ∧
      ((((CoroutineManager.mk []).StartCoroutine (floatSteps [2, 1])).UpdateAll
        [1/2, 1/2, 1/2, 1/2, 1/2, 1/2, 1/2]).1.coroutines.length = 0)) ∧
    (∀ (m : CoroutineManager WaitForSecondsFloat) (f : StepFn WaitForSecondsFloat)
        (d : Float32) (dts : List ℚ) (dt : ℚ),
      ({ func := f, currentYield := some ⟨d⟩ } : Coroutine WaitForSecondsFloat) ∈
        m.coroutines →
      (m.coroutines.map (fun c => c.func.tag)).Nodup →
      (∀ k, 1 ≤ k → k ≤ dts.length → (d.subAll (dts.take k)).leZero = false) →
      ((d.subAll dts).sub (Float32.ofRat dt)).leZero = true →
      (∀ log ∈ (m.UpdateAll dts).2, f.tag ∉ log) ∧
        (((m.UpdateAll dts).1.Update dt).2).count f.tag = 1) := by
  refine ⟨?_, ?_, ?_, CoroutineManager.example_run, by decide!, ?_⟩
  · intro Y _ m f dt
    simp [CoroutineManager.Update_eq, CoroutineManager.StartCoroutine, Coroutine.tickSpec_new]
  · intro m f d dts dt hmem hnd hlt hreach
    obtain ⟨h1, h2, h3⟩ := CoroutineManager.waiting_not_invoked dts m f d hmem hnd hlt
    refine ⟨h1, ?_⟩
    rw [CoroutineManager.Update_eq]
    simp only
    rw [Coroutine.count_tag_log dt _ _ h2 h3,
      Coroutine.tickSpec_elapsed dt (d - dts.sum) f (by linarith)]
    simp
  · intro Y _ pre post c dt hw hcall
    have ht : (c.tickSpec dt).1 = none := by
      rw [Coroutine.tickSpec_of_not_waiting dt c hw, hcall]; rfl
    have heq : ((CoroutineManager.mk (pre ++ c :: post)).Update dt).1.coroutines =
        ((CoroutineManager.mk pre).Update dt).1.coroutines ++
          ((CoroutineManager.mk post).Update dt).1.coroutines := by
      simp [CoroutineManager.Update_eq, List.filterMap_append, List.filterMap_cons, ht]
    refine ⟨heq, ?_⟩
    intro hkept
    rw [heq]
    simp only [CoroutineManager.Update_eq, List.length_append, List.length_cons]
    rw [Coroutine.length_filterMap_of_kept dt pre (fun x hx => hkept x (by simp [hx])),
      Coroutine.length_filterMap_of_kept dt post (fun x hx => hkept x (by simp [hx]))]
    omega
  · intro m f d dts dt hmem hnd hlt hreach
    obtain ⟨h1, h2, h3⟩ := CoroutineManager.float_waiting_not_invoked dts m f d hmem hnd hlt
    refine ⟨h1, ?_⟩
    rw [CoroutineManager.Update_eq]
    simp only
    rw [Coroutine.count_tag_log dt _ _ h2 h3,
      Coroutine.tickSpec_float_elapsed dt (d.subAll dts) f hreach]
    simp

/-- C6, as stated, fails in the `float` arithmetic of the program.  The first `Update` of
each run invokes the new coroutine, which returns the wait.  With `WaitForSeconds(1)` and
`dt` the float `0.2f` the sum of the `dt`s reaches 1 at the fifth following `Update`, but
the rounded `timeRemaining` is still `2 ^ (-25)` there and the step function is invoked by
the sixth.  With `WaitForSeconds(0.1f)` and `dt` the float `0.02f` the sum of five `dt`s is
below `0.1f`, but the rounded `timeRemaining` is zero at the fifth following `Update` and
the step function is invoked there.  The last part evaluates the arithmetic where its
rounding shows: the float of `1/3`, two ties that go to the even significand, the largest
finite float, the overflow to an infinity and the comparisons of the infinities and of a
NaN with zero. -/
theorem CoroutineManager.float_wait_off_schedule :
    ((Float32.ofRat 1).toRat = some 1 ∧
      (Float32.ofRat (13421773 / 67108864)).toRat = some (13421773 / 67108864) ∧
      (4 : ℚ) * (13421773 / 67108864) < 1 ∧ (1 : ℚ) ≤ 5 * (13421773 / 67108864) ∧
      ((Float32.ofRat 1).subAll (List.replicate 5 (13421773 / 67108864))).toRat =
        some (1 / 2 ^ 25) ∧
      (((CoroutineManager.mk []).StartCoroutine (floatSteps [1])).UpdateAll
        (List.replicate 7 (13421773 / 67108864))).2 = [[7], [], [], [], [], [], [7]]) ∧
    ((Float32.ofRat (13421773 / 134217728)).toRat = some (13421773 / 134217728) ∧
      (Float32.ofRat (5368709 / 268435456)).toRat = some (5368709 / 268435456) ∧
      (5 : ℚ) * (5368709 / 268435456) < 13421773 / 134217728 ∧
      ((Float32.ofRat (13421773 / 134217728)).subAll
        (List.replicate 5 (5368709 / 268435456))).toRat = some 0 ∧
      (((CoroutineManager.mk []).StartCoroutine
        (floatSteps [13421773 / 134217728])).UpdateAll
          (List.replicate 6 (5368709 / 268435456))).2 = [[7], [], [], [], [], [7]]) ∧
    (Float32.ofRat (1 / 3) = .finite (11184811 * 2 ^ 124) ∧
      (Float32.finite (2 ^ 24 + 2)).sub (.finite 1) = .finite (2 ^ 24) ∧
      (Float32.finite (2 ^ 24 + 4)).sub (.finite 1) = .finite (2 ^ 24 + 4) ∧
      Float32.ofRat (2 ^ 128 - 2 ^ 104) = .finite ((2 ^ 24 - 1) * 2 ^ 253) ∧
      Float32.ofRat (2 ^ 128 - 2 ^ 103) = .infinity false ∧
      (Float32.ofRat (-(2 ^ 128 - 2 ^ 104))).sub (Float32.ofRat (2 ^ 128 - 2 ^ 104)) =
        .infinity true ∧
      (Float32.infinity true).leZero = true ∧ (Float32.infinity false).leZero = false ∧
      Float32.nan.leZero = false) := by
  refine ⟨⟨by decide!, by decide!, by norm_num, by norm_num, by decide!, by decide!⟩,
    ⟨by decide!, by decide!, by norm_num, by decide!, by decide!⟩, by decide!⟩

/-! ### Proofs: the node tree -/

theorem destroyedNodes_append (a b : List Event) :
    destroyedNodes (a ++ b) = destroyedNodes a ++ destroyedNodes b := by
  induction a with
  | nil => rfl
  | cons e t ih => cases e <;> simp [destroyedNodes, ih]

mutual
theorem Node.destroyed_delete_perm : ∀ n : Node, (destroyedNodes n.delete).Perm n.ids
  | .mk id _ _ cs => by
    rw [Node.delete, Node.ids, destroyedNodes_append]
    have h := Node.destroyed_deleteAll_perm cs
    simp only [destroyedNodes]
    exact (List.perm_append_comm.trans (by simpa using h))
theorem Node.destroyed_deleteAll_perm :
    ∀ cs : List Node, (destroyedNodes (Node.deleteAll cs)).Perm (Node.idsOfList cs)
  | [] => by simp [Node.deleteAll, Node.idsOfList, destroyedNodes]
  | c :: cs => by
    rw [Node.deleteAll, Node.idsOfList, destroyedNodes_append]
    exact (Node.destroyed_delete_perm c).append (Node.destroyed_deleteAll_perm cs)
end

theorem Node.id_mem_ids (n : Node) : n.id ∈ n.ids := by
  cases n; simp [Node.ids, Node.id]

theorem Node.ids_eq (n : Node) : n.ids = n.id :: Node.idsOfList n.children := by
  cases n; simp [Node.ids, Node.id, Node.children]

theorem Node.ids_sublist_of_mem {n : Node} :
    ∀ {cs : List Node}, n ∈ cs → n.ids.Sublist (Node.idsOfList cs)
  | c :: cs, h => by
    rw [Node.idsOfList]
    rcases List.mem_cons.mp h with rfl | h
    · exact List.sublist_append_left _ _
    · exact (Node.ids_sublist_of_mem h).trans (List.sublist_append_right _ _)

mutual
theorem Node.find?_sublist : ∀ (t : Node) (a : Nat) (n : Node),
    t.find? a = some n → n.id = a ∧ n.ids.Sublist t.ids
  | .mk id k p cs, a, n, h => by
    rw [Node.find?] at h
    by_cases hid : id = a
    · subst hid
      simp only [if_true, Option.some.injEq] at h
      subst h
      exact ⟨rfl, List.Sublist.refl _⟩
    · simp only [hid, if_false] at h
      obtain ⟨h1, h2⟩ := Node.findInList?_sublist cs a n h
      exact ⟨h1, by rw [Node.ids]; exact h2.trans (List.sublist_cons_self _ _)⟩
theorem Node.findInList?_sublist : ∀ (cs : List Node) (a : Nat) (n : Node),
    Node.findInList? cs a = some n → n.id = a ∧ n.ids.Sublist (Node.idsOfList cs)
  | [], _, _, h => by simp [Node.findInList?] at h
  | c :: cs, a, n, h => by
    rw [Node.findInList?] at h
    rw [Node.idsOfList]
    cases hc : c.find? a with
    | some m =>
      simp only [hc, Option.some.injEq] at h
      subst h
      obtain ⟨h1, h2⟩ := Node.find?_sublist c a m hc
      exact ⟨h1, h2.trans (List.sublist_append_left _ _)⟩
    | none =>
      simp only [hc] at h
      obtain ⟨h1, h2⟩ := Node.findInList?_sublist cs a n h
      exact ⟨h1, h2.trans (List.sublist_append_right _ _)⟩
end

theorem List.filter_not_mem_of_disjoint (l d : List Nat) (h : ∀ a ∈ l, a ∉ d) :
    l.filter (fun a => decide (a ∉ d)) = l := by
  rw [List.filter_eq_self]
  intro a ha
  simpa using h a ha

mutual
theorem Node.callAt_ids (f : Node → Node × List Event) (a : Nat) (P : Node) (D : List Nat)
    (hD : D ⊆ P.ids) (hf : (f P).1.ids = P.ids.filter (fun x => decide (x ∉ D))) :
    ∀ (t : Node), t.ids.Nodup → t.find? a = some P →
      (t.callAt f a).1.ids = t.ids.filter (fun x => decide (x ∉ D)) ∧ (t.callAt f a).2 = (f P).2
  | .mk id k p cs, hnd, hfind => by
    rw [Node.find?] at hfind
    rw [Node.callAt]
    by_cases hid : id = a
    · simp only [hid, if_true, Option.some.injEq] at hfind ⊢
      subst hfind
      exact ⟨hf, rfl⟩
    · simp only [hid, if_false] at hfind ⊢
      rw [Node.ids, List.nodup_cons] at hnd
      obtain ⟨h1, h2⟩ := Node.callInList_ids f a P D hD hf cs hnd.2 hfind
      refine ⟨?_, h2⟩
      have hsub := (Node.findInList?_sublist cs a P hfind).2
      have hidD : id ∉ D := fun hmem => hnd.1 (hsub.subset (hD hmem))
      simp [Node.ids, h1, List.filter_cons, hidD]
theorem Node.callInList_ids (f : Node → Node × List Event) (a : Nat) (P : Node) (D : List Nat)
    (hD : D ⊆ P.ids) (hf : (f P).1.ids = P.ids.filter (fun x => decide (x ∉ D))) :
    ∀ (cs : List Node), (Node.idsOfList cs).Nodup → Node.findInList? cs a = some P →
      Node.idsOfList (Node.callInList f cs a).1 =
          (Node.idsOfList cs).filter (fun x => decide (x ∉ D)) ∧
        (Node.callInList f cs a).2 = (f P).2
  | [], _, hfind => by simp [Node.findInList?] at hfind
  | c :: cs, hnd, hfind => by
    rw [Node.findInList?] at hfind
    rw [Node.callInList]
    rw [Node.idsOfList, List.nodup_append] at hnd
    obtain ⟨hc, hcs, hdisj⟩ := hnd
    cases hcf : c.find? a with
    | some m =>
      simp only [hcf, Option.some.injEq] at hfind ⊢
      subst hfind
      obtain ⟨h1, h2⟩ := Node.callAt_ids f a m D hD hf c hc hcf
      refine ⟨?_, h2⟩
      have hsub := (Node.find?_sublist c a m hcf).2
      have hrest : (Node.idsOfList cs).filter (fun x => decide (x ∉ D)) = Node.idsOfList cs :=
        List.filter_not_mem_of_disjoint _ _
          (fun x hx hxD => hdisj (hsub.subset (hD hxD)) hx)
      rw [Node.idsOfList, Node.idsOfList, List.filter_append, h1, hrest]
    | none =>
      simp only [hcf] at hfind ⊢
      obtain ⟨h1, h2⟩ := Node.callInList_ids f a P D hD hf cs hcs hfind
      refine ⟨?_, h2⟩
      have hsub := (Node.findInList?_sublist cs a P hfind).2
      have hfirst : c.ids.filter (fun x => decide (x ∉ D)) = c.ids :=
        List.filter_not_mem_of_disjoint _ _
          (fun x hx hxD => hdisj hx (hsub.subset (hD hxD)))
      rw [Node.idsOfList, Node.idsOfList, List.filter_append, h1, hfirst]
end

theorem Node.removeFirst_ids (N : Node) :
    ∀ (cs : List Node), (Node.idsOfList cs).Nodup → N ∈ cs →
      cs.find? (fun c => c.id == N.id) = some N ∧
      Node.idsOfList (cs.eraseP (fun c => c.id == N.id)) =
        (Node.idsOfList cs).filter (fun x => decide (x ∉ N.ids))
  | [], _, h => by simp at h
  | c :: cs, hnd, hmem => by
    rw [Node.idsOfList, List.nodup_append] at hnd
    obtain ⟨hc, hcs, hdisj⟩ := hnd
    by_cases hid : c.id = N.id
    · have hcN : N = c := by
        rcases List.mem_cons.mp hmem with h | h
        · exact h
        · exfalso
          apply hdisj (Node.id_mem_ids c)
          rw [hid]
          exact (Node.ids_sublist_of_mem h).subset (Node.id_mem_ids N)
      subst hcN
      refine ⟨by simp, ?_⟩
      have h1 : N.ids.filter (fun x => decide (x ∉ N.ids)) = [] := by simp
      have h2 : (Node.idsOfList cs).filter (fun x => decide (x ∉ N.ids)) = Node.idsOfList cs :=
        List.filter_not_mem_of_disjoint _ _ (fun x hx hxN => hdisj hxN hx)
      simp only [Node.idsOfList, List.filter_append, h1, h2, List.nil_append]
      simp
    · have hNcs : N ∈ cs := by
        rcases List.mem_cons.mp hmem with h | h
        · exact absurd (by rw [h]) hid
        · exact h
      obtain ⟨h1, h2⟩ := Node.removeFirst_ids N cs hcs hNcs
      have hb : (c.id == N.id) = false := by simpa using hid
      refine ⟨by simp [List.find?_cons, hb, h1], ?_⟩
      have hfirst : c.ids.filter (fun x => decide (x ∉ N.ids)) = c.ids :=
        List.filter_not_mem_of_disjoint _ _
          (fun x hx hxN => hdisj hx ((Node.ids_sublist_of_mem hNcs).subset hxN))
      simp only [List.eraseP_cons, hb, Node.idsOfList, List.filter_append, hfirst, h2]

theorem List.length_filter_not_mem (l d : List Nat) (hl : l.Nodup) (hd : d.Nodup)
    (hsub : d ⊆ l) : (l.filter (fun a => decide (a ∉ d))).length + d.length = l.length := by
  have hperm : (l.filter (fun a => decide (a ∈ d))).Perm d := by
    rw [List.perm_ext_iff_of_nodup (hl.filter _) hd]
    intro a
    simp only [List.mem_filter, decide_eq_true_eq]
    exact ⟨fun h => h.2, fun h => ⟨hsub h, h⟩⟩
  have hlen := List.length_eq_length_filter_add (l := l) (fun a => decide (a ∈ d))
  rw [hperm.length_eq] at hlen
  have heq : (l.filter (fun a => decide (a ∉ d))) =
      (l.filter (fun x => !(fun a => decide (a ∈ d)) x)) := by
    congr 1; funext a; simp
  rw [heq]
  simp only at hlen ⊢
  omega


/-- C2: in a tree `T` whose nodes have distinct addresses, for a node `P` of `T` and a child
`N` of `P`, the call `P.RemoveChild(N)` destroys exactly the nodes of the subtree rooted at
`N`: the nodes reported destroyed are those of `N`, the nodes of `T` afterwards are those
before without the nodes of `N`, in the same order, and the node count drops by the size of
the subtree. -/
theorem Node.RemoveChild_destroys_exactly_subtree (T P N : Node) (hwf : T.ids.Nodup)
    (hP : T.find? P.id = some P) (hN : N ∈ P.children) :
    (destroyedNodes (T.callAt (fun p => p.RemoveChild N.id) P.id).2).Perm N.ids ∧
    (T.callAt (fun p => p.RemoveChild N.id) P.id).1.ids =
      T.ids.filter (fun a => decide (a ∉ N.ids)) ∧
    (T.callAt (fun p => p.RemoveChild N.id) P.id).1.ids.length =
      T.ids.length - N.ids.length := by
  have hPsub := (Node.find?_sublist T P.id P hP).2
  have hPnd : P.ids.Nodup := hPsub.nodup hwf
  have hPids := Node.ids_eq P
  rw [hPids, List.nodup_cons] at hPnd
  obtain ⟨hfind, herase⟩ := Node.removeFirst_ids N P.children hPnd.2 hN
  have hNsub : N.ids ⊆ Node.idsOfList P.children := (Node.ids_sublist_of_mem hN).subset
  have hD : N.ids ⊆ P.ids := by
    rw [hPids]; exact fun x hx => List.mem_cons_of_mem _ (hNsub hx)
  have hrun : P.RemoveChild N.id =
      (.mk P.id P.kind P.parent (P.children.eraseP (fun c => c.id == N.id)),
        Event.onDestroy N.id :: N.delete) := by
    simp [Node.RemoveChild, hfind]
  have hf : ((fun p : Node => p.RemoveChild N.id) P).1.ids =
      P.ids.filter (fun x => decide (x ∉ N.ids)) := by
    have hidN : P.id ∉ N.ids := fun h => hPnd.1 (hNsub h)
    simp [hrun, Node.ids, herase, hPids, List.filter_cons, hidN]
  obtain ⟨h1, h2⟩ := Node.callAt_ids (fun p => p.RemoveChild N.id) P.id P N.ids hD hf T hwf hP
  have hNnd : N.ids.Nodup := ((Node.ids_sublist_of_mem hN).trans
    (by rw [hPids]; exact List.sublist_cons_self _ _)).nodup (hPsub.nodup hwf)
  refine ⟨?_, h1, ?_⟩
  · rw [h2]
    simp only [hrun, destroyedNodes]
    exact Node.destroyed_delete_perm N
  · rw [h1]
    have := List.length_filter_not_mem T.ids N.ids hwf hNnd (fun x hx => hPsub.subset (hD hx))
    omega

mutual
theorem Node.Update_preorder (dt : ℚ) : ∀ t : Node,
    t.Update dt = t.ids.flatMap (fun a => [Event.nodeUpdate a, Event.processInput a])
  | .mk id _ _ cs => by
    rw [Node.Update, Node.ids, List.flatMap_cons, Node.updateAll_preorder dt cs]
    rfl
theorem Node.updateAll_preorder (dt : ℚ) : ∀ cs : List Node,
    Node.updateAll dt cs =
      (Node.idsOfList cs).flatMap (fun a => [Event.nodeUpdate a, Event.processInput a])
  | [] => rfl
  | c :: cs => by
    rw [Node.updateAll, Node.idsOfList, List.flatMap_append, Node.Update_preorder dt c,
      Node.updateAll_preorder dt cs]
end

mutual
theorem Node.Draw_preorder : ∀ t : Node, t.Draw = t.ids.map Event.nodeDraw
  | .mk id _ _ cs => by
    rw [Node.Draw, Node.ids, List.map_cons, Node.drawAll_preorder cs]
theorem Node.drawAll_preorder : ∀ cs : List Node,
    Node.drawAll cs = (Node.idsOfList cs).map Event.nodeDraw
  | [] => rfl
  | c :: cs => by
    rw [Node.drawAll, Node.idsOfList, List.map_append, Node.Draw_preorder c,
      Node.drawAll_preorder cs]
end

theorem Node.updateAll_eq_flatMap (dt : ℚ) (cs : List Node) :
    Node.updateAll dt cs = cs.flatMap (Node.Update dt) := by
  induction cs with
  | nil => rfl
  | cons c t ih => rw [Node.updateAll, ih, List.flatMap_cons]

theorem Node.drawAll_eq_flatMap (cs : List Node) :
    Node.drawAll cs = cs.flatMap Node.Draw := by
  induction cs with
  | nil => rfl
  | cons c t ih => rw [Node.drawAll, ih, List.flatMap_cons]

theorem Node.idsOfList_eq_flatMap (cs : List Node) :
    Node.idsOfList cs = cs.flatMap Node.ids := by
  induction cs with
  | nil => rfl
  | cons c t ih => rw [Node.idsOfList, ih, List.flatMap_cons]

theorem Node.children_foldl_AddChild (cs : List Node) : ∀ (p : Node),
    (cs.foldl (fun acc c => (acc.AddChild c).1) p).id = p.id ∧
    (cs.foldl (fun acc c => (acc.AddChild c).1) p).children =
      p.children ++ cs.map (fun c => Node.mk c.id c.kind (some p.id) c.children) := by
  induction cs with
  | nil => intro p; simp
  | cons c t ih =>
    intro p
    obtain ⟨h1, h2⟩ := ih (p.AddChild c).1
    rw [List.foldl_cons, h1, h2]
    simp [Node.AddChild, Node.id, Node.children]

theorem Node.Update_unfold (dt : ℚ) (t : Node) :
    t.Update dt =
      Event.nodeUpdate t.id :: Event.processInput t.id :: t.children.flatMap (Node.Update dt) := by
  cases t
  rw [Node.Update, Node.updateAll_eq_flatMap]
  rfl

theorem Node.Draw_unfold (t : Node) :
    t.Draw = Event.nodeDraw t.id :: t.children.flatMap Node.Draw := by
  cases t
  rw [Node.Draw, Node.drawAll_eq_flatMap]
  rfl

theorem Node.ids_AddChild (p c : Node) : (p.AddChild c).1.ids = p.ids ++ c.ids := by
  cases p with
  | mk pid pkind pparent pchildren =>
    cases c with
    | mk cid ckind cparent cchildren =>
      simp [Node.AddChild, Node.ids, Node.idsOfList_eq_flatMap, Node.id, Node.kind, Node.parent,
        Node.children]

mutual
theorem Build.run_ids : ∀ b : Build, b.run.ids = b.order
  | .mk id kind attach => by
    rw [Build.run, Build.order, Build.attachAll_ids attach (Node.new id kind)]
    rfl
theorem Build.attachAll_ids : ∀ (cs : List Build) (p : Node),
    (Build.attachAll cs p).ids = p.ids ++ Build.orderAll cs
  | [], p => by simp [Build.attachAll, Build.orderAll]
  | c :: cs, p => by
    rw [Build.attachAll, Build.attachAll_ids cs (p.AddChild c.run).1, Node.ids_AddChild,
      Build.run_ids c, Build.orderAll, List.append_assoc]
end

mutual
theorem Node.callAt_ids_insert (f : Node → Node × List Event) (a : Nat) (P : Node)
    (X : List Nat) (hf : (f P).1.ids = P.ids ++ X) :
    ∀ (t : Node), t.find? a = some P →
      ∃ pre post : List Nat, t.ids = pre ++ P.ids ++ post ∧
        (t.callAt f a).1.ids = pre ++ P.ids ++ X ++ post
  | .mk id k p cs, hfind => by
    rw [Node.find?] at hfind
    rw [Node.callAt]
    by_cases hid : id = a
    · simp only [hid, if_true, Option.some.injEq] at hfind ⊢
      subst hfind
      exact ⟨[], [], by simp, by simp [hf]⟩
    · simp only [hid, if_false] at hfind ⊢
      obtain ⟨pre, post, h1, h2⟩ := Node.callInList_ids_insert f a P X hf cs hfind
      exact ⟨id :: pre, post, by simp [Node.ids, h1], by simp [Node.ids, h2]⟩
theorem Node.callInList_ids_insert (f : Node → Node × List Event) (a : Nat) (P : Node)
    (X : List Nat) (hf : (f P).1.ids = P.ids ++ X) :
    ∀ (cs : List Node), Node.findInList? cs a = some P →
      ∃ pre post : List Nat, Node.idsOfList cs = pre ++ P.ids ++ post ∧
        Node.idsOfList (Node.callInList f cs a).1 = pre ++ P.ids ++ X ++ post
  | [], hfind => by simp [Node.findInList?] at hfind
  | c :: cs, hfind => by
    rw [Node.findInList?] at hfind
    rw [Node.callInList]
    cases hcf : c.find? a with
    | some m =>
      simp only [hcf, Option.some.injEq] at hfind ⊢
      subst hfind
      obtain ⟨pre, post, h1, h2⟩ := Node.callAt_ids_insert f a m X hf c hcf
      exact ⟨pre, post ++ Node.idsOfList cs, by simp [Node.idsOfList, h1],
        by simp [Node.idsOfList, h2]⟩
    | none =>
      simp only [hcf] at hfind ⊢
      obtain ⟨pre, post, h1, h2⟩ := Node.callInList_ids_insert f a P X hf cs hfind
      exact ⟨c.ids ++ pre, post, by simp [Node.idsOfList, h1], by simp [Node.idsOfList, h2]⟩
end

/-- C3: `AddChild` appends, so after the children `cs` were attached to `p` one after the
other the child vector of `p` is its earlier children followed by `cs` in attachment order;
`Update` and `Draw` go through that vector front to back, `Update` running the node's own
`ProcessInput` before the first child; for every tree both traversals visit the nodes depth
first, parents before children, children in vector order; for a tree built by `AddChild`
calls alone both traversals follow the order of those calls; and an `AddChild` call on a
node `P` anywhere in a tree puts the nodes of the new child right behind those of `P` and
its earlier children in the traversal, all other nodes keeping their places. -/
theorem Node.traversal_follows_attach_order (dt : ℚ) (p : Node) (cs : List Node) :
    (cs.foldl (fun acc c => (acc.AddChild c).1) p).children =
      p.children ++ cs.map (fun c => Node.mk c.id c.kind (some p.id) c.children) ∧
    (cs.foldl (fun acc c => (acc.AddChild c).1) p).Update dt =
      Event.nodeUpdate p.id :: Event.processInput p.id ::
        (p.children ++ cs.map (fun c => Node.mk c.id c.kind (some p.id) c.children)).flatMap
          (Node.Update dt) ∧
    (cs.foldl (fun acc c => (acc.AddChild c).1) p).Draw =
      Event.nodeDraw p.id ::
        (p.children ++ cs.map (fun c => Node.mk c.id c.kind (some p.id) c.children)).flatMap
          Node.Draw ∧
    (∀ t : Node,
      t.ids = t.id :: t.children.flatMap Node.ids ∧
      t.Update dt = t.ids.flatMap (fun a => [Event.nodeUpdate a, Event.processInput a]) ∧
      t.Draw = t.ids.map Event.nodeDraw) ∧
    (∀ b : Build,
      b.run.Update dt = b.order.flatMap (fun a => [Event.nodeUpdate a, Event.processInput a]) ∧
      b.run.Draw = b.order.map Event.nodeDraw) ∧
    (∀ (T P c : Node) (a : Nat), T.find? a = some P →
      ∃ pre post : List Nat, T.ids = pre ++ P.ids ++ post ∧
        (T.callAt (fun n => n.AddChild c) a).1.ids = pre ++ P.ids ++ c.ids ++ post) := by
  obtain ⟨h1, h2⟩ := Node.children_foldl_AddChild cs p
  refine ⟨h2, ?_, ?_, ?_, ?_, ?_⟩
  · rw [Node.Update_unfold, h1, h2]
  · rw [Node.Draw_unfold, h1, h2]
  · intro t
    exact ⟨by rw [Node.ids_eq, Node.idsOfList_eq_flatMap], Node.Update_preorder dt t,
      Node.Draw_preorder t⟩
  · intro b
    rw [Node.Update_preorder, Node.Draw_preorder, Build.run_ids]
    exact ⟨rfl, rfl⟩
  · intro T P c a hfind
    exact Node.callAt_ids_insert (fun n => n.AddChild c) a P c.ids (Node.ids_AddChild P c) T
      hfind

/-! ### Proofs: scenes and the scene manager -/

/-- What `Start` does on a scene that has a root: it succeeds, logs its own invocation once,
invokes no other lifecycle method of a scene, destroys nothing and keeps the root object,
below which every node is an old one or newly allocated. -/
theorem Scene.Start_of_root (sc : Scene) (self next : Nat) (r : Node) (h : sc.root = some r) :
    ∃ (sc' : Scene) (next' : Nat) (events : List Event) (r' : Node),
      sc.Start self next = .ok (sc', next', events) ∧
      events.count (Event.sceneStart self) = 1 ∧
      (∀ x, Event.sceneStart x ∈ events → x = self) ∧
      (∀ x, Event.sceneUnload x ∉ events) ∧
      (∀ x, Event.sceneReload x ∉ events) ∧
      (∀ x, Event.sceneDestroyed x ∉ events) ∧
      destroyedNodes events = [] ∧
      sc'.root = some r' ∧ r'.id = r.id ∧ r'.parent = r.parent ∧
      (∀ a ∈ r'.ids, a ∈ r.ids ∨ next ≤ a) ∧
      sc'.name = sc.name ∧ sc'.kind = sc.kind := by
  obtain ⟨k, name, root, cam⟩ := sc
  simp only at h
  subst h
  cases r with
  | mk id kind parent children =>
    cases k with
    | scene =>
      refine ⟨_, _, _, _, rfl, ?_, ?_, ?_, ?_, ?_, rfl, rfl, rfl, rfl, ?_, rfl, rfl⟩
      · simp
      · intro x hx; simpa using hx
      · intro x; simp
      · intro x; simp
      · intro x; simp
      · intro a ha; exact Or.inl ha
    | defaultScene =>
      refine ⟨_, _, _, _, rfl, ?_, ?_, ?_, ?_, ?_, ?_, rfl, rfl, rfl, ?_, rfl, rfl⟩
      · simp [Node.AddChild]
      · intro x hx; simpa [Node.AddChild] using hx
      · intro x; simp [Node.AddChild]
      · intro x; simp [Node.AddChild]
      · intro x; simp [Node.AddChild]
      · simp [Node.AddChild, destroyedNodes]
      · intro a ha
        simp only [Node.AddChild, Node.new, Node.id, Node.kind, Node.parent, Node.children,
          Node.ids, Node.idsOfList_eq_flatMap, List.flatMap_append, List.flatMap_cons,
          List.flatMap_nil, List.mem_cons, List.mem_append, List.append_nil, List.nil_append,
          List.not_mem_nil, or_false] at ha ⊢
        rcases ha with h | (h | h) | h | h
        · exact Or.inl (Or.inl h)
        · exact Or.inl (Or.inr h)
        · exact Or.inr (by omega)
        · exact Or.inr (by omega)
        · exact Or.inr (by omega)
    | nextScene =>
      refine ⟨_, _, _, _, rfl, ?_, ?_, ?_, ?_, ?_, ?_, rfl, rfl, rfl, ?_, rfl, rfl⟩
      · simp [Node.AddChild]
      · intro x hx; simpa [Node.AddChild] using hx
      · intro x; simp [Node.AddChild]
      · intro x; simp [Node.AddChild]
      · intro x; simp [Node.AddChild]
      · simp [Node.AddChild, destroyedNodes]
      · intro a ha
        simp only [Node.AddChild, Node.new, Node.id, Node.kind, Node.parent, Node.children,
          Node.ids, Node.idsOfList_eq_flatMap, List.flatMap_append, List.flatMap_cons,
          List.flatMap_nil, List.mem_cons, List.mem_append, List.append_nil, List.nil_append,
          List.not_mem_nil, or_false] at ha ⊢
        rcases ha with h | (h | h) | h
        · exact Or.inl (Or.inl h)
        · exact Or.inl (Or.inr h)
        · exact Or.inr (by omega)
        · exact Or.inr (by omega)

theorem Node.delete_no_scene_event (x : Nat) : ∀ n : Node,
    Event.sceneStart x ∉ n.delete ∧ Event.sceneUnload x ∉ n.delete ∧
      Event.sceneDestroyed x ∉ n.delete ∧ Event.sceneReload x ∉ n.delete := by
  intro n
  have key : ∀ e ∈ n.delete, ∃ a, e = Event.nodeDestroyed a := by
    have hall : (∀ n : Node, ∀ e ∈ n.delete, ∃ a, e = Event.nodeDestroyed a) := by
      intro n
      induction n using Node.rec
        (motive_2 := fun cs => ∀ e ∈ Node.deleteAll cs, ∃ a, e = Event.nodeDestroyed a) with
      | mk id kind parent children ih =>
        intro e he
        rw [Node.delete, List.mem_append] at he
        rcases he with he | he
        · exact ih e he
        · exact ⟨id, by simpa using he⟩
      | nil => rename_i he; simp [Node.deleteAll] at he
      | cons c cs ihc ihcs =>
        rename_i e he
        rw [Node.deleteAll, List.mem_append] at he
        rcases he with he | he
        · exact ihc e he
        · exact ihcs e he
    exact hall n
  refine ⟨?_, ?_, ?_, ?_⟩ <;>
  · intro h
    obtain ⟨a, ha⟩ := key _ h
    cases ha

/-- What `scene->Reload()` does on a live scene: it succeeds; its events contain one `Start`
and one `Unload`, both of this scene, and no destruction of a scene; the nodes destroyed are
those of the old tree; the scene gets a root at the address handed out next, without parent,
and every node of the new tree is newly allocated. -/
theorem World.reloadScene_of_live (w : World) (a : Nat) (sc : Scene)
    (hlive : w.scenes a = some sc) :
    ∃ (sc' : Scene) (next' : Nat) (events : List Event) (root' : Node),
      w.reloadScene a = .ok { w with
        scenes := Function.update w.scenes a (some sc')
        nextAddr := next'
        trace := w.trace ++ events } ∧
      events.count (Event.sceneStart a) = 1 ∧
      (∀ x, Event.sceneStart x ∈ events → x = a) ∧
      (∀ x, Event.sceneUnload x ∈ events → x = a) ∧
      (∀ x, Event.sceneDestroyed x ∉ events) ∧
      (∀ root, sc.root = some root → (destroyedNodes events).Perm root.ids) ∧
      (sc.root = none → destroyedNodes events = []) ∧
      sc'.root = some root' ∧ root'.id = w.nextAddr ∧ root'.parent = none ∧
      (∀ b ∈ root'.ids, w.nextAddr ≤ b) ∧ sc'.name = sc.name ∧ sc'.kind = sc.kind := by
  obtain ⟨sc', next', evs, r', hstart, hcount, honly, hnoUnload, hnoReload, hnoDestroyed,
      hnodes, hroot, hid, hparent, hfresh, hname, hkind⟩ :=
    Scene.Start_of_root
      { (sc.Unload a).1 with root := some (Node.new w.nextAddr .node), cameraNode := none }
      a (w.nextAddr + 1) (Node.new w.nextAddr .node) rfl
  have hdel : ∀ x, (Event.sceneStart x ∉ (sc.Unload a).2) ∧
      (Event.sceneUnload x ∈ (sc.Unload a).2 → x = a) ∧
      (Event.sceneDestroyed x ∉ (sc.Unload a).2) := by
    intro x
    cases hr : sc.root with
    | none => simp [Scene.Unload, hr]
    | some root =>
      have := Node.delete_no_scene_event x root
      simp [Scene.Unload, hr, this]
  refine ⟨sc', next',
    Event.sceneReload a :: Event.print ("[Scene] Resetting scene: " ++ sc.name ++ "\n") ::
      ((sc.Unload a).2 ++ evs), r', ?_, ?_, ?_, ?_, ?_, ?_, ?_, hroot, hid, hparent, ?_,
    hname, hkind⟩
  · simp only [World.reloadScene, hlive, Scene.Reload, hstart]
  · simp [List.count_cons, List.count_append, hcount, List.count_eq_zero.mpr (hdel a).1]
  · intro x hx
    simp only [List.mem_cons, List.mem_append] at hx
    rcases hx with hx | hx | hx | hx
    · cases hx
    · cases hx
    · exact absurd hx (hdel x).1
    · exact honly x hx
  · intro x hx
    simp only [List.mem_cons, List.mem_append] at hx
    rcases hx with hx | hx | hx | hx
    · cases hx
    · cases hx
    · exact (hdel x).2.1 hx
    · exact absurd hx (hnoUnload x)
  · intro x hx
    simp only [List.mem_cons, List.mem_append] at hx
    rcases hx with hx | hx | hx | hx
    · cases hx
    · cases hx
    · exact (hdel x).2.2 hx
    · exact hnoDestroyed x hx
  · intro root hr
    have : destroyedNodes (Event.sceneReload a ::
        Event.print ("[Scene] Resetting scene: " ++ sc.name ++ "\n") ::
          ((sc.Unload a).2 ++ evs)) = destroyedNodes root.delete := by
      simp only [Scene.Unload, hr, destroyedNodes, List.append_eq, destroyedNodes_append, hnodes,
        List.append_nil]
    rw [this]
    exact Node.destroyed_delete_perm root
  · intro hr
    simp [destroyedNodes, destroyedNodes_append, hnodes, Scene.Unload, hr]
  · intro b hb
    rcases hfresh b hb with h | h
    · simp [Node.new, Node.ids, Node.idsOfList] at h
      omega
    · omega

theorem SceneManager.ChangeSceneByName_unknown_name_aux (w : World) (name : String)
    (h : name ∉ w.manager.sceneMap.map Prod.fst) :
    ∃ w' : World, SceneManager.ChangeSceneByName w name = .ok w' ∧
      w'.scenes = w.scenes ∧ w'.manager = w.manager ∧ w'.nextAddr = w.nextAddr ∧
      w'.trace =
        w.trace ++ [Event.print ("[SceneManager] Scene not found: " ++ name ++ "\n")] := by
  have hlookup : w.manager.sceneMap.lookup name = none := by
    rw [List.lookup_eq_none_iff]
    intro e he
    have hne : name ≠ e.1 := by
      intro hname
      apply h
      rw [List.mem_map]
      exact ⟨e, he, hname.symm⟩
    simpa using hne
  refine ⟨{ w with trace :=
      w.trace ++ [Event.print ("[SceneManager] Scene not found: " ++ name ++ "\n")] },
    ?_, rfl, rfl, rfl, rfl⟩
  simp only [SceneManager.ChangeSceneByName, hlookup]

/-- C5: for a name that is not a key of the registry, `ChangeSceneByName(name)` only prints
the not-found message: the scene objects with their trees and camera references, the current
scene, the recorded scene name, the registry and the allocator are as before, and no
`Start`, `Unload` or `Reload` of any scene is invoked. -/
theorem SceneManager.ChangeSceneByName_unknown_name (w : World) (name : String)
    (h : name ∉ w.manager.sceneMap.map Prod.fst) :
    ∃ w' : World, SceneManager.ChangeSceneByName w name = .ok w' ∧
      w'.scenes = w.scenes ∧ w'.manager = w.manager ∧ w'.nextAddr = w.nextAddr ∧
      w'.trace =
        w.trace ++ [Event.print ("[SceneManager] Scene not found: " ++ name ++ "\n")] :=
  SceneManager.ChangeSceneByName_unknown_name_aux w name h

/-- C4: when the current scene `S` is a live scene registered under `n`, the call
`ChangeSceneByName(n)` succeeds and leaves `S` current (the same object, still registered);
the nodes destroyed are those of the old tree of `S`, root included; `S` has a new root at
the address handed out next, without parent, and every node below it is newly allocated;
`Start` is invoked once, on `S` and on no other scene, and no scene object is destroyed or
otherwise touched. -/
theorem SceneManager.ChangeSceneByName_reloads_current (w : World) (n : String) (S : Nat)
    (sc : Scene) (hcur : w.manager.currentScene = some S)
    (hreg : w.manager.sceneMap.lookup n = some S) (hlive : w.scenes S = some sc) :
    ∃ (w' : World) (sc' : Scene) (root' : Node) (events : List Event),
      SceneManager.ChangeSceneByName w n = .ok w' ∧
      w'.manager.currentScene = some S ∧
      w'.manager.sceneMap = w.manager.sceneMap ∧
      w'.scenes S = some sc' ∧ sc'.name = sc.name ∧ sc'.kind = sc.kind ∧
      (∀ x, x ≠ S → w'.scenes x = w.scenes x) ∧
      w'.trace = w.trace ++ events ∧
      (∀ root, sc.root = some root → (destroyedNodes events).Perm root.ids) ∧
      sc'.root = some root' ∧ root'.id = w.nextAddr ∧ root'.parent = none ∧
      (∀ b ∈ root'.ids, w.nextAddr ≤ b) ∧
      events.count (Event.sceneStart S) = 1 ∧
      (∀ x, Event.sceneStart x ∈ events → x = S) ∧
      (∀ x, Event.sceneDestroyed x ∉ events) := by
  obtain ⟨sc', next', events, root', hrun, hcount, honly, _, hnoDestroyed, hnodes, _, hroot, hid,
      hparent, hfresh, hname, hkind⟩ := World.reloadScene_of_live w S sc hlive
  refine ⟨{ scenes := Function.update w.scenes S (some sc')
            manager := { w.manager with currentSceneName := n }
            nextAddr := next'
            trace := w.trace ++ events },
    sc', root', events, ?_, ?_, ?_, ?_, hname, hkind, ?_, ?_, hnodes, hroot, hid,
    hparent, hfresh, hcount, honly, hnoDestroyed⟩
  · simp only [SceneManager.ChangeSceneByName, hreg, hcur, if_true, hrun]
  · exact hcur
  · rfl
  · simp
  · intro x hx
    simp [Function.update, hx]
  · rfl

/-- C8: when the registered name `n` resolves to a live scene `New` other than the current
scene `Old`, the call `ChangeSceneByName(n)` succeeds and makes `New` current; `New` has a
new root at the address handed out next and a tree of newly allocated nodes; `Start` is
invoked once, on `New` only; `Unload` of `Old` is not invoked and no scene is destroyed; the
registry is unchanged and the scene object `Old`, with its root, tree and camera reference,
is exactly as before. -/
theorem SceneManager.ChangeSceneByName_switches (w : World) (n : String) (Old New : Nat)
    (scNew : Scene) (hcur : w.manager.currentScene = some Old)
    (hreg : w.manager.sceneMap.lookup n = some New) (hne : New ≠ Old)
    (hlive : w.scenes New = some scNew) :
    ∃ (w' : World) (sc' : Scene) (root' : Node) (events : List Event),
      SceneManager.ChangeSceneByName w n = .ok w' ∧
      w'.manager.currentScene = some New ∧
      w'.manager.sceneMap = w.manager.sceneMap ∧
      w'.scenes New = some sc' ∧ sc'.name = scNew.name ∧ sc'.kind = scNew.kind ∧
      w'.scenes Old = w.scenes Old ∧
      w'.trace = w.trace ++ events ∧
      sc'.root = some root' ∧ root'.id = w.nextAddr ∧ root'.parent = none ∧
      (∀ b ∈ root'.ids, w.nextAddr ≤ b) ∧
      events.count (Event.sceneStart New) = 1 ∧
      (∀ x, Event.sceneStart x ∈ events → x = New) ∧
      Event.sceneUnload Old ∉ events ∧
      (∀ x, Event.sceneDestroyed x ∉ events) := by
  obtain ⟨sc', next', events, root', hrun, hcount, honly, hunload, hnoDestroyed, _, _, hroot,
      hid, hparent, hfresh, hname, hkind⟩ :=
    World.reloadScene_of_live
      { w with manager := { w.manager with currentScene := some New } } New scNew hlive
  have hif : ¬ w.manager.currentScene = some New := by
    rw [hcur]
    intro h
    exact hne (Option.some.inj h).symm
  refine ⟨{ scenes := Function.update w.scenes New (some sc')
            manager := { w.manager with currentScene := some New, currentSceneName := n }
            nextAddr := next'
            trace := w.trace ++ events },
    sc', root', events, ?_, ?_, ?_, ?_, hname, hkind, ?_, ?_, hroot, hid, hparent,
    hfresh, hcount, honly, ?_, hnoDestroyed⟩
  · simp only [SceneManager.ChangeSceneByName, hreg, hif, if_false, hrun]
  · rfl
  · rfl
  · simp
  · simp [Function.update, hne.symm]
  · rfl
  · intro h
    exact hne (hunload Old h).symm

/-- C7, evaluated: after `new DefaultScene(); new NextScene(); ChangeScene(defaultScene);
ChangeScene(nextScene);` the next scene is current and the default scene object is
destroyed, but the registry still maps "Default" to its address, so that
`UnloadAllScenes()` deletes it a second time and `ChangeSceneByName("Default")` calls
`Reload` on the destroyed object. -/
theorem SceneManager.ChangeScene_keeps_destroyed_scene_registered :
    ∃ w : World, World.afterDirectChanges = .ok w ∧
      w.manager.currentScene = some 3 ∧ (w.scenes 1).isNone = true ∧
      (w.scenes 3).isSome = true ∧
      w.manager.sceneMap.lookup "Default" = some 1 ∧
      w.trace.count (Event.sceneDestroyed 1) = 1 ∧
      w.trace.count (Event.sceneStart 3) = 1 ∧
      faultOf (SceneManager.UnloadAllScenes w) = some Fault.doubleDelete ∧
      faultOf (SceneManager.ChangeSceneByName w "Default") = some Fault.useAfterFree := by
  refine ⟨_, rfl, ?_⟩
  decide

/-- C10, evaluated: `Unload()` destroys exactly the nodes of the tree, root included, and
leaves the scene without root and without camera; on that scene `Scene::Update(dt)` does
nothing, but `Scene::Draw()` passes the null `root` to `FindFirstCameraNode`, which
dereferences it. -/
theorem Scene.Draw_after_Unload_faults (sc : Scene) (self : Nat) (dt : ℚ) :
    (sc.Unload self).1.root = none ∧ (sc.Unload self).1.cameraNode = none ∧
    (∀ r, sc.root = some r → (destroyedNodes (sc.Unload self).2).Perm r.ids) ∧
    (sc.Unload self).1.Update dt = [] ∧
    (sc.Unload self).1.Draw = .error Fault.nullDereference := by
  refine ⟨rfl, rfl, ?_, rfl, rfl⟩
  intro r hr
  simp only [Scene.Unload, hr, destroyedNodes]
  exact Node.destroyed_delete_perm r

/-- C9, as stated, fails: with one live scene registered under two names
`UnloadAllScenes()` does not reach a state with an empty registry, because it deletes the
scene object twice; the same happens when the registry still holds the scene that
`UnloadScene()` destroyed. -/
theorem SceneManager.UnloadAllScenes_registeredTwice :
    (World.registeredTwice.scenes 1).isSome = true ∧
    World.registeredTwice.manager.sceneMap = [("A", 1), ("B", 1)] ∧
    World.registeredTwice.manager.currentScene = none ∧
    faultOf (SceneManager.UnloadAllScenes World.registeredTwice) = some Fault.doubleDelete ∧
    (¬ ∃ w' : World, SceneManager.UnloadAllScenes World.registeredTwice = .ok w' ∧
        w'.manager.sceneMap = [] ∧ w'.manager.currentScene = none) ∧
    faultOf (SceneManager.UnloadScene World.mainStart) = none ∧
    (World.afterUnloadScene.scenes 1).isNone = true ∧
    World.afterUnloadScene.manager.sceneMap = [("Default", 1), ("Next", 3)] ∧
    faultOf (SceneManager.UnloadAllScenes World.afterUnloadScene) =
      some Fault.doubleDelete := by
  refine ⟨by decide, by decide, by decide, by decide, ?_, by decide, by decide, by decide,
    by decide⟩
  rintro ⟨w', h, _⟩
  have hf : faultOf (SceneManager.UnloadAllScenes World.registeredTwice) =
      some Fault.doubleDelete := by decide
  rw [h] at hf
  cases hf

theorem World.deleteAll_of_live : ∀ (l : List (String × Nat)) (w : World),
    (∀ e ∈ l, (w.scenes e.2).isSome = true) → (l.map Prod.snd).Nodup →
    ∃ w' : World, w.deleteAll l = .ok w' ∧ w'.manager = w.manager ∧
      (∀ e ∈ l, w'.scenes e.2 = none) ∧
      (∀ x, x ∉ l.map Prod.snd → w'.scenes x = w.scenes x) := by
  intro l
  induction l with
  | nil => intro w _ _; exact ⟨w, rfl, rfl, by simp, fun _ _ => rfl⟩
  | cons e t ih =>
    intro w hlive hnd
    rw [List.map_cons, List.nodup_cons] at hnd
    obtain ⟨s, hs⟩ := Option.isSome_iff_exists.mp (hlive e (List.mem_cons_self e t))
    have hdel : w.deleteScene e.2 = .ok { w with
        scenes := Function.update w.scenes e.2 none
        trace := w.trace ++ (s.Unload e.2).2 ++ [Event.sceneDestroyed e.2] } := by
      simp only [World.deleteScene, hs]
    have hlive' : ∀ e' ∈ t, ((Function.update w.scenes e.2 none) e'.2).isSome = true := by
      intro e' he'
      have hne : e'.2 ≠ e.2 := by
        intro heq
        apply hnd.1
        rw [← heq]
        exact List.mem_map_of_mem _ he'
      rw [Function.update_noteq hne]
      exact hlive e' (List.mem_cons_of_mem e he')
    obtain ⟨w', hrun, hman, hgone, hkeep⟩ := ih
      { w with
        scenes := Function.update w.scenes e.2 none
        trace := w.trace ++ (s.Unload e.2).2 ++ [Event.sceneDestroyed e.2] } hlive' hnd.2
    refine ⟨w', ?_, hman, ?_, ?_⟩
    · simp only [World.deleteAll, hdel, hrun]
    · intro e' he'
      rcases List.mem_cons.mp he' with rfl | he'
      · rw [hkeep _ hnd.1]
        simp
      · exact hgone e' he'
    · intro x hx
      simp only [List.map_cons, List.mem_cons, not_or] at hx
      rw [hkeep x hx.2]
      simp [Function.update, hx.1]

/-- C9, amended: when the current scene and every registered scene is a live object and no
scene object is registered under two names, `UnloadAllScenes()` succeeds and leaves an empty
registry, no current scene and every formerly registered scene destroyed; every later
`ChangeSceneByName(name)` only prints the not-found message and changes no state. -/
theorem SceneManager.UnloadAllScenes_empties_registry (w : World)
    (hcur : ∀ c, w.manager.currentScene = some c → (w.scenes c).isSome = true)
    (hreg : ∀ e ∈ w.manager.sceneMap, (w.scenes e.2).isSome = true)
    (hdist : (w.manager.sceneMap.map Prod.snd).Nodup) :
    ∃ w' : World, SceneManager.UnloadAllScenes w = .ok w' ∧
      w'.manager.sceneMap = [] ∧ w'.manager.currentScene = none ∧
      (∀ e ∈ w.manager.sceneMap, w'.scenes e.2 = none) ∧
      (∀ name : String, ∃ w'' : World,
        SceneManager.ChangeSceneByName w' name = .ok w'' ∧
        w''.scenes = w'.scenes ∧ w''.manager = w'.manager ∧ w''.nextAddr = w'.nextAddr ∧
        w''.trace =
          w'.trace ++ [Event.print ("[SceneManager] Scene not found: " ++ name ++ "\n")]) := by
  have hfinish : ∀ (w1 : World), w1.manager.sceneMap = w.manager.sceneMap →
      w1.manager.currentScene = none →
      (∀ e ∈ w.manager.sceneMap, (w1.scenes e.2).isSome = true) →
      ∃ w' : World,
        (match World.deleteAll w1 w1.manager.sceneMap with
          | .error e => .error e
          | .ok w'' => .ok { w'' with manager := { w''.manager with sceneMap := [] } }) =
          Except.ok w' ∧
        w'.manager.sceneMap = [] ∧ w'.manager.currentScene = none ∧
        (∀ e ∈ w.manager.sceneMap, w'.scenes e.2 = none) := by
    intro w1 hmap hnone hlive
    obtain ⟨w2, hrun, hman, hgone, _⟩ :=
      World.deleteAll_of_live w.manager.sceneMap w1 hlive hdist
    refine ⟨{ w2 with manager := { w2.manager with sceneMap := [] } }, ?_, rfl, ?_, hgone⟩
    · rw [hmap, hrun]
    · simp [hman, hnone]
  have hmain : ∃ w' : World, SceneManager.UnloadAllScenes w = .ok w' ∧
      w'.manager.sceneMap = [] ∧ w'.manager.currentScene = none ∧
      (∀ e ∈ w.manager.sceneMap, w'.scenes e.2 = none) := by
    cases hc : w.manager.currentScene with
    | none =>
      obtain ⟨w', h1, h2, h3, h4⟩ := hfinish w rfl hc hreg
      exact ⟨w', by simp only [SceneManager.UnloadAllScenes, hc, h1], h2, h3, h4⟩
    | some c =>
      obtain ⟨s, hs⟩ := Option.isSome_iff_exists.mp (hcur c hc)
      have hlive : ∀ e ∈ w.manager.sceneMap,
          ((Function.update w.scenes c (some (s.Unload c).1)) e.2).isSome = true := by
        intro e he
        by_cases heq : e.2 = c
        · rw [heq, Function.update_same]; rfl
        · rw [Function.update_noteq heq]; exact hreg e he
      obtain ⟨w', h1, h2, h3, h4⟩ := hfinish
        { scenes := Function.update w.scenes c (some (s.Unload c).1)
          manager := { w.manager with currentScene := none, currentSceneName := "" }
          nextAddr := w.nextAddr
          trace := w.trace ++ (s.Unload c).2 } rfl rfl hlive
      exact ⟨w', by simp only [SceneManager.UnloadAllScenes, hc, World.unloadScene, hs, h1],
        h2, h3, h4⟩
  obtain ⟨w', h1, h2, h3, h4⟩ := hmain
  refine ⟨w', h1, h2, h3, h4, ?_⟩
  intro name
  exact SceneManager.ChangeSceneByName_unknown_name_aux w' name (by simp [h2])

/-! ### Instances of the theorems that carry hypotheses -/

/-- Instance of C2: removing the blue cube from the root of `exampleTree`. -/
theorem Node.RemoveChild_destroys_exactly_subtree_witness :
    exampleTree.ids.Nodup ∧
    (destroyedNodes (exampleTree.callAt (fun p => p.RemoveChild 3) 1).2).Perm [3, 4] ∧
    (exampleTree.callAt (fun p => p.RemoveChild 3) 1).1.ids = [1, 2] ∧
    (exampleTree.callAt (fun p => p.RemoveChild 3) 1).1.ids.length = 4 - 2 :=
  ⟨by decide,
    Node.RemoveChild_destroys_exactly_subtree exampleTree exampleTree exampleCube (by decide) rfl
      (List.mem_cons_of_mem _ (List.mem_cons_self _ _))⟩

/-- Instance of C3: a green node 9 attached to the blue cube of `exampleTree` is visited
right after the red cube. -/
theorem Node.traversal_follows_attach_order_witness :
    exampleTree.find? 3 = some exampleCube ∧
    ∃ pre post : List Nat, exampleTree.ids = pre ++ exampleCube.ids ++ post ∧
      (exampleTree.callAt (fun n => n.AddChild (Node.new 9 .spatialNode)) 3).1.ids =
        pre ++ exampleCube.ids ++ (Node.new 9 .spatialNode).ids ++ post :=
  ⟨rfl, (Node.traversal_follows_attach_order 0 exampleTree []).2.2.2.2.2 exampleTree exampleCube
    (Node.new 9 .spatialNode) 3 rfl⟩

/-- Instance of C4: `ChangeSceneByName("Default")` while the default scene is current. -/
theorem SceneManager.ChangeSceneByName_reloads_current_witness :
    World.mainStart.manager.currentScene = some 1 ∧
    World.mainStart.manager.sceneMap.lookup "Default" = some 1 ∧
    World.mainStart.scenes 1 = some exampleDefaultScene ∧
    ∃ (w' : World) (events : List Event),
      SceneManager.ChangeSceneByName World.mainStart "Default" = .ok w' ∧
      w'.manager.currentScene = some 1 ∧
      w'.trace = World.mainStart.trace ++ events ∧
      (destroyedNodes events).Perm [5, 6, 7, 8] ∧
      events.count (Event.sceneStart 1) = 1 :=
  ⟨rfl, rfl, rfl,
    let ⟨w', _, _, events, h1, h2, _, _, _, _, _, h3, h4, _, _, _, _, h5, _, _⟩ :=
      SceneManager.ChangeSceneByName_reloads_current World.mainStart "Default" 1
        exampleDefaultScene rfl rfl rfl
    ⟨w', events, h1, h2, h3, h4 _ rfl, h5⟩⟩

/-- Instance of C5: a name that was never registered. -/
theorem SceneManager.ChangeSceneByName_unknown_name_witness :
    "Missing" ∉ World.mainStart.manager.sceneMap.map Prod.fst ∧
    ∃ w' : World, SceneManager.ChangeSceneByName World.mainStart "Missing" = .ok w' ∧
      w'.scenes = World.mainStart.scenes ∧ w'.manager = World.mainStart.manager ∧
      w'.nextAddr = World.mainStart.nextAddr ∧
      w'.trace = World.mainStart.trace ++
        [Event.print ("[SceneManager] Scene not found: " ++ "Missing" ++ "\n")] :=
  ⟨by decide, SceneManager.ChangeSceneByName_unknown_name World.mainStart "Missing" (by decide)⟩

/-- Instance of C6 (b) and (e): in exact arithmetic a wait of 2 s is over at the fourth
`Update(1/2)`, not before; in `float` arithmetic a wait of 1 s is over at the sixth
`Update(0.2f)`, not before. -/
theorem CoroutineManager.timed_wait_schedule_witness :
    ((∀ log ∈ ((CoroutineManager.mk
        [{ func := { exampleSteps with calls := 1 }, currentYield := some ⟨2⟩ }]).UpdateAll
          [1/2, 1/2, 1/2]).2, (7 : Nat) ∉ log) ∧
      ((((CoroutineManager.mk
        [{ func := { exampleSteps with calls := 1 }, currentYield := some ⟨2⟩ }]).UpdateAll
          [1/2, 1/2, 1/2]).1.Update (1/2)).2).count 7 = 1) ∧
    ((∀ log ∈ ((CoroutineManager.mk
        [{ func := { floatSteps [1] with calls := 1 },
           currentYield := some ⟨Float32.ofRat 1⟩ }]).UpdateAll
          (List.replicate 5 (13421773 / 67108864))).2, (7 : Nat) ∉ log) ∧
      ((((CoroutineManager.mk
        [{ func := { floatSteps [1] with calls := 1 },
           currentYield := some ⟨Float32.ofRat 1⟩ }]).UpdateAll
          (List.replicate 5 (13421773 / 67108864))).1.Update (13421773 / 67108864)).2).count 7 =
        1) :=
  ⟨CoroutineManager.timed_wait_schedule.2.1
    (CoroutineManager.mk [{ func := { exampleSteps with calls := 1 }, currentYield := some ⟨2⟩ }])
    { exampleSteps with calls := 1 } 2 [1/2, 1/2, 1/2] (1/2)
    (List.mem_singleton.mpr rfl) (by simp)
    (by
      intro k h1 h2
      simp only [List.length_cons, List.length_nil] at h2
      interval_cases k <;> norm_num)
    (by norm_num),
   CoroutineManager.timed_wait_schedule.2.2.2.2.2
    (CoroutineManager.mk
      [{ func := { floatSteps [1] with calls := 1 }, currentYield := some ⟨Float32.ofRat 1⟩ }])
    { floatSteps [1] with calls := 1 } (Float32.ofRat 1)
    (List.replicate 5 (13421773 / 67108864)) (13421773 / 67108864)
    (List.mem_singleton.mpr rfl) (by simp)
    (by
      intro k h1 h2
      simp only [List.length_replicate] at h2
      interval_cases k <;> decide!)
    (by decide!)⟩

/-- Instance of C8: `ChangeSceneByName("Next")` while the default scene is current. -/
theorem SceneManager.ChangeSceneByName_switches_witness :
    World.mainStart.manager.currentScene = some 1 ∧
    World.mainStart.manager.sceneMap.lookup "Next" = some 3 ∧
    World.mainStart.scenes 3 = some exampleNextScene ∧
    ∃ (w' : World) (events : List Event),
      SceneManager.ChangeSceneByName World.mainStart "Next" = .ok w' ∧
      w'.manager.currentScene = some 3 ∧
      w'.scenes 1 = some exampleDefaultScene ∧
      w'.trace = World.mainStart.trace ++ events ∧
      events.count (Event.sceneStart 3) = 1 ∧
      Event.sceneUnload 1 ∉ events :=
  ⟨rfl, rfl, rfl,
    let ⟨w', _, _, events, h1, h2, _, _, _, _, h3, h4, _, _, _, _, h5, _, h6, _⟩ :=
      SceneManager.ChangeSceneByName_switches World.mainStart "Next" 1 3 exampleNextScene
        rfl rfl (by decide) rfl
    ⟨w', events, h1, h2, h3, h4, h5, h6⟩⟩

/-- Instance of C9 as amended: `UnloadAllScenes()` after the start of `main`. -/
theorem SceneManager.UnloadAllScenes_empties_registry_witness :
    (World.mainStart.manager.sceneMap.map Prod.snd).Nodup ∧
    ∃ w' : World, SceneManager.UnloadAllScenes World.mainStart = .ok w' ∧
      w'.manager.sceneMap = [] ∧ w'.manager.currentScene = none ∧
      w'.scenes 1 = none ∧ w'.scenes 3 = none :=
  ⟨by decide,
    let ⟨w', h1, h2, h3, h4, _⟩ :=
      SceneManager.UnloadAllScenes_empties_registry World.mainStart
        (fun c hc => by
          have h : (1 : Nat) = c := Option.some.inj hc
          subst h
          rfl)
        (by decide) (by decide)
    ⟨w', h1, h2, h3, h4 ("Default", 1) (by decide), h4 ("Next", 3) (by decide)⟩⟩

/-! ### Proofs: the timed wait alone -/

theorem WaitForSeconds.IsCompleteAll_eq (dts : List ℚ) : ∀ s : ℚ,
    (WaitForSeconds.IsCompleteAll ⟨s⟩ dts).1 =
        (List.range dts.length).map (fun n => decide (s ≤ (dts.take (n + 1)).sum)) ∧
      (WaitForSeconds.IsCompleteAll ⟨s⟩ dts).2.timeRemaining = s - dts.sum := by
  induction dts with
  | nil => intro s; simp [WaitForSeconds.IsCompleteAll]
  | cons dt rest ih =>
    intro s
    obtain ⟨h1, h2⟩ := ih (s - dt)
    have hstep : (WaitForSeconds.mk s).IsComplete dt = (decide (s - dt ≤ 0), ⟨s - dt⟩) := rfl
    refine ⟨?_, ?_⟩
    · simp only [WaitForSeconds.IsCompleteAll, hstep, h1, List.length_cons,
        List.range_succ_eq_map, List.map_cons, List.map_map]
      congr 1
      · simp
      · apply List.map_congr_left
        intro n _
        simp only [Function.comp, List.take_succ_cons, List.sum_cons]
        congr 1
        apply propext
        constructor <;> intro h <;> linarith
    · simp only [WaitForSeconds.IsCompleteAll, hstep, h2, List.sum_cons]
      ring

/-- C16: for a `WaitForSeconds(s)` and calls `IsComplete(dt_1)`, `IsComplete(dt_2)`, ... the
`n`-th call returns true exactly when `dt_1 + ... + dt_n >= s`; every call lowers the
remaining time by its `dt`, so that after the calls it is `s` minus the sum. -/
theorem WaitForSeconds.IsComplete_iff_elapsed (s : ℚ) (dts : List ℚ) :
    (WaitForSeconds.IsCompleteAll ⟨s⟩ dts).1 =
      (List.range dts.length).map (fun n => decide (s ≤ (dts.take (n + 1)).sum)) ∧
    (WaitForSeconds.IsCompleteAll ⟨s⟩ dts).2.timeRemaining = s - dts.sum ∧
    (∀ (w : WaitForSeconds) (dt : ℚ),
      (w.IsComplete dt).2.timeRemaining = w.timeRemaining - dt ∧
      ((w.IsComplete dt).1 = true ↔ w.timeRemaining - dt ≤ 0)) := by
  obtain ⟨h1, h2⟩ := WaitForSeconds.IsCompleteAll_eq dts s
  refine ⟨h1, h2, ?_⟩
  intro w dt
  exact ⟨rfl, by simp [WaitForSeconds.IsComplete]⟩

/-! ### Proofs: the first camera of a tree -/

mutual
theorem Node.findFirstCameraNode_eq : ∀ r : Node,
    r.findFirstCameraNode = (r.kinds.find? (fun e => e.2.isCamera)).map Prod.fst
  | .mk id kind _ cs => by
    rw [Node.findFirstCameraNode, Node.kinds, List.find?_cons]
    cases hk : kind.isCamera with
    | true => simp
    | false => simpa using Node.findFirstCameraNodeIn_eq cs
theorem Node.findFirstCameraNodeIn_eq : ∀ cs : List Node,
    Node.findFirstCameraNodeIn cs =
      ((Node.kindsOfList cs).find? (fun e => e.2.isCamera)).map Prod.fst
  | [] => rfl
  | c :: cs => by
    rw [Node.findFirstCameraNodeIn, Node.kindsOfList, List.find?_append,
      Node.findFirstCameraNode_eq c, Node.findFirstCameraNodeIn_eq cs]
    cases (c.kinds.find? (fun e => e.2.isCamera)) <;> simp
end

/-- C20: for a tree rooted at `r`, `FindFirstCameraNode(r)` is the first node of dynamic type
`CameraNode` in depth-first pre-order, `r` itself first, and it is none exactly when the
tree has no camera node; `Scene::Draw` on a scene with this root and no camera set stores
that result as the scene's camera, which stays unset when the tree has no camera. -/
theorem Scene.FindFirstCameraNode_preorder (r : Node) :
    Scene.FindFirstCameraNode (some r) =
      .ok ((r.kinds.find? (fun e => e.2.isCamera)).map Prod.fst) ∧
    (Scene.FindFirstCameraNode (some r) = .ok none ↔ ∀ e ∈ r.kinds, e.2.isCamera = false) ∧
    (∀ (kind : SceneKind) (name : String),
      (Scene.mk kind name (some r) none).Draw =
        .ok (Scene.mk kind name (some r)
              ((r.kinds.find? (fun e => e.2.isCamera)).map Prod.fst),
            Scene.drawWith (Scene.mk kind name (some r)
              ((r.kinds.find? (fun e => e.2.isCamera)).map Prod.fst)))) := by
  have h := Node.findFirstCameraNode_eq r
  refine ⟨by simp [Scene.FindFirstCameraNode, h], ?_, ?_⟩
  · simp only [Scene.FindFirstCameraNode, h, Except.ok.injEq, Option.map_eq_none',
      List.find?_eq_none]
    constructor
    · intro hall e he
      simpa using hall e he
    · intro hall e he
      simp [hall e he]
  · intro kind name
    simp [Scene.Draw, Scene.FindFirstCameraNode, h]

/-! ### Proofs: `RemoveChild` on one node -/

theorem Node.delete_eq (n : Node) :
    n.delete = Node.deleteAll n.children ++ [Event.nodeDestroyed n.id] := by
  cases n; rfl

mutual
theorem Node.delete_only_destroys : ∀ n : Node, ∀ e ∈ n.delete, ∃ a, e = Event.nodeDestroyed a
  | .mk id _ _ cs => by
    intro e he
    rw [Node.delete, List.mem_append] at he
    rcases he with he | he
    · exact Node.deleteAll_only_destroys cs e he
    · exact ⟨id, by simpa using he⟩
theorem Node.deleteAll_only_destroys :
    ∀ cs : List Node, ∀ e ∈ Node.deleteAll cs, ∃ a, e = Event.nodeDestroyed a
  | [] => by intro e he; simp [Node.deleteAll] at he
  | c :: cs => by
    intro e he
    rw [Node.deleteAll, List.mem_append] at he
    rcases he with he | he
    · exact Node.delete_only_destroys c e he
    · exact Node.deleteAll_only_destroys cs e he
end

/-- C12: when `C` is the first entry with its address in the child vector of `P`, the call
`P.RemoveChild(C)` invokes `OnDestroy` on `C` once, then deletes the children of `C` and
`C` itself, and leaves the child vector without that entry, the other children in their
order; no other hook is invoked.  When no entry of the child vector has the address, the
call invokes nothing and leaves `P` and all its nodes as they are. -/
theorem Node.RemoveChild_present_or_noop (P : Node) :
    (∀ (C : Node) (before after : List Node),
      P.children = before ++ C :: after → (∀ x ∈ before, x.id ≠ C.id) →
      P.RemoveChild C.id =
          (.mk P.id P.kind P.parent (before ++ after),
            Event.onDestroy C.id :: (Node.deleteAll C.children ++ [Event.nodeDestroyed C.id])) ∧
        (P.RemoveChild C.id).2.count (Event.onDestroy C.id) = 1 ∧
        (∀ x, Event.onDestroy x ∈ (P.RemoveChild C.id).2 → x = C.id)) ∧
    (∀ c : Nat, (∀ x ∈ P.children, x.id ≠ c) → P.RemoveChild c = (P, [])) := by
  constructor
  · intro C before after hch hfirst
    have hfind : P.children.find? (fun x => x.id == C.id) = some C := by
      rw [List.find?_eq_some]
      refine ⟨by simp, before, after, hch, ?_⟩
      intro x hx
      simpa using hfirst x hx
    have herase : P.children.eraseP (fun x => x.id == C.id) = before ++ after := by
      rw [hch, List.eraseP_append_right _ (fun x hx => by simpa using hfirst x hx)]
      simp
    have hrun : P.RemoveChild C.id =
        (.mk P.id P.kind P.parent (before ++ after),
          Event.onDestroy C.id :: (Node.deleteAll C.children ++ [Event.nodeDestroyed C.id])) := by
      simp only [Node.RemoveChild, hfind, herase, Node.delete_eq]
    have hdel : ∀ x, Event.onDestroy x ∉ Node.deleteAll C.children ++ [Event.nodeDestroyed C.id] := by
      intro x hx
      rw [← Node.delete_eq] at hx
      obtain ⟨a, ha⟩ := Node.delete_only_destroys C _ hx
      cases ha
    refine ⟨hrun, ?_, ?_⟩
    · rw [hrun]
      simp only [List.count_cons_self]
      rw [List.count_eq_zero.mpr (hdel C.id)]
    · intro x hx
      rw [hrun] at hx
      rcases List.mem_cons.mp hx with h | h
      · cases h; rfl
      · exact absurd h (hdel x)
  · intro c hnone
    have hfind : P.children.find? (fun x => x.id == c) = none := by
      rw [List.find?_eq_none]
      intro x hx
      simpa using hnone x hx
    simp only [Node.RemoveChild, hfind]

/-! ### Proofs: `AddChild` inside a tree -/

theorem Node.table_eq (n : Node) :
    n.table = (n.id, n.parent, n.children.map Node.id) :: Node.tableOfList n.children := by
  cases n; rfl

theorem Node.tableOfList_append (l₁ l₂ : List Node) :
    Node.tableOfList (l₁ ++ l₂) = Node.tableOfList l₁ ++ Node.tableOfList l₂ := by
  induction l₁ with
  | nil => rfl
  | cons c t ih => simp [Node.tableOfList, ih]

theorem Node.callAt_id (f : Node → Node × List Event) (hfid : ∀ n, (f n).1.id = n.id)
    (a : Nat) (t : Node) : (t.callAt f a).1.id = t.id := by
  cases t with
  | mk id k p cs =>
    rw [Node.callAt]
    by_cases hid : id = a
    · simp only [hid, if_true]
      rw [hfid]
    · simp only [hid, if_false]
      rfl

theorem Node.callInList_map_id (f : Node → Node × List Event) (hfid : ∀ n, (f n).1.id = n.id)
    (a : Nat) (cs : List Node) : (Node.callInList f cs a).1.map Node.id = cs.map Node.id := by
  induction cs with
  | nil => rfl
  | cons c t ih =>
    rw [Node.callInList]
    cases c.find? a with
    | some m => simp [Node.callAt_id f hfid a c]
    | none => simp [ih]

mutual
theorem Node.callAt_table (f : Node → Node × List Event) (hfid : ∀ n, (f n).1.id = n.id)
    (a : Nat) (P : Node) :
    ∀ (t : Node), t.find? a = some P →
      ∃ pre post : List (Nat × Option Nat × List Nat), t.table = pre ++ P.table ++ post ∧
        (t.callAt f a).1.table = pre ++ (f P).1.table ++ post ∧ (t.callAt f a).2 = (f P).2
  | .mk id k p cs, hfind => by
    rw [Node.find?] at hfind
    rw [Node.callAt]
    by_cases hid : id = a
    · simp only [hid, if_true, Option.some.injEq] at hfind ⊢
      subst hfind
      exact ⟨[], [], by simp, by simp, rfl⟩
    · simp only [hid, if_false] at hfind ⊢
      obtain ⟨pre, post, h1, h2, h3⟩ := Node.callInList_table f hfid a P cs hfind
      refine ⟨(id, p, cs.map Node.id) :: pre, post, ?_, ?_, h3⟩
      · simp [Node.table, h1]
      · simp [Node.table, h2, Node.callInList_map_id f hfid a cs]
theorem Node.callInList_table (f : Node → Node × List Event)
    (hfid : ∀ n, (f n).1.id = n.id) (a : Nat) (P : Node) :
    ∀ (cs : List Node), Node.findInList? cs a = some P →
      ∃ pre post : List (Nat × Option Nat × List Nat),
        Node.tableOfList cs = pre ++ P.table ++ post ∧
        Node.tableOfList (Node.callInList f cs a).1 = pre ++ (f P).1.table ++ post ∧
        (Node.callInList f cs a).2 = (f P).2
  | [], hfind => by simp [Node.findInList?] at hfind
  | c :: cs, hfind => by
    rw [Node.findInList?] at hfind
    rw [Node.callInList]
    cases hcf : c.find? a with
    | some m =>
      simp only [hcf, Option.some.injEq] at hfind ⊢
      subst hfind
      obtain ⟨pre, post, h1, h2, h3⟩ := Node.callAt_table f hfid a m c hcf
      exact ⟨pre, post ++ Node.tableOfList cs, by simp [Node.tableOfList, h1],
        by simp [Node.tableOfList, h2], h3⟩
    | none =>
      simp only [hcf] at hfind ⊢
      obtain ⟨pre, post, h1, h2, h3⟩ := Node.callInList_table f hfid a P cs hfind
      exact ⟨c.table ++ pre, post, by simp [Node.tableOfList, h1],
        by simp [Node.tableOfList, h2], h3⟩
end

theorem Node.AddChild_id (C n : Node) : (n.AddChild C).1.id = n.id := by
  cases n; rfl

theorem Node.AddChild_table (P C : Node) :
    (P.AddChild C).1.table =
      (P.id, P.parent, P.children.map Node.id ++ [C.id]) ::
        (Node.tableOfList P.children ++
          (C.id, some P.id, C.children.map Node.id) :: Node.tableOfList C.children) := by
  cases P with
  | mk pid pk pp pcs =>
    cases C with
    | mk cid ck cp ccs =>
      simp [Node.AddChild, Node.table, Node.tableOfList_append, Node.tableOfList, Node.id,
        Node.kind, Node.parent, Node.children]

/-- C11: the call `P.AddChild(C)` sets the parent of `C` to `P` and appends `C` to the child
vector of `P` behind the earlier children, which stay in order; the `Start` hook of `C` is
invoked once, by the last statement, when the link and the append are made; and when `P` is
a node of a tree, no field of any other node object changes: the records of all nodes keep
their places, only the record of `P` has `C` appended and the records of `C` and its subtree
follow those of `P` and its earlier subtree, `C` with the new parent. -/
theorem Node.AddChild_links_and_appends (P C : Node) :
    (P.AddChild C).1 =
      .mk P.id P.kind P.parent (P.children ++ [.mk C.id C.kind (some P.id) C.children]) ∧
    (P.AddChild C).2 = [Event.nodeStart C.id] ∧
    (P.AddChildSteps C).map (fun s => s.2.2) = [none, none, some (Event.nodeStart C.id)] ∧
    (P.AddChildSteps C).filterMap (fun s => s.2.2) = (P.AddChild C).2 ∧
    ((P.AddChildSteps C).getLast?).map (fun s => s.1) = some (P.AddChild C).1 ∧
    (∀ s ∈ P.AddChildSteps C, s.2.2 = some (Event.nodeStart C.id) →
      s.2.1.parent = some P.id ∧ s.1.children = P.children ++ [s.2.1] ∧ s.2.1.id = C.id ∧
        s.2.1.children = C.children) ∧
    C.table = (C.id, C.parent, C.children.map Node.id) :: Node.tableOfList C.children ∧
    (∀ (T : Node) (a : Nat), T.find? a = some P →
      ∃ pre post : List (Nat × Option Nat × List Nat),
        T.table =
          pre ++ ((P.id, P.parent, P.children.map Node.id) :: Node.tableOfList P.children) ++
            post ∧
        (T.callAt (fun n => n.AddChild C) a).1.table =
          pre ++ ((P.id, P.parent, P.children.map Node.id ++ [C.id]) ::
            (Node.tableOfList P.children ++
              (C.id, some P.id, C.children.map Node.id) :: Node.tableOfList C.children)) ++
            post ∧
        (T.callAt (fun n => n.AddChild C) a).2 = [Event.nodeStart C.id]) := by
  refine ⟨rfl, rfl, rfl, rfl, rfl, ?_, Node.table_eq C, ?_⟩
  · intro s hs hhook
    simp only [Node.AddChildSteps, List.mem_cons, List.mem_singleton, List.not_mem_nil,
      or_false] at hs
    rcases hs with rfl | rfl | rfl
    · simp at hhook
    · simp at hhook
    · exact ⟨rfl, rfl, rfl, rfl⟩
  · intro T a hfind
    obtain ⟨pre, post, h1, h2, h3⟩ :=
      Node.callAt_table (fun n => n.AddChild C) (Node.AddChild_id C) a P T hfind
    refine ⟨pre, post, ?_, ?_, h3⟩
    · rw [h1, Node.table_eq P]
    · rw [h2, Node.AddChild_table]

/-! ### Proofs: the tree invariant -/

theorem Node.parentsOk_eq (n : Node) : n.parentsOk = Node.parentsOkIn n.id n.children := by
  cases n; rfl

theorem Node.parentsOkIn_append (p : Nat) (l₁ l₂ : List Node) :
    Node.parentsOkIn p (l₁ ++ l₂) = (Node.parentsOkIn p l₁ && Node.parentsOkIn p l₂) := by
  induction l₁ with
  | nil => simp [Node.parentsOkIn]
  | cons c t ih => simp [Node.parentsOkIn, ih, Bool.and_assoc]

theorem Node.parentsOkIn_eraseP (p : Nat) (q : Node → Bool) (cs : List Node)
    (h : Node.parentsOkIn p cs = true) : Node.parentsOkIn p (cs.eraseP q) = true := by
  induction cs with
  | nil => simpa using h
  | cons c t ih =>
    simp only [Node.parentsOkIn, Bool.and_eq_true] at h
    rw [List.eraseP_cons]
    cases q c with
    | true => simpa using h.2
    | false =>
      simp only [Bool.false_eq_true, if_false, Node.parentsOkIn, Bool.and_eq_true]
      exact ⟨h.1, ih h.2⟩

theorem Node.parentsOkIn_mem (p : Nat) (cs : List Node) (h : Node.parentsOkIn p cs = true)
    (c : Node) (hc : c ∈ cs) : c.parent = some p ∧ c.parentsOk = true := by
  induction cs with
  | nil => simp at hc
  | cons d t ih =>
    simp only [Node.parentsOkIn, Bool.and_eq_true, beq_iff_eq] at h
    rcases List.mem_cons.mp hc with rfl | hc
    · exact h.1
    · exact ih h.2 hc

theorem Node.callAt_parent (f : Node → Node × List Event)
    (hfp : ∀ n, (f n).1.parent = n.parent) (a : Nat) (t : Node) :
    (t.callAt f a).1.parent = t.parent := by
  cases t with
  | mk id k p cs =>
    rw [Node.callAt]
    by_cases hid : id = a
    · simp only [hid, if_true]
      rw [hfp]
    · simp only [hid, if_false]
      rfl

mutual
theorem Node.callAt_parentsOk (f : Node → Node × List Event)
    (hfid : ∀ n, (f n).1.id = n.id) (hfp : ∀ n, (f n).1.parent = n.parent)
    (hfok : ∀ n, n.parentsOk = true → (f n).1.parentsOk = true) (a : Nat) :
    ∀ t : Node, t.parentsOk = true → (t.callAt f a).1.parentsOk = true
  | .mk id k p cs, h => by
    rw [Node.callAt]
    by_cases hid : id = a
    · simp only [hid, if_true]
      exact hfok _ (by simpa [hid] using h)
    · simp only [hid, if_false]
      rw [Node.parentsOk] at h ⊢
      exact Node.callInList_parentsOk f hfid hfp hfok a id cs h
theorem Node.callInList_parentsOk (f : Node → Node × List Event)
    (hfid : ∀ n, (f n).1.id = n.id) (hfp : ∀ n, (f n).1.parent = n.parent)
    (hfok : ∀ n, n.parentsOk = true → (f n).1.parentsOk = true) (a : Nat) (p : Nat) :
    ∀ cs : List Node, Node.parentsOkIn p cs = true →
      Node.parentsOkIn p (Node.callInList f cs a).1 = true
  | [], _ => by simp [Node.callInList, Node.parentsOkIn]
  | c :: cs, h => by
    simp only [Node.parentsOkIn, Bool.and_eq_true, beq_iff_eq] at h
    rw [Node.callInList]
    cases c.find? a with
    | some m =>
      simp only [Node.parentsOkIn, Bool.and_eq_true, beq_iff_eq]
      exact ⟨⟨by rw [Node.callAt_parent f hfp a c]; exact h.1.1,
        Node.callAt_parentsOk f hfid hfp hfok a c h.1.2⟩, h.2⟩
    | none =>
      simp only [Node.parentsOkIn, Bool.and_eq_true, beq_iff_eq]
      exact ⟨h.1, Node.callInList_parentsOk f hfid hfp hfok a p cs h.2⟩
end

theorem Node.eraseP_ids_sublist (q : Node → Bool) (cs : List Node) :
    (Node.idsOfList (cs.eraseP q)).Sublist (Node.idsOfList cs) := by
  induction cs with
  | nil => simp
  | cons c t ih =>
    rw [List.eraseP_cons]
    cases q c with
    | true => simp [Node.idsOfList]
    | false =>
      simp only [Bool.false_eq_true, if_false, Node.idsOfList]
      exact List.Sublist.append (List.Sublist.refl _) ih

mutual
theorem Node.callAt_ids_sublist (f : Node → Node × List Event)
    (hf : ∀ n, (f n).1.ids.Sublist n.ids) (a : Nat) :
    ∀ t : Node, (t.callAt f a).1.ids.Sublist t.ids
  | .mk id k p cs => by
    rw [Node.callAt]
    by_cases hid : id = a
    · simp only [hid, if_true]
      exact hf _
    · simp only [hid, if_false, Node.ids]
      exact (Node.callInList_ids_sublist f hf a cs).cons₂ id
theorem Node.callInList_ids_sublist (f : Node → Node × List Event)
    (hf : ∀ n, (f n).1.ids.Sublist n.ids) (a : Nat) :
    ∀ cs : List Node, (Node.idsOfList (Node.callInList f cs a).1).Sublist (Node.idsOfList cs)
  | [] => by simp [Node.callInList]
  | c :: cs => by
    rw [Node.callInList]
    cases c.find? a with
    | some m =>
      simp only [Node.idsOfList]
      exact List.Sublist.append (Node.callAt_ids_sublist f hf a c) (List.Sublist.refl _)
    | none =>
      simp only [Node.idsOfList]
      exact List.Sublist.append (List.Sublist.refl _) (Node.callInList_ids_sublist f hf a cs)
end

mutual
theorem Node.callAt_of_not_found (f : Node → Node × List Event) (a : Nat) :
    ∀ t : Node, t.find? a = none → (t.callAt f a).1 = t
  | .mk id k p cs, h => by
    rw [Node.find?] at h
    rw [Node.callAt]
    by_cases hid : id = a
    · simp [hid] at h
    · simp only [hid, if_false] at h ⊢
      rw [Node.callInList_of_not_found f a cs h]
theorem Node.callInList_of_not_found (f : Node → Node × List Event) (a : Nat) :
    ∀ cs : List Node, Node.findInList? cs a = none → (Node.callInList f cs a).1 = cs
  | [], _ => rfl
  | c :: cs, h => by
    rw [Node.findInList?] at h
    rw [Node.callInList]
    cases hc : c.find? a with
    | some m => simp [hc] at h
    | none =>
      simp only [hc] at h ⊢
      rw [Node.callInList_of_not_found f a cs h]
end

mutual
theorem Node.find?_none_of_not_mem : ∀ (t : Node) (a : Nat), a ∉ t.ids → t.find? a = none
  | .mk id k p cs, a, h => by
    rw [Node.ids, List.mem_cons, not_or] at h
    rw [Node.find?]
    simp only [Ne.symm h.1, if_false]
    exact Node.findInList?_none_of_not_mem cs a h.2
theorem Node.findInList?_none_of_not_mem :
    ∀ (cs : List Node) (a : Nat), a ∉ Node.idsOfList cs → Node.findInList? cs a = none
  | [], _, _ => rfl
  | c :: cs, a, h => by
    rw [Node.idsOfList, List.mem_append, not_or] at h
    rw [Node.findInList?, Node.find?_none_of_not_mem c a h.1]
    exact Node.findInList?_none_of_not_mem cs a h.2
end

mutual
theorem Node.find?_isSome_of_mem : ∀ (t : Node) (a : Nat), a ∈ t.ids → (t.find? a).isSome = true
  | .mk id k p cs, a, h => by
    rw [Node.find?]
    by_cases hid : id = a
    · simp [hid]
    · simp only [hid, if_false]
      rw [Node.ids, List.mem_cons] at h
      rcases h with h | h
      · exact absurd h.symm hid
      · exact Node.findInList?_isSome_of_mem cs a h
theorem Node.findInList?_isSome_of_mem :
    ∀ (cs : List Node) (a : Nat), a ∈ Node.idsOfList cs → (Node.findInList? cs a).isSome = true
  | [], _, h => by simp [Node.idsOfList] at h
  | c :: cs, a, h => by
    rw [Node.findInList?]
    cases hc : c.find? a with
    | some m => rfl
    | none =>
      rw [Node.idsOfList, List.mem_append] at h
      rcases h with h | h
      · have := Node.find?_isSome_of_mem c a h
        rw [hc] at this
        simp at this
      · exact Node.findInList?_isSome_of_mem cs a h
end

theorem Node.find?_self (t : Node) : t.find? t.id = some t := by
  cases t; simp [Node.find?, Node.id]

theorem Node.RemoveChild_id (c : Nat) (n : Node) : (n.RemoveChild c).1.id = n.id := by
  unfold Node.RemoveChild
  cases n.children.find? (fun x => x.id == c) <;> rfl

theorem Node.RemoveChild_parent (c : Nat) (n : Node) :
    (n.RemoveChild c).1.parent = n.parent := by
  unfold Node.RemoveChild
  cases n.children.find? (fun x => x.id == c) <;> rfl

theorem Node.RemoveChild_parentsOk (c : Nat) (n : Node) (h : n.parentsOk = true) :
    (n.RemoveChild c).1.parentsOk = true := by
  unfold Node.RemoveChild
  cases n.children.find? (fun x => x.id == c) with
  | none => exact h
  | some m =>
    rw [Node.parentsOk_eq] at h
    exact Node.parentsOkIn_eraseP n.id _ n.children h

theorem Node.RemoveChild_ids_sublist (c : Nat) (n : Node) :
    (n.RemoveChild c).1.ids.Sublist n.ids := by
  unfold Node.RemoveChild
  cases n.children.find? (fun x => x.id == c) with
  | none => exact List.Sublist.refl _
  | some m =>
    rw [Node.ids_eq n]
    exact (Node.eraseP_ids_sublist _ n.children).cons₂ n.id

theorem Node.AddChild_parent (C n : Node) : (n.AddChild C).1.parent = n.parent := by
  cases n; rfl

theorem Node.AddChild_parentsOk (C : Node) (hC : C.parentsOk = true) (n : Node)
    (h : n.parentsOk = true) : (n.AddChild C).1.parentsOk = true := by
  rw [Node.parentsOk_eq] at h
  rw [Node.parentsOk_eq] at hC
  simp only [Node.AddChild, Node.parentsOk, Node.parentsOkIn_append, Node.parentsOkIn,
    Node.parent, h, hC, beq_self_eq_true, Bool.and_self]

mutual
theorem Node.reaches_root (T : Node) : ∀ t : Node, t.parentsOk = true → t.ids.Nodup →
    (∀ x ∈ t.ids, T.find? x = t.find? x) →
    ∀ a ∈ t.ids, ∃ n, n < t.ids.length ∧ T.ancestorAt a n = some t.id
  | .mk id k p cs, hok, hnd, hloc, a, ha => by
    rw [Node.ids, List.mem_cons] at ha
    rcases ha with rfl | ha
    · exact ⟨0, by simp [Node.ids], rfl⟩
    · rw [Node.ids, List.nodup_cons] at hnd
      have hloc' : ∀ x ∈ Node.idsOfList cs, T.find? x = Node.findInList? cs x := by
        intro x hx
        rw [hloc x (by rw [Node.ids]; exact List.mem_cons_of_mem _ hx), Node.find?]
        have hne : id ≠ x := fun h => hnd.1 (h ▸ hx)
        simp only [hne, if_false]
      obtain ⟨n, hn, hreach⟩ := Node.reaches_parent T id cs hok hnd.2 hloc' a ha
      exact ⟨n + 1, by simp only [Node.ids, List.length_cons]; omega, hreach⟩
theorem Node.reaches_parent (T : Node) (p : Nat) : ∀ cs : List Node,
    Node.parentsOkIn p cs = true → (Node.idsOfList cs).Nodup →
    (∀ x ∈ Node.idsOfList cs, T.find? x = Node.findInList? cs x) →
    ∀ a ∈ Node.idsOfList cs, ∃ n, n < (Node.idsOfList cs).length ∧
      T.ancestorAt a (n + 1) = some p
  | [], _, _, _, a, ha => by simp [Node.idsOfList] at ha
  | c :: cs, hok, hnd, hloc, a, ha => by
    simp only [Node.parentsOkIn, Bool.and_eq_true, beq_iff_eq] at hok
    rw [Node.idsOfList, List.nodup_append] at hnd
    obtain ⟨hcnd, hcsnd, hdisj⟩ := hnd
    rw [Node.idsOfList, List.mem_append] at ha
    rcases ha with ha | ha
    · have hlocc : ∀ x ∈ c.ids, T.find? x = c.find? x := by
        intro x hx
        rw [hloc x (by rw [Node.idsOfList]; exact List.mem_append_left _ hx), Node.findInList?]
        have hsome := Node.find?_isSome_of_mem c x hx
        cases hc : c.find? x with
        | none => rw [hc] at hsome; simp at hsome
        | some m => rfl
      obtain ⟨n, hn, hreach⟩ := Node.reaches_root T c hok.1.2 hcnd hlocc a ha
      refine ⟨n, by simp only [Node.idsOfList, List.length_append]; omega, ?_⟩
      rw [Node.ancestorAt, hreach]
      simp only [Option.some_bind]
      rw [hlocc c.id (Node.id_mem_ids c), Node.find?_self]
      exact hok.1.1
    · have hlocs : ∀ x ∈ Node.idsOfList cs, T.find? x = Node.findInList? cs x := by
        intro x hx
        rw [hloc x (by rw [Node.idsOfList]; exact List.mem_append_right _ hx), Node.findInList?,
          Node.find?_none_of_not_mem c x (fun hxc => hdisj hxc hx)]
      obtain ⟨n, hn, hreach⟩ := Node.reaches_parent T p cs hok.2 hcsnd hlocs a ha
      exact ⟨n, by simp only [Node.idsOfList, List.length_append]; omega, hreach⟩
end

mutual
theorem Node.find?_children_parent : ∀ (t : Node) (a : Nat) (P : Node),
    t.parentsOk = true → t.find? a = some P → ∀ c ∈ P.children, c.parent = some P.id
  | .mk id k p cs, a, P, hok, hfind => by
    rw [Node.find?] at hfind
    by_cases hid : id = a
    · subst hid
      simp only [if_true, Option.some.injEq] at hfind
      subst hfind
      intro c hc
      exact (Node.parentsOkIn_mem id cs (by simpa [Node.parentsOk] using hok) c hc).1
    · simp only [hid, if_false] at hfind
      exact Node.findInList?_children_parent cs id a P (by simpa [Node.parentsOk] using hok) hfind
theorem Node.findInList?_children_parent : ∀ (cs : List Node) (p a : Nat) (P : Node),
    Node.parentsOkIn p cs = true → Node.findInList? cs a = some P →
    ∀ c ∈ P.children, c.parent = some P.id
  | [], _, _, _, _, hfind => by simp [Node.findInList?] at hfind
  | d :: cs, p, a, P, hok, hfind => by
    simp only [Node.parentsOkIn, Bool.and_eq_true, beq_iff_eq] at hok
    rw [Node.findInList?] at hfind
    cases hd : d.find? a with
    | some m =>
      simp only [hd, Option.some.injEq] at hfind
      subst hfind
      exact Node.find?_children_parent d a m hok.1.2 hd
    | none =>
      simp only [hd] at hfind
      exact Node.findInList?_children_parent cs p a P hok.2 hfind
end

mutual
theorem Node.childEntries_perm : ∀ t : Node,
    (t.table.flatMap (fun r => r.2.2)).Perm (Node.idsOfList t.children)
  | .mk id k p cs => by
    simp only [Node.table, List.flatMap_cons, Node.children]
    exact Node.childEntriesOfList_perm cs
theorem Node.childEntriesOfList_perm : ∀ cs : List Node,
    (cs.map Node.id ++ (Node.tableOfList cs).flatMap (fun r => r.2.2)).Perm (Node.idsOfList cs)
  | [] => by simp [Node.tableOfList, Node.idsOfList]
  | c :: cs => by
    have h1 := Node.childEntries_perm c
    have h2 := Node.childEntriesOfList_perm cs
    simp only [List.map_cons, Node.tableOfList, List.flatMap_append, Node.idsOfList,
      Node.ids_eq c, List.cons_append]
    refine List.Perm.cons _ ?_
    refine List.Perm.trans ?_ (List.Perm.append h1 h2)
    exact List.perm_append_comm_assoc _ _ _
end

theorem Node.Reachable_invariant (T : Node) (h : T.Reachable) :
    T.parent = none ∧ T.parentsOk = true ∧ T.ids.Nodup := by
  induction h with
  | fresh id kind => exact ⟨rfl, rfl, by simp [Node.new, Node.ids, Node.idsOfList]⟩
  | addChild T C a _ _ hdisj ihT ihC =>
    obtain ⟨hTp, hTok, hTnd⟩ := ihT
    obtain ⟨_, hCok, hCnd⟩ := ihC
    refine ⟨?_, ?_, ?_⟩
    · rw [Node.callAt_parent _ (Node.AddChild_parent C) a T]
      exact hTp
    · exact Node.callAt_parentsOk _ (Node.AddChild_id C) (Node.AddChild_parent C)
        (Node.AddChild_parentsOk C hCok) a T hTok
    · cases hfind : T.find? a with
      | none =>
        rw [Node.callAt_of_not_found _ a T hfind]
        exact hTnd
      | some P =>
        obtain ⟨pre, post, h1, h2⟩ :=
          Node.callAt_ids_insert (fun n => n.AddChild C) a P C.ids (Node.ids_AddChild P C) T
            hfind
        rw [h2]
        have hperm : (pre ++ P.ids ++ C.ids ++ post).Perm (T.ids ++ C.ids) := by
          rw [h1]
          simp only [List.append_assoc]
          exact List.Perm.append_left _ (List.Perm.append_left _ List.perm_append_comm)
        rw [hperm.nodup_iff, List.nodup_append]
        exact ⟨hTnd, hCnd, fun x hxT hxC => hdisj x hxC hxT⟩
  | removeChild T a c _ ihT =>
    obtain ⟨hTp, hTok, hTnd⟩ := ihT
    refine ⟨?_, ?_, ?_⟩
    · rw [Node.callAt_parent _ (Node.RemoveChild_parent c) a T]
      exact hTp
    · exact Node.callAt_parentsOk _ (Node.RemoveChild_id c) (Node.RemoveChild_parent c)
        (Node.RemoveChild_parentsOk c) a T hTok
    · exact (Node.callAt_ids_sublist _ (Node.RemoveChild_ids_sublist c) a T).nodup hTnd

/-- C17: in every tree built from a freshly constructed root by `AddChild` calls, whose
children are trees built in the same way from objects not in the tree, and `RemoveChild`
calls: the root has no parent; every entry of the child vector of a node `P` has `parent`
equal to `P`; no address occurs twice among the nodes, and none occurs twice among the
entries of all child vectors; and from every node the `parent` pointers lead to the root in
fewer steps than the tree has nodes. -/
theorem Node.Reachable_tree_invariant (T : Node) (h : T.Reachable) :
    T.parent = none ∧
    (∀ (a : Nat) (P : Node), T.find? a = some P → ∀ c ∈ P.children, c.parent = some P.id) ∧
    T.ids.Nodup ∧
    (T.table.flatMap (fun r => r.2.2)).Nodup ∧
    (∀ a ∈ T.ids, ∃ n, n < T.ids.length ∧ T.ancestorAt a n = some T.id) := by
  obtain ⟨hp, hok, hnd⟩ := Node.Reachable_invariant T h
  refine ⟨hp, ?_, hnd, ?_, ?_⟩
  · intro a P hfind
    exact Node.find?_children_parent T a P hok hfind
  · rw [(Node.childEntries_perm T).nodup_iff]
    rw [Node.ids_eq T, List.nodup_cons] at hnd
    exact hnd.2
  · exact Node.reaches_root T T hok hnd (fun _ _ => rfl)

/-- Instance of C17: `exampleTree` is built by three `AddChild` calls, and from the red cube
two parent links lead to the root. -/
theorem Node.Reachable_tree_invariant_witness :
    exampleTree.Reachable ∧ exampleTree.parent = none ∧ exampleTree.ids.Nodup ∧
    exampleTree.ancestorAt 4 2 = some 1 :=
  have hcube : (Node.mk 3 .blueCube none [.mk 4 .redCube (some 3) []]).Reachable :=
    Node.Reachable.addChild (Node.new 3 .blueCube) (Node.new 4 .redCube) 3
      (Node.Reachable.fresh 3 .blueCube) (Node.Reachable.fresh 4 .redCube) (by decide)
  have hroot : (Node.mk 1 .node none [.mk 2 .cameraNode (some 1) []]).Reachable :=
    Node.Reachable.addChild (Node.new 1 .node) (Node.new 2 .cameraNode) 1
      (Node.Reachable.fresh 1 .node) (Node.Reachable.fresh 2 .cameraNode) (by decide)
  have hall : exampleTree.Reachable :=
    Node.Reachable.addChild _ _ 1 hroot hcube (by decide)
  ⟨hall, (Node.Reachable_tree_invariant exampleTree hall).1,
    (Node.Reachable_tree_invariant exampleTree hall).2.2.1, by decide⟩

/-- C19, evaluated: after `new DefaultScene(); new NextScene(); ChangeSceneByName("Default");
UnloadScene();` no scene is current and the default scene object is destroyed once, but the
registry still maps "Default" to it, so that `UnloadAllScenes()` deletes the destroyed scene
a second time and `ChangeSceneByName("Default")` calls `Reload` on it. -/
theorem SceneManager.UnloadScene_keeps_destroyed_scene_registered :
    ∃ w : World, SceneManager.UnloadScene World.mainStart = .ok w ∧
      World.mainStart.manager.currentScene = some 1 ∧
      (World.mainStart.scenes 1).isSome = true ∧
      w.manager.currentScene = none ∧ (w.scenes 1).isNone = true ∧
      w.manager.sceneMap.lookup "Default" = some 1 ∧
      w.trace.count (Event.sceneDestroyed 1) = 1 ∧
      faultOf (SceneManager.UnloadAllScenes w) = some Fault.doubleDelete ∧
      faultOf (SceneManager.ChangeSceneByName w "Default") = some Fault.useAfterFree := by
  refine ⟨_, rfl, ?_⟩
  decide

/-! ### Proofs: world transforms -/

theorem SpatialNode.GetWorldTransform_noneSpatial {M : Type} (R : Raymath M)
    (self : SpatialNode) (chain : List Ancestor) (h : Ancestor.noneSpatial chain = true) :
    SpatialNode.GetWorldTransform R self chain = self.GetTransformMatrix R := by
  cases chain with
  | nil => rfl
  | cons a rest =>
    cases a with
    | node => rfl
    | spatial p => simp [Ancestor.noneSpatial] at h

theorem SpatialNode.worldTransformSpec_noneSpatial {M : Type} (R : Raymath M)
    (self : SpatialNode) (chain : List Ancestor) (h : Ancestor.noneSpatial chain = true) :
    SpatialNode.worldTransformSpec R self chain = self.GetTransformMatrix R := by
  induction chain with
  | nil => rfl
  | cons a rest ih =>
    cases a with
    | node => rw [SpatialNode.worldTransformSpec]; exact ih (by simpa [Ancestor.noneSpatial] using h)
    | spatial p => simp [Ancestor.noneSpatial] at h

theorem SpatialNode.GetWorldTransform_noGap {M : Type} (R : Raymath M)
    (chain : List Ancestor) : ∀ self : SpatialNode, Ancestor.noGap chain = true →
    SpatialNode.GetWorldTransform R self chain = SpatialNode.worldTransformSpec R self chain := by
  induction chain with
  | nil => intro self _; rfl
  | cons a rest ih =>
    intro self h
    cases a with
    | node =>
      have hrest : Ancestor.noneSpatial rest = true := by simpa [Ancestor.noGap] using h
      rw [SpatialNode.worldTransformSpec,
        SpatialNode.worldTransformSpec_noneSpatial R self rest hrest]
      rfl
    | spatial p =>
      rw [SpatialNode.GetWorldTransform, SpatialNode.worldTransformSpec,
        ih p (by simpa [Ancestor.noGap] using h)]

/-- C13, as stated, fails: for a spatial node at (0,1,0) whose parent is a plain `Node` and
whose grandparent is a spatial node at (2,0,0), `GetWorldTransform` is the node's own
transform, with translation (0,1,0), and not the grandparent's world transform multiplied
with it, whose translation is (2,1,0). -/
theorem SpatialNode.GetWorldTransform_plain_parent :
    SpatialNode.GetWorldTransform (Raymath.exact cosNear0 sinNear0)
        (SpatialNode.placedAt ⟨0, 1, 0⟩) [.node, .spatial (SpatialNode.placedAt ⟨2, 0, 0⟩)] =
      (SpatialNode.placedAt ⟨0, 1, 0⟩).GetTransformMatrix (Raymath.exact cosNear0 sinNear0) ∧
    (SpatialNode.GetWorldTransform (Raymath.exact cosNear0 sinNear0)
        (SpatialNode.placedAt ⟨0, 1, 0⟩)
        [.node, .spatial (SpatialNode.placedAt ⟨2, 0, 0⟩)]).translation = ⟨0, 1, 0⟩ ∧
    ((Raymath.exact cosNear0 sinNear0).MatrixMultiply
        (SpatialNode.GetWorldTransform (Raymath.exact cosNear0 sinNear0)
          (SpatialNode.placedAt ⟨2, 0, 0⟩) [])
        ((SpatialNode.placedAt ⟨0, 1, 0⟩).GetTransformMatrix
          (Raymath.exact cosNear0 sinNear0))).translation = ⟨2, 1, 0⟩ ∧
    SpatialNode.GetWorldTransform (Raymath.exact cosNear0 sinNear0)
        (SpatialNode.placedAt ⟨0, 1, 0⟩) [.node, .spatial (SpatialNode.placedAt ⟨2, 0, 0⟩)] ≠
      (Raymath.exact cosNear0 sinNear0).MatrixMultiply
        (SpatialNode.GetWorldTransform (Raymath.exact cosNear0 sinNear0)
          (SpatialNode.placedAt ⟨2, 0, 0⟩) [])
        ((SpatialNode.placedAt ⟨0, 1, 0⟩).GetTransformMatrix
          (Raymath.exact cosNear0 sinNear0)) := by
  have h1 : (SpatialNode.GetWorldTransform (Raymath.exact cosNear0 sinNear0)
        (SpatialNode.placedAt ⟨0, 1, 0⟩)
        [.node, .spatial (SpatialNode.placedAt ⟨2, 0, 0⟩)]).translation = ⟨0, 1, 0⟩ := by
    simp [SpatialNode.GetWorldTransform, SpatialNode.GetTransformMatrix, Raymath.exact,
      SpatialNode.placedAt, Matrix.translation, cosNear0, sinNear0]
  have h2 : ((Raymath.exact cosNear0 sinNear0).MatrixMultiply
        (SpatialNode.GetWorldTransform (Raymath.exact cosNear0 sinNear0)
          (SpatialNode.placedAt ⟨2, 0, 0⟩) [])
        ((SpatialNode.placedAt ⟨0, 1, 0⟩).GetTransformMatrix
          (Raymath.exact cosNear0 sinNear0))).translation = ⟨2, 1, 0⟩ := by
    simp [SpatialNode.GetWorldTransform, SpatialNode.GetTransformMatrix, Raymath.exact,
      SpatialNode.placedAt, Matrix.translation, cosNear0, sinNear0]
  refine ⟨rfl, h1, h2, ?_⟩
  intro heq
  rw [heq, h2] at h1
  have := congrArg Vector3.x h1
  norm_num at this

/-- C13, amended: `GetWorldTransform` looks at the parent only.  With a parent that is a
`SpatialNode` it is the parent's world transform multiplied with the node's own transform;
without a parent, and with a parent that is not a `SpatialNode` whatever lies above it, it is
the node's own transform.  So it is the transform of the specification, composed along the
nearest spatial ancestors, whenever no plain node lies between two spatial nodes of the
chain, and it is the own transform when no ancestor is spatial. -/
theorem SpatialNode.GetWorldTransform_parent_only {M : Type} (R : Raymath M)
    (self : SpatialNode) :
    (∀ (p : SpatialNode) (rest : List Ancestor),
      SpatialNode.GetWorldTransform R self (.spatial p :: rest) =
        R.MatrixMultiply (SpatialNode.GetWorldTransform R p rest) (self.GetTransformMatrix R)) ∧
    SpatialNode.GetWorldTransform R self [] = self.GetTransformMatrix R ∧
    (∀ rest : List Ancestor,
      SpatialNode.GetWorldTransform R self (.node :: rest) = self.GetTransformMatrix R) ∧
    (∀ chain : List Ancestor, Ancestor.noGap chain = true →
      SpatialNode.GetWorldTransform R self chain =
        SpatialNode.worldTransformSpec R self chain) ∧
    (∀ chain : List Ancestor, Ancestor.noneSpatial chain = true →
      SpatialNode.GetWorldTransform R self chain = self.GetTransformMatrix R) :=
  ⟨fun _ _ => rfl, rfl, fun _ => rfl,
    fun chain h => SpatialNode.GetWorldTransform_noGap R chain self h,
    fun chain h => SpatialNode.GetWorldTransform_noneSpatial R self chain h⟩

theorem SpatialNode.placedAt_GetTransformMatrix (cos sin : ℚ → ℚ) (h0 : cos 0 = 1)
    (h1 : sin 0 = 0) (v : Vector3) :
    (SpatialNode.placedAt v).GetTransformMatrix (Raymath.exact cos sin) =
      (Raymath.exact cos sin).MatrixTranslate v.x v.y v.z := by
  ext <;>
    simp [SpatialNode.GetTransformMatrix, SpatialNode.placedAt, Raymath.exact, h0, h1]

theorem Raymath.exact_translate_mul (cos sin : ℚ → ℚ) (a b c x y z : ℚ) :
    (Raymath.exact cos sin).MatrixMultiply ((Raymath.exact cos sin).MatrixTranslate a b c)
        ((Raymath.exact cos sin).MatrixTranslate x y z) =
      (Raymath.exact cos sin).MatrixTranslate (a + x) (b + y) (c + z) := by
  ext <;> simp [Raymath.exact]

theorem SpatialNode.GetWorldTransform_replicate (cos sin : ℚ → ℚ) (h0 : cos 0 = 1)
    (h1 : sin 0 = 0) (v : Vector3) (top : List Ancestor)
    (htop : Ancestor.noneSpatial top = true) (n : Nat) :
    SpatialNode.GetWorldTransform (Raymath.exact cos sin) (SpatialNode.placedAt v)
        (List.replicate n (.spatial (SpatialNode.placedAt v)) ++ top) =
      (Raymath.exact cos sin).MatrixTranslate ((n + 1) * v.x) ((n + 1) * v.y)
        ((n + 1) * v.z) := by
  induction n with
  | zero =>
    rw [List.replicate_zero, List.nil_append,
      SpatialNode.GetWorldTransform_noneSpatial _ _ top htop,
      SpatialNode.placedAt_GetTransformMatrix cos sin h0 h1]
    simp
  | succ m ih =>
    rw [List.replicate_succ, List.cons_append, SpatialNode.GetWorldTransform, ih,
      SpatialNode.placedAt_GetTransformMatrix cos sin h0 h1, Raymath.exact_translate_mul]
    congr 1 <;> push_cast <;> ring

/-- C14: with exact arithmetic and `cos 0 = 1`, `sin 0 = 0`, in a chain of `k >= 1` directly
nested spatial nodes, each at position `v` with zero rotation and unit scale, the first
below ancestors none of which is spatial, the translation part of the world transform of
the last node is `k` times `v`; and for every spatial node without spatial ancestor
`GetWorldTransform` is `GetTransformMatrix`. -/
theorem SpatialNode.GetWorldTransform_chain (cos sin : ℚ → ℚ) (h0 : cos 0 = 1)
    (h1 : sin 0 = 0) (v : Vector3) (k : Nat) (hk : 1 ≤ k) (top : List Ancestor)
    (htop : Ancestor.noneSpatial top = true) :
    (SpatialNode.GetWorldTransform (Raymath.exact cos sin) (SpatialNode.placedAt v)
        (List.replicate (k - 1) (.spatial (SpatialNode.placedAt v)) ++ top)).translation =
      ⟨k * v.x, k * v.y, k * v.z⟩ ∧
    (∀ self : SpatialNode,
      SpatialNode.GetWorldTransform (Raymath.exact cos sin) self top =
        self.GetTransformMatrix (Raymath.exact cos sin)) := by
  refine ⟨?_, fun self => SpatialNode.GetWorldTransform_noneSpatial _ self top htop⟩
  rw [SpatialNode.GetWorldTransform_replicate cos sin h0 h1 v top htop (k - 1)]
  have hcast : ((k - 1 : Nat) : ℚ) + 1 = (k : ℚ) := by
    have : k - 1 + 1 = k := Nat.sub_add_cancel hk
    exact_mod_cast this
  simp [Raymath.exact, Matrix.translation, hcast]

/-- Instance of C14: three nested spatial nodes at (1,2,3) below a plain root. -/
theorem SpatialNode.GetWorldTransform_chain_witness :
    (SpatialNode.GetWorldTransform (Raymath.exact cosNear0 sinNear0)
        (SpatialNode.placedAt ⟨1, 2, 3⟩)
        (List.replicate (3 - 1) (.spatial (SpatialNode.placedAt ⟨1, 2, 3⟩)) ++
          [.node])).translation = ⟨(3 : Nat) * 1, (3 : Nat) * 2, (3 : Nat) * 3⟩ :=
  (SpatialNode.GetWorldTransform_chain cosNear0 sinNear0 (by norm_num [cosNear0])
    (by norm_num [sinNear0]) ⟨1, 2, 3⟩ 3 (by decide) [.node] rfl).1

/-- Instance of C13 as amended: below a spatial parent under a plain root the code composes
as the specification says. -/
theorem SpatialNode.GetWorldTransform_parent_only_witness :
    Ancestor.noGap [.spatial (SpatialNode.placedAt ⟨2, 0, 0⟩), .node] = true ∧
    SpatialNode.GetWorldTransform (Raymath.exact cosNear0 sinNear0)
        (SpatialNode.placedAt ⟨0, 1, 0⟩) [.spatial (SpatialNode.placedAt ⟨2, 0, 0⟩), .node] =
      SpatialNode.worldTransformSpec (Raymath.exact cosNear0 sinNear0)
        (SpatialNode.placedAt ⟨0, 1, 0⟩) [.spatial (SpatialNode.placedAt ⟨2, 0, 0⟩), .node] :=
  ⟨rfl, (SpatialNode.GetWorldTransform_parent_only (Raymath.exact cosNear0 sinNear0)
    (SpatialNode.placedAt ⟨0, 1, 0⟩)).2.2.2.1 _ rfl⟩

/-! ### Proofs: the camera node -/

/-- C15, as stated, fails: a camera at (0,4,-10) with zero rotation whose target pointer
refers to a live plain `Node` keeps its look-at target (0,0,0) in `Update`; the position
plus the rotated forward vector is (0,4,-9). -/
theorem CameraNode.Update_plain_target :
    ∃ after : CameraNode × List Event,
      CameraNode.Update (Raymath.exact cosNear0 sinNear0) (fun _ => Pointee.node)
        exampleCamera (1 / 60) = .ok after ∧
      after.1.camera.position = ⟨0, 4, -10⟩ ∧
      after.1.camera.target = ⟨0, 0, 0⟩ ∧
      (Raymath.exact cosNear0 sinNear0).Vector3Add exampleCamera.spatial.position
        ((Raymath.exact cosNear0 sinNear0).Vector3Transform ⟨0, 0, 1⟩
          ((Raymath.exact cosNear0 sinNear0).MatrixRotateXYZ exampleCamera.spatial.rotation)) =
        ⟨0, 4, -9⟩ ∧
      after.1.camera.target ≠
        (Raymath.exact cosNear0 sinNear0).Vector3Add exampleCamera.spatial.position
          ((Raymath.exact cosNear0 sinNear0).Vector3Transform ⟨0, 0, 1⟩
            ((Raymath.exact cosNear0 sinNear0).MatrixRotateXYZ
              exampleCamera.spatial.rotation)) := by
  have hfwd : (Raymath.exact cosNear0 sinNear0).Vector3Add exampleCamera.spatial.position
      ((Raymath.exact cosNear0 sinNear0).Vector3Transform ⟨0, 0, 1⟩
        ((Raymath.exact cosNear0 sinNear0).MatrixRotateXYZ exampleCamera.spatial.rotation)) =
      ⟨0, 4, -9⟩ := by
    simp [Raymath.exact, exampleCamera, SpatialNode.placedAt, cosNear0, sinNear0]
    norm_num
  refine ⟨_, rfl, rfl, rfl, hfwd, ?_⟩
  rw [hfwd]
  intro h
  have hz : (0 : ℚ) = -9 := congrArg Vector3.z h
  norm_num at hz

/-- C15, amended: `CameraNode::Update(dt)` sets the camera position to the node's position.
Without a target pointer the look-at target becomes the position plus the forward vector
(0,0,1) transformed by the rotation matrix; with a target pointer to a live `SpatialNode` it
becomes that node's position; with a target pointer to a live object that is not a
`SpatialNode` the look-at target stays as it was; a target pointer to a destroyed object is
dereferenced by the cast.  In the three defined cases the node is then updated as an
ordinary node: `ProcessInput`, then the children in order. -/
theorem CameraNode.Update_aims {M : Type} (R : Raymath M) (heap : Nat → Pointee)
    (self : CameraNode) (dt : ℚ) :
    (self.targetNode = none →
      CameraNode.Update R heap self dt =
        .ok ({ self with camera := { self.camera with
                position := self.spatial.position
                target := R.Vector3Add self.spatial.position
                  (R.Vector3Transform ⟨0, 0, 1⟩ (R.MatrixRotateXYZ self.spatial.rotation)) } },
          self.node.Update dt)) ∧
    (∀ (t : Nat) (fields : SpatialNode), self.targetNode = some t →
      heap t = Pointee.spatial fields →
      CameraNode.Update R heap self dt =
        .ok ({ self with camera := { self.camera with
                position := self.spatial.position, target := fields.position } },
          self.node.Update dt)) ∧
    (∀ t : Nat, self.targetNode = some t → heap t = Pointee.node →
      CameraNode.Update R heap self dt =
        .ok ({ self with camera := { self.camera with position := self.spatial.position } },
          self.node.Update dt)) ∧
    (∀ t : Nat, self.targetNode = some t → heap t = Pointee.destroyed →
      CameraNode.Update R heap self dt = .error Fault.useAfterFree) ∧
    self.node.Update dt =
      Event.nodeUpdate self.node.id :: Event.processInput self.node.id ::
        self.node.children.flatMap (Node.Update dt) := by
  refine ⟨?_, ?_, ?_, ?_, Node.Update_unfold dt self.node⟩
  · intro h
    simp only [CameraNode.Update, h]
  · intro t fields h ht
    simp only [CameraNode.Update, h, ht]
  · intro t h ht
    simp only [CameraNode.Update, h, ht]
  · intro t h ht
    simp only [CameraNode.Update, h, ht]

/-- Instance of C15 as amended: the example camera tracking a live spatial node at
(0,1,0). -/
theorem CameraNode.Update_aims_witness :
    exampleCamera.targetNode = some 9 ∧
    CameraNode.Update (Raymath.exact cosNear0 sinNear0)
        (fun _ => Pointee.spatial (SpatialNode.placedAt ⟨0, 1, 0⟩)) exampleCamera (1 / 60) =
      .ok ({ exampleCamera with camera := { exampleCamera.camera with
              position := exampleCamera.spatial.position
              target := (SpatialNode.placedAt ⟨0, 1, 0⟩).position } },
        exampleCamera.node.Update (1 / 60)) :=
  ⟨rfl, (CameraNode.Update_aims (Raymath.exact cosNear0 sinNear0)
    (fun _ => Pointee.spatial (SpatialNode.placedAt ⟨0, 1, 0⟩)) exampleCamera (1 / 60)).2.1 9
      (SpatialNode.placedAt ⟨0, 1, 0⟩) rfl rfl⟩

/-! ### Proofs: the frame loop -/

theorem DotApp.frame_keeps_coroutines (app app' : App) (dt : ℚ) (pressed : Bool)
    (h : DotApp.frame app dt pressed = .ok app') : app'.coroutines = app.coroutines := by
  unfold DotApp.frame at h
  have hov : ∀ app1, DebugOverlay.Draw app = .ok app1 → app1.coroutines = app.coroutines := by
    intro app1 h1
    unfold DebugOverlay.Draw at h1
    split at h1
    · cases h1
    · split at h1
      · cases h1
      · split at h1
        · cases h1; rfl
        · cases h1; rfl
  split at h
  · cases h
  · rename_i app1 h1
    split at h
    · cases h
    · split at h
      · cases h
      · cases h
        exact hov app1 h1

theorem Except.exists_ok_of_decide {ε α : Type} (x : Except ε α) (P : α → Prop)
    [DecidablePred P]
    (h : (match x with
      | .ok a => decide (P a)
      | .error _ => false) = true) : ∃ a, x = .ok a ∧ P a := by
  cases x with
  | error e => simp at h
  | ok a => exact ⟨a, rfl, by simpa using h⟩

/-- C18, as stated, fails: in a frame of `DotApp::Run` from the state at the start of `main`
with a coroutine registered by `StartCoroutine`, the calls are the debug overlay, the input
update, the update of the scene tree, `BeginDrawing`, `ClearBackground`, the drawing of the
scene tree inside the camera mode and `EndDrawing`; the coroutine scheduler is not updated:
the step function that `CoroutineManager::Update` would invoke has not been invoked after
the frame, nor after a whole run of three frames. -/
theorem DotApp.frame_skips_coroutines :
    (∃ app' : App, DotApp.frame App.mainWithCoroutine (1 / 60) false = .ok app' ∧
      app'.world.trace = App.mainWithCoroutine.world.trace ++
        [Event.debugOverlay "Default", Event.inputUpdate,
          Event.nodeUpdate 5, Event.processInput 5, Event.nodeUpdate 6, Event.processInput 6,
          Event.nodeUpdate 7, Event.processInput 7, Event.nodeUpdate 8, Event.processInput 8,
          Event.beginDrawing, Event.clearBackground,
          Event.beginMode3D 6, Event.nodeDraw 5, Event.nodeDraw 6, Event.nodeDraw 7,
          Event.nodeDraw 8, Event.endMode3D, Event.endDrawing] ∧
      app'.coroutines.coroutines.map (fun c => (c.func.tag, c.func.calls)) = [(7, 0)]) ∧
    (App.mainWithCoroutine.coroutines.Update (1 / 60)).2 = [7] ∧
    (∃ app' : App,
      DotApp.Run App.mainWithCoroutine [(1 / 60, false), (1 / 60, true), (1 / 60, false)] =
        .ok app' ∧
      app'.coroutines.coroutines.map (fun c => (c.func.tag, c.func.calls)) = [(7, 0)]) := by
  refine ⟨Except.exists_ok_of_decide _ _ (by decide!), ?_,
    Except.exists_ok_of_decide _ _ (by decide!)⟩
  rw [CoroutineManager.Update_eq]
  simp [App.mainWithCoroutine, CoroutineManager.StartCoroutine, Coroutine.tickSpec_new,
    exampleSteps]

theorem Scene.Draw_of_live_camera (s : Scene) (r : Node) (hr : s.root = some r)
    (hcam : ∀ c, s.cameraNode = some c → s.cameraIsLive c = true) :
    s.Draw =
      .ok ({ s with cameraNode := s.cameraNode.or r.findFirstCameraNode },
        Scene.drawWith { s with cameraNode := s.cameraNode.or r.findFirstCameraNode }) := by
  obtain ⟨kind, name, root, cam⟩ := s
  simp only at hr hcam
  subst hr
  cases cam with
  | none => simp [Scene.Draw, Scene.FindFirstCameraNode]
  | some c => simp [Scene.Draw, hcam c rfl]

/-- What `Reload()` does to any scene object: it succeeds and leaves a scene with a root
whose camera, if `Start` has set one, is a camera node of the new tree. -/
theorem Scene.Reload_loaded (sc : Scene) (self next : Nat) :
    ∃ (sc' : Scene) (next' : Nat) (events : List Event) (root' : Node),
      sc.Reload self next = .ok (sc', next', events) ∧ sc'.root = some root' ∧
      (∀ c, sc'.cameraNode = some c → sc'.cameraIsLive c = true) := by
  obtain ⟨k, name, root, cam⟩ := sc
  cases k
  · exact ⟨_, _, _, _, rfl, rfl, by intro c hc; cases hc⟩
  · refine ⟨_, _, _, _, rfl, rfl, ?_⟩
    intro c hc
    cases hc
    simp [Scene.cameraIsLive, Node.AddChild, Node.new, Node.find?, Node.findInList?, Node.id,
      Node.kind, Node.parent, Node.children, Scene.Unload, NodeKind.isCamera]
  · refine ⟨_, _, _, _, rfl, rfl, ?_⟩
    intro c hc
    cases hc
    simp [Scene.cameraIsLive, Node.AddChild, Node.new, Node.find?, Node.findInList?, Node.id,
      Node.kind, Node.parent, Node.children, Scene.Unload, NodeKind.isCamera]

/-- C18, amended: in a frame of `DotApp::Run` with a loaded current scene whose camera
pointer, if set, is live, the calls happen in this order: the debug overlay (which prints
when the scene name is new), the input update, the update of the current scene,
`BeginDrawing` and `ClearBackground`, the drawing of the scene that is current by then
(inside the camera mode when it has or finds a camera), `EndDrawing`; the coroutine
scheduler is not updated, the frame leaves the coroutine manager as it was.  The update of
the current scene is the update of its tree when the key is not pressed or the scene is a
plain `Scene`.  When the key is pressed in a `DefaultScene` (or `NextScene`) it first prints
the message and calls `ChangeSceneByName("Next")` (or `"Default"`): with no such entry this
prints the not-found message and the scene stays current; with a live scene under that name
that scene becomes current and is reloaded; after that the tree which the scene object that
was current has by then is updated, and the drawing is that of the new current scene. -/
theorem DotApp.frame_order (app : App) (dt : ℚ) (cur : Nat) (sc : Scene) (root : Node)
    (hcur : app.world.manager.currentScene = some cur)
    (hlive : app.world.scenes cur = some sc) (hroot : sc.root = some root)
    (hcam : ∀ c, sc.cameraNode = some c → sc.cameraIsLive c = true) :
    (∀ pressed : Bool, pressed = false ∨ sc.kind = .scene →
      DotApp.frame app dt pressed =
        .ok { world :=
                { scenes := Function.update app.world.scenes cur
                    (some { sc with cameraNode := sc.cameraNode.or root.findFirstCameraNode })
                  manager := app.world.manager
                  nextAddr := app.world.nextAddr
                  trace := app.world.trace ++
                    (if sc.name ≠ app.lastPrintedSceneName then [Event.debugOverlay sc.name]
                      else []) ++
                    [Event.inputUpdate] ++ root.Update dt ++
                    [Event.beginDrawing, Event.clearBackground] ++
                    Scene.drawWith
                      { sc with cameraNode := sc.cameraNode.or root.findFirstCameraNode } ++
                    [Event.endDrawing] }
              coroutines := app.coroutines
              lastPrintedSceneName := sc.name }) ∧
    (∀ other : String,
      (sc.kind = .defaultScene ∧ other = "Next") ∨
        (sc.kind = .nextScene ∧ other = "Default") →
      (app.world.manager.sceneMap.lookup other = none →
        DotApp.frame app dt true =
          .ok { world :=
                  { scenes := Function.update app.world.scenes cur
                      (some { sc with
                        cameraNode := sc.cameraNode.or root.findFirstCameraNode })
                    manager := app.world.manager
                    nextAddr := app.world.nextAddr
                    trace := app.world.trace ++
                      (if sc.name ≠ app.lastPrintedSceneName then [Event.debugOverlay sc.name]
                        else []) ++
                      [Event.inputUpdate] ++ [Event.print "Space pressed\n"] ++
                      [Event.print ("[SceneManager] Scene not found: " ++ other ++ "\n")] ++
                      root.Update dt ++
                      [Event.beginDrawing, Event.clearBackground] ++
                      Scene.drawWith
                        { sc with cameraNode := sc.cameraNode.or root.findFirstCameraNode } ++
                      [Event.endDrawing] }
                coroutines := app.coroutines
                lastPrintedSceneName := sc.name }) ∧
      (∀ (target : Nat) (scTarget : Scene),
        app.world.manager.sceneMap.lookup other = some target →
        app.world.scenes target = some scTarget →
        ∃ (sc' : Scene) (next' : Nat) (events : List Event) (root' : Node),
          scTarget.Reload target app.world.nextAddr = .ok (sc', next', events) ∧
          sc'.root = some root' ∧
          DotApp.frame app dt true =
            .ok { world :=
                    { scenes := Function.update app.world.scenes target
                        (some { sc' with
                          cameraNode := sc'.cameraNode.or root'.findFirstCameraNode })
                      manager :=
                        { currentScene := some target
                          currentSceneName := other
                          sceneMap := app.world.manager.sceneMap }
                      nextAddr := next'
                      trace := app.world.trace ++
                        (if sc.name ≠ app.lastPrintedSceneName then
                          [Event.debugOverlay sc.name] else []) ++
                        [Event.inputUpdate] ++ [Event.print "Space pressed\n"] ++ events ++
                        (if cur = target then root' else root).Update dt ++
                        [Event.beginDrawing, Event.clearBackground] ++
                        Scene.drawWith
                          { sc' with
                            cameraNode := sc'.cameraNode.or root'.findFirstCameraNode } ++
                        [Event.endDrawing] }
                  coroutines := app.coroutines
                  lastPrintedSceneName := sc.name })) := by
  obtain ⟨world, coroutines, last⟩ := app
  obtain ⟨scenes, manager, nextAddr, trace⟩ := world
  simp only at hcur hlive
  have hov : DebugOverlay.Draw ⟨⟨scenes, manager, nextAddr, trace⟩, coroutines, last⟩ =
      .ok ⟨⟨scenes, manager, nextAddr,
        trace ++ (if sc.name ≠ last then [Event.debugOverlay sc.name] else [])⟩,
        coroutines, sc.name⟩ := by
    by_cases hn : sc.name = last
    · simp [DebugOverlay.Draw, hcur, hlive, hn]
    · simp [DebugOverlay.Draw, hcur, hlive, hn]
  have hdraw := Scene.Draw_of_live_camera sc root hroot hcam
  have hbase : ∀ w : World, w.scenes cur = some sc →
      w.baseUpdateScene cur dt = .ok { w with trace := w.trace ++ root.Update dt } := by
    intro w hw
    simp only [World.baseUpdateScene, hw, Scene.Update, hroot]
  refine ⟨?_, ?_⟩
  · intro pressed hquiet
    have hupd : ∀ w : World, w.scenes cur = some sc →
        w.updateScene cur dt pressed = .ok { w with trace := w.trace ++ root.Update dt } := by
      intro w hw
      rcases hquiet with rfl | hk
      · cases hk : sc.kind <;>
          simp only [World.updateScene, hw, hk, World.switchingUpdateScene, hbase w hw,
            Bool.false_eq_true, if_false]
      · simp only [World.updateScene, hw, hk, hbase w hw]
    have h1 := hupd ⟨scenes, manager, nextAddr,
      trace ++ (if sc.name ≠ last then [Event.debugOverlay sc.name] else []) ++
        [Event.inputUpdate]⟩ hlive
    simp only [DotApp.frame, hov, SceneManager.Update, hcur, h1, SceneManager.Draw,
      World.drawScene, hlive, hdraw]
  · intro other hother
    have hsw : ∀ w : World, w.scenes cur = some sc →
        w.updateScene cur dt true = w.switchingUpdateScene cur other dt true := by
      intro w hw
      rcases hother with ⟨hk, rfl⟩ | ⟨hk, rfl⟩ <;> simp only [World.updateScene, hw, hk]
    have h1 := hsw ⟨scenes, manager, nextAddr,
      trace ++ (if sc.name ≠ last then [Event.debugOverlay sc.name] else []) ++
        [Event.inputUpdate]⟩ hlive
    refine ⟨?_, ?_⟩
    · intro hnone
      have h2 := hbase ⟨scenes, manager, nextAddr,
        trace ++ (if sc.name ≠ last then [Event.debugOverlay sc.name] else []) ++
          [Event.inputUpdate] ++ [Event.print "Space pressed\n"] ++
          [Event.print ("[SceneManager] Scene not found: " ++ other ++ "\n")]⟩ hlive
      simp only [DotApp.frame, hov, SceneManager.Update, hcur, h1,
        World.switchingUpdateScene, if_true, SceneManager.ChangeSceneByName, hnone,
        h2, SceneManager.Draw, World.drawScene, hlive, hdraw]
    · intro target scTarget hlook htarget
      simp only at hlook htarget
      obtain ⟨sc', next', events, root', hrel, hr', hcam'⟩ :=
        Scene.Reload_loaded scTarget target nextAddr
      have hdraw' := Scene.Draw_of_live_camera sc' root' hr' hcam'
      refine ⟨sc', next', events, root', hrel, hr', ?_⟩
      by_cases hc : cur = target
      · subst hc
        have hsame : scTarget = sc := by
          rw [hlive] at htarget
          exact (Option.some.inj htarget).symm
        subst hsame
        simp only [DotApp.frame, hov, SceneManager.Update, hcur, h1,
          World.switchingUpdateScene, if_true, SceneManager.ChangeSceneByName, hlook,
          World.reloadScene, hlive, hrel, World.baseUpdateScene, Function.update_same,
          Scene.Update, hr', SceneManager.Draw, World.drawScene, hdraw',
          Function.update_idem]
      · have hkeep : Function.update scenes target (some sc') cur = some sc := by
          rw [Function.update_noteq hc]
          exact hlive
        simp only [DotApp.frame, hov, SceneManager.Update, hcur, h1,
          World.switchingUpdateScene, if_true, SceneManager.ChangeSceneByName, hlook,
          Option.some.injEq, hc, if_false, World.reloadScene, htarget, hrel, World.baseUpdateScene, hkeep,
          Function.update_same, Scene.Update, hroot, SceneManager.Draw, World.drawScene,
          hdraw', Function.update_idem]

/-- Instance of C18 as amended: the first frame after the start of `main`, with the
scene-change key pressed: the next scene at address 3 becomes current and is reloaded, the
tree of the default scene is updated and the new tree of the next scene is drawn. -/
theorem DotApp.frame_order_witness :
    App.mainWithCoroutine.world.manager.currentScene = some 1 ∧
    App.mainWithCoroutine.world.scenes 1 = some exampleDefaultScene ∧
    exampleDefaultScene.cameraIsLive 6 = true ∧
    App.mainWithCoroutine.world.manager.sceneMap.lookup "Next" = some 3 ∧
    App.mainWithCoroutine.world.scenes 3 = some exampleNextScene ∧
    (∃ (sc' : Scene) (next' : Nat) (events : List Event) (root' : Node),
      exampleNextScene.Reload 3 App.mainWithCoroutine.world.nextAddr =
        .ok (sc', next', events) ∧
      sc'.root = some root' ∧
      DotApp.frame App.mainWithCoroutine (1 / 60) true =
        .ok { world :=
                { scenes := Function.update App.mainWithCoroutine.world.scenes 3
                    (some { sc' with
                      cameraNode := sc'.cameraNode.or root'.findFirstCameraNode })
                  manager :=
                    { currentScene := some 3
                      currentSceneName := "Next"
                      sceneMap := App.mainWithCoroutine.world.manager.sceneMap }
                  nextAddr := next'
                  trace := App.mainWithCoroutine.world.trace ++
                    (if exampleDefaultScene.name ≠ App.mainWithCoroutine.lastPrintedSceneName
                      then [Event.debugOverlay exampleDefaultScene.name] else []) ++
                    [Event.inputUpdate] ++ [Event.print "Space pressed\n"] ++ events ++
                    (if 1 = 3 then root' else
                      Node.mk 5 .node none
                        [.mk 6 .cameraNode (some 5) [],
                          .mk 7 .blueCube (some 5) [.mk 8 .redCube (some 7) []]]).Update
                      (1 / 60) ++
                    [Event.beginDrawing, Event.clearBackground] ++
                    Scene.drawWith
                      { sc' with
                        cameraNode := sc'.cameraNode.or root'.findFirstCameraNode } ++
                    [Event.endDrawing] }
              coroutines := App.mainWithCoroutine.coroutines
              lastPrintedSceneName := exampleDefaultScene.name }) ∧
    (∃ app' : App, DotApp.frame App.mainWithCoroutine (1 / 60) true = .ok app' ∧
      app'.world.manager.currentScene = some 3 ∧
      app'.world.trace = App.mainWithCoroutine.world.trace ++
        [Event.debugOverlay "Default", Event.inputUpdate, Event.print "Space pressed\n",
          Event.sceneReload 3, Event.print "[Scene] Resetting scene: Next\n",
          Event.sceneUnload 3, Event.nodeDestroyed 4,
          Event.sceneStart 3, Event.bindAction "Change Scene", Event.nodeStart 10,
          Event.nodeStart 11,
          Event.nodeUpdate 5, Event.processInput 5, Event.nodeUpdate 6, Event.processInput 6,
          Event.nodeUpdate 7, Event.processInput 7, Event.nodeUpdate 8, Event.processInput 8,
          Event.beginDrawing, Event.clearBackground,
          Event.beginMode3D 10, Event.nodeDraw 9, Event.nodeDraw 10, Event.nodeDraw 11,
          Event.endMode3D, Event.endDrawing]) :=
  ⟨rfl, rfl, rfl, rfl, rfl,
    ((DotApp.frame_order App.mainWithCoroutine (1 / 60) 1 exampleDefaultScene
      (.mk 5 .node none
        [.mk 6 .cameraNode (some 5) [], .mk 7 .blueCube (some 5) [.mk 8 .redCube (some 7) []]])
      rfl rfl rfl (by decide)).2 "Next" (Or.inl ⟨rfl, rfl⟩)).2 3 exampleNextScene rfl rfl,
    Except.exists_ok_of_decide _ _ (by decide!)⟩

/-- Instance of C11: a new spatial node 9 attached to the blue cube inside `exampleTree`. -/
theorem Node.AddChild_links_and_appends_witness :
    exampleTree.find? 3 = some exampleCube ∧
    (exampleTree.callAt (fun n => n.AddChild (Node.new 9 .spatialNode)) 3).2 =
      [Event.nodeStart 9] ∧
    (exampleTree.callAt (fun n => n.AddChild (Node.new 9 .spatialNode)) 3).1.table =
      [(1, none, [2, 3]), (2, some 1, []), (3, some 1, [4, 9]), (4, some 3, []),
        (9, some 3, [])] :=
  ⟨rfl,
    let ⟨_, _, _, _, h⟩ :=
      (Node.AddChild_links_and_appends exampleCube (Node.new 9 .spatialNode)).2.2.2.2.2.2.2
        exampleTree 3 rfl
    h,
    by decide⟩

/-- Instance of C12: removing the blue cube from the root of `exampleTree`, and a call with
an address that is no child of the root. -/
theorem Node.RemoveChild_present_or_noop_witness :
    exampleTree.children = [Node.mk 2 .cameraNode (some 1) []] ++ exampleCube :: [] ∧
    (exampleTree.RemoveChild 3).2 =
      [Event.onDestroy 3, Event.nodeDestroyed 4, Event.nodeDestroyed 3] ∧
    (exampleTree.RemoveChild 3).1.ids = [1, 2] ∧
    exampleTree.RemoveChild 4 = (exampleTree, []) :=
  ⟨rfl,
    congrArg Prod.snd
      ((Node.RemoveChild_present_or_noop exampleTree).1 exampleCube
        [Node.mk 2 .cameraNode (some 1) []] [] rfl (by decide)).1,
    by decide,
    (Node.RemoveChild_present_or_noop exampleTree).2 4 (by decide)⟩

end Dot
